import Mathlib

/-!
# eomap-js: the tile map compositor and the texture atlas cache

A shallow embedding of `src/gameobjects/eomap.js` and `src/gfx/texture-cache.js`.

* JavaScript numbers are exact here: tile coordinates and sizes are `Nat`, pixel
  positions are `Int`, depth keys, alpha values and camera coordinates are `Rat`.
* Objects that the source shares by reference and mutates in place (TileGraphic,
  cache entries, sections) live in stores indexed by a reference number; the
  containers of the source hold these reference numbers.
* A JavaScript exception is an `Except` error that carries its message and the
  state of the object at the moment of the throw.
-/

namespace Eomap

/-! ## Exceptions -/

/-- The monad of a method of an object with state `σ` that may throw: a throw carries its
message and the state the object is left in. -/
abbrev Throws (σ : Type) := Except (String × σ)

/-! ## texture-cache.js: cache entries -/

/-- A packed rectangle as the bin packer hands it out. -/
structure Bin where
  id : Nat
  x : Nat
  y : Nat
  w : Nat
  h : Nat
deriving DecidableEq, Repr

/-- The asset description attached to a cache entry: the resource it shows and its
pixel size (`asset.width`, `asset.height` in eomap.js). -/
structure AssetData where
  fileID : Nat
  resourceID : Nat
  width : Nat
  height : Nat
deriving DecidableEq, Repr

/-- TextureCacheEntry (texture-cache.js 5-25); `page` is the index of the owning page. -/
structure TextureCacheEntry where
  data : AssetData
  page : Nat
  bin : Bin
  refCount : Nat
deriving DecidableEq, Repr

/-- TextureCacheEntry.incRef (texture-cache.js 14-16). -/
def TextureCacheEntry.incRef (e : TextureCacheEntry) : TextureCacheEntry :=
  { e with refCount := e.refCount + 1 }

/-- TextureCacheEntry.decRef (texture-cache.js 18-24): throws on a zero count, before it
touches the count. -/
def TextureCacheEntry.decRef (e : TextureCacheEntry) :
    Throws TextureCacheEntry TextureCacheEntry :=
  if e.refCount = 0 then
    .error ("Negative asset entry refCount", e)
  else
    .ok { e with refCount := e.refCount - 1 }

/-! ## eomap.js: constants and the layer table -/

def SECTION_SIZE : Nat := 256

/-- Gap between the depth of each tile on a layer. -/
def TDG : Rat := 1 / 100000000

/-- Gap between the depth of each row of tiles. -/
def RDG : Rat := 1 / 1000

structure LayerInfo where
  xoff : Int
  yoff : Int
  alpha : Rat
  centered : Bool
  bottomOrigin : Bool
  depth : Rat

/-- The table `layerInfo` (eomap.js 9-25), in the order of the source. -/
def layerInfo : List LayerInfo := [
  ⟨0, 0, 1, false, false, -3 + TDG * 1⟩,       -- Ground
  ⟨-2, -2, 1, true, true, 0 + TDG * 2⟩,        -- Objects
  ⟨-2, -2, 1, true, true, 0 + TDG * 4⟩,        -- Overlay
  ⟨0, -1, 1, false, true, 0 + TDG * 3⟩,        -- Down Wall
  ⟨32, -1, 1, false, true, -RDG + TDG * 6⟩,    -- Right Wall
  ⟨0, -64, 1, false, true, 0 + TDG * 5⟩,       -- Roof
  ⟨0, -32, 1, false, true, 0 + TDG * 1⟩,       -- Top
  ⟨-24, -12, 1 / 5, false, false, -1 + TDG * 1⟩, -- Shadow
  ⟨-2, -2, 1, true, true, 1 + TDG * 1⟩,        -- Overlay 2
  ⟨0, 0, 1 / 4, false, false, -2 + TDG * 1⟩,   -- TileSpec
  ⟨0, 0, 1 / 4, false, false, 3 + TDG * 1⟩,    -- TileSpec overlay
  ⟨0, 0, 1 / 2, false, true, 4 + TDG * 1⟩,     -- Warp
  ⟨0, 0, 1 / 2, false, true, 4 + TDG * 2⟩,     -- Sign
  ⟨0, 0, 1 / 2, false, true, 4 + TDG * 3⟩,     -- Item
  ⟨0, 0, 1 / 2, false, true, 4 + TDG * 4⟩ ]    -- NPC

/-- The lookup `layerInfo[layer]`. The source raises a TypeError when it reads a field of
the result for a layer outside 0..14; every statement below is about layers 0..14. -/
def layerAt (layer : Nat) : LayerInfo :=
  layerInfo.getD layer ⟨0, 0, 0, false, false, 0⟩

def layerFiles : List Nat := [3, 4, 5, 6, 6, 7, 3, 22, 5]

/-- TileGraphic (eomap.js 31-48); `cacheEntry` is the reference of the shared cache entry. -/
structure TileGraphic where
  cacheEntry : Nat
  x : Int
  y : Int
  layer : Nat
  depth : Rat
  alpha : Rat
deriving DecidableEq

/-- The comparator `depthComparator` (eomap.js 29). -/
def depthComparator (a b : TileGraphic) : Rat := a.depth - b.depth

/-! ## Helpers of `../utils`, which src does not contain -/

/-- Modelled from the spec: `removeFirst` of utils, the identity-based linear removal of
the first occurrence of a value. -/
def removeFirst {α : Type} [DecidableEq α] (array : List α) (value : α) : List α :=
  array.erase value

/-- Modelled from the spec: `binaryInsert` of utils, the order-preserving insertion by
comparator: the value goes in front of the first element that compares greater. -/
def binaryInsert {α : Type} (comparator : α → α → Rat) : List α → α → List α
  | [], value => [value]
  | a :: rest, value =>
    if comparator a value ≤ 0 then a :: binaryInsert comparator rest value
    else value :: a :: rest

/-- Modelled from the spec: `arrayEquals` of utils, the unordered multiset equality by
identity of two arrays. -/
def arrayEquals {α : Type} [DecidableEq α] (a b : List α) : Bool :=
  decide (a.Perm b)

/-! ## eomap.js: map data and entity maps -/

structure Warp where
  door : Nat
deriving DecidableEq

structure Sign where
  title : String
deriving DecidableEq

/-- An item or NPC of the map file: its tile and, for an item, its chest key. -/
structure Entity where
  x : Nat
  y : Nat
  key : Nat
deriving DecidableEq

/-- A tile of the map data source: `gfx[0..8]` (`none` is JavaScript null), `spec`,
`warp` and `sign`. -/
structure Tile where
  gfx : Nat → Option Nat
  spec : Option Nat
  warp : Option Warp
  sign : Option Sign

/-- The map data source `emf`. -/
structure Emf where
  width : Nat
  height : Nat
  tiles : Nat → Nat → Tile
  items : List Entity
  npcs : List Entity

def Emf.getTile (emf : Emf) (x y : Nat) : Tile := emf.tiles x y

/-- The in-place update of the tile at (x, y). -/
def Emf.modifyTile (emf : Emf) (x y : Nat) (f : Tile → Tile) : Emf :=
  { emf with tiles := fun x' y' => if x' = x ∧ y' = y then f (emf.tiles x' y') else emf.tiles x' y' }

/-- EntityMap (eomap.js 50-85). -/
structure EntityMap where
  width : Nat
  height : Nat
  sparseArray : Nat → Option (List Entity)

def EntityMap.getIndex (em : EntityMap) (x y : Nat) : Nat := y * em.width + x

def EntityMap.get (em : EntityMap) (x y : Nat) : List Entity :=
  match em.sparseArray (em.getIndex x y) with
  | some entities => entities
  | none => []

def EntityMap.set (em : EntityMap) (x y : Nat) (entities : List Entity) : EntityMap :=
  let index := em.getIndex x y
  if entities.length = 0 then
    { em with sparseArray := Function.update em.sparseArray index none }
  else
    { em with sparseArray := Function.update em.sparseArray index (some entities) }

def EntityMap.add (em : EntityMap) (entity : Entity) : EntityMap :=
  let index := em.getIndex entity.x entity.y
  let entities := match em.sparseArray index with
    | some entities => entities
    | none => []
  { em with sparseArray := Function.update em.sparseArray index (some (entities ++ [entity])) }

/-- The lookups of the texture cache that eomap.js calls (`getResource`, `getSpec`,
`getEntity`): each gives the reference of a cache entry, or nothing. They are not in
src and are taken as given. -/
structure CacheLookup where
  getResource : Nat → Nat → Option Nat
  getSpec : Nat → Option Nat
  getEntity : String → Option Nat

/-- The camera of the scene, in world pixels. -/
structure Camera where
  scrollX : Rat
  scrollY : Rat
  width : Rat
  height : Rat

/-- The state of an EOMap (eomap.js 88-111).

* `entries` is the store of the cache entries the texture cache hands out;
* `graphics` is the store of the TileGraphic objects created so far, `nextGraphic`
  the reference the next `new TileGraphic` gets;
* `tileGraphics` maps a graphic index to the reference of its TileGraphic;
* `sections` maps a section number to the members of that Set, in insertion order;
* `visibleSections` and `renderList` hold references. -/
structure EOMap where
  textureCache : CacheLookup
  entries : Nat → TextureCacheEntry
  emf : Emf
  layerVisibility : Nat → Bool
  selectedLayer : Nat
  sectionWidth : Nat
  sectionHeight : Nat
  sections : Nat → List Nat
  visibleSections : List Nat
  items : EntityMap
  npcs : EntityMap
  graphics : Nat → TileGraphic
  nextGraphic : Nat
  tileGraphics : Nat → Option Nat
  renderList : List Nat
  dirtyRenderList : Bool

namespace EOMap

/-- The getter `TileGraphic.width` (eomap.js 41-43). -/
def width (m : EOMap) (tileGraphic : TileGraphic) : Nat :=
  (m.entries tileGraphic.cacheEntry).data.width

/-- The getter `TileGraphic.height` (eomap.js 45-47). -/
def height (m : EOMap) (tileGraphic : TileGraphic) : Nat :=
  (m.entries tileGraphic.cacheEntry).data.height

/-- EOMap.calcDepth (eomap.js 169-171). -/
def calcDepth (x y layer : Nat) : Rat :=
  (layerAt layer).depth + y * RDG + x * layerInfo.length * TDG

/-- EOMap.calcAlpha (eomap.js 173-179). -/
def calcAlpha (m : EOMap) (layer : Nat) : Rat :=
  let alpha := (layerAt layer).alpha
  if layer = 9 ∧ m.selectedLayer = 9 then alpha * 3 else alpha

/-- The number of the section `getSection(x, y)` returns (eomap.js 181-183). -/
def getSection (m : EOMap) (x y : Nat) : Nat := y * m.sectionWidth + x

/-- The values a loop `for (i = lo; i <= hi; ++i)` runs through. -/
def loopRange (lo hi : Int) : List Int :=
  (List.range (hi + 1 - lo).toNat).map fun i => lo + (i : Int)

/-- EOMap.findSections (eomap.js 185-216): the sections of the bounding box of a
TileGraphic, clamped to the grid, row by row. -/
def findSections (m : EOMap) (tileGraphic : TileGraphic) : List Nat :=
  let halfWidth : Int := m.emf.width * 32
  let x : Int := tileGraphic.x + halfWidth
  let y : Int := tileGraphic.y
  let width : Int := m.width tileGraphic
  let height : Int := m.height tileGraphic
  let top := Int.tdiv y SECTION_SIZE
  let bottom := Int.tdiv (y + height) SECTION_SIZE
  let left := Int.tdiv x SECTION_SIZE
  let right := Int.tdiv (x + width) SECTION_SIZE
  let bottom := min ((m.sectionHeight : Int) - 1) bottom
  let right := min ((m.sectionWidth : Int) - 1) right
  let top := max 0 top
  let bottom := max 0 bottom
  let left := max 0 left
  let right := max 0 right
  (loopRange top bottom).flatMap fun y =>
    (loopRange left right).map fun x => m.getSection x.toNat y.toNat

/-- EOMap.getTileGraphicIndex (eomap.js 352-354). -/
def getTileGraphicIndex (m : EOMap) (x y layer : Nat) : Nat :=
  (y * m.emf.width + x) * layerInfo.length + layer

/-- One round of the loop of updateEntityOffsets (eomap.js 430-437) on the store of
graphics and the running offset. -/
def entityOffsetStep (m : EOMap) (x y : Nat) (acc : (Nat → TileGraphic) × Int) (layer : Nat) :
    (Nat → TileGraphic) × Int :=
  match m.tileGraphics (m.getTileGraphicIndex x y layer) with
  | some entityGraphic =>
    (Function.update acc.1 entityGraphic
      { acc.1 entityGraphic with y := (x : Int) * 16 + (y : Int) * 16 + acc.2 }, acc.2 - 28)
  | none => acc

/-- EOMap.updateEntityOffsets (eomap.js 422-438). -/
def updateEntityOffsets (m : EOMap) (x y : Nat) : EOMap :=
  let offset : Int := -10
  let offset : Int :=
    match m.tileGraphics (m.getTileGraphicIndex x y 1) with
    | some object => min offset (10 - (m.height (m.graphics object) : Int))
    | none => offset
  { m with graphics := ([11, 12, 13, 14].foldl (m.entityOffsetStep x y) (m.graphics, offset)).1 }

/-- The deletion `section.delete(graphicIndex)` on a Set. -/
def sectionDelete (sectionSet : List Nat) (graphicIndex : Nat) : List Nat :=
  sectionSet.filter fun i => i ≠ graphicIndex

/-- The insertion `section.add(graphicIndex)` on a Set: a member is not added twice. -/
def sectionAdd (sectionSet : List Nat) (graphicIndex : Nat) : List Nat :=
  if graphicIndex ∈ sectionSet then sectionSet else sectionSet ++ [graphicIndex]

/-- What the removal of the old graphic does once its cache entry is released
(eomap.js 366-369): delete the index from the sections findSections gives for the old
graphic, delete the slot. `entry` is the released cache entry. -/
def dropGraphic (m : EOMap) (graphicIndex oldGraphic : Nat) (entry : TextureCacheEntry) : EOMap :=
  let old := m.graphics oldGraphic
  let m := { m with entries := Function.update m.entries old.cacheEntry entry }
  let sections := (m.findSections old).foldl
    (fun sections s => Function.update sections s (sectionDelete (sections s) graphicIndex))
    m.sections
  { m with sections := sections, tileGraphics := Function.update m.tileGraphics graphicIndex none }

/-- The removal of the old graphic in setTileGraphic (eomap.js 364-370): release the
cache entry, which may throw, then drop the graphic. -/
def removeOldGraphic (m : EOMap) (graphicIndex oldGraphic : Nat) : Throws EOMap EOMap :=
  let cacheEntry := (m.graphics oldGraphic).cacheEntry
  match (m.entries cacheEntry).decRef with
  | .error thrown =>
    .error (thrown.1, { m with entries := Function.update m.entries cacheEntry thrown.2 })
  | .ok entry => .ok (m.dropGraphic graphicIndex oldGraphic entry)

/-- The end of setTileGraphic when there is no cache entry (eomap.js 372-382);
`oldGraphic` is the graphic the slot held at the call. -/
def clearGraphic (m : EOMap) (x y layer : Nat) (oldGraphic : Option Nat)
    (modifyRenderList : Bool) : EOMap :=
  let m := if layer = 1 then m.updateEntityOffsets x y else m
  match oldGraphic with
  | some old =>
    if modifyRenderList then { m with renderList := removeFirst m.renderList old } else m
  | none => m

/-- The end of setTileGraphic with a cache entry (eomap.js 384-419): take a reference on
the entry, place the new TileGraphic, enter it into its sections, its slot and the render
list. -/
def createGraphic (m : EOMap) (x y layer cacheEntry : Nat) (modifyRenderList : Bool) : EOMap :=
  let graphicIndex := m.getTileGraphicIndex x y layer
  let m := { m with entries := Function.update m.entries cacheEntry (m.entries cacheEntry).incRef }
  let info := layerAt layer
  let tilex : Int := info.xoff + (x : Int) * 32 - (y : Int) * 32
  let tiley : Int := info.yoff + (x : Int) * 16 + (y : Int) * 16
  let asset := (m.entries cacheEntry).data
  let tilex := if info.centered then tilex - (((asset.width / 2 : Nat) : Int) - 32) else tilex
  let tiley := if info.bottomOrigin then tiley - ((asset.height : Int) - 32) else tiley
  let tileGraphic : TileGraphic :=
    ⟨cacheEntry, tilex, tiley, layer, calcDepth x y layer, m.calcAlpha layer⟩
  let ref := m.nextGraphic
  let m := { m with graphics := Function.update m.graphics ref tileGraphic, nextGraphic := ref + 1 }
  let sections := (m.findSections tileGraphic).foldl
    (fun sections s => Function.update sections s (sectionAdd (sections s) graphicIndex))
    m.sections
  let m := { m with sections := sections,
                    tileGraphics := Function.update m.tileGraphics graphicIndex (some ref) }
  let comparator := fun a b => depthComparator (m.graphics a) (m.graphics b)
  let m := if modifyRenderList then
      { m with renderList := binaryInsert comparator m.renderList ref }
    else m
  if layer = 1 then m.updateEntityOffsets x y else m

/-- EOMap.setTileGraphic (eomap.js 356-420). `modifyRenderList = none` is the argument
left undefined. -/
def setTileGraphic (m : EOMap) (x y layer : Nat) (cacheEntry : Option Nat)
    (modifyRenderList : Option Bool) : Throws EOMap EOMap := do
  let modifyRenderList := modifyRenderList.getD true
  let graphicIndex := m.getTileGraphicIndex x y layer
  let oldGraphic := m.tileGraphics graphicIndex
  let m ← match oldGraphic with
    | some old => m.removeOldGraphic graphicIndex old
    | none => pure m
  match cacheEntry with
  | none => pure (m.clearGraphic x y layer oldGraphic modifyRenderList)
  | some cacheEntry => pure (m.createGraphic x y layer cacheEntry modifyRenderList)

/-- EOMap.setGraphic (eomap.js 244-264). The warning of line 258 names the variable
`file`, which does not exist: evaluating its arguments throws a ReferenceError. -/
def setGraphic (m : EOMap) (x y : Nat) (gfx : Option Nat) (layer : Nat)
    (modifyRenderList : Option Bool) : Throws EOMap EOMap :=
  if gfx = some 0 ∧ layer ≠ 0 then
    pure m
  else
    let m := { m with emf := m.emf.modifyTile x y fun tile =>
      { tile with gfx := Function.update tile.gfx layer gfx } }
    match gfx with
    | none => m.setTileGraphic x y layer none modifyRenderList
    | some 0 => m.setTileGraphic x y layer none modifyRenderList
    | some gfx =>
      let fileID := layerFiles.getD layer 0
      let resourceID := gfx + 100
      match m.textureCache.getResource fileID resourceID with
      | none => .error ("ReferenceError: file is not defined", m)
      | some cacheEntry => m.setTileGraphic x y layer (some cacheEntry) modifyRenderList

/-- EOMap.setSpec (eomap.js 266-281). -/
def setSpec (m : EOMap) (x y : Nat) (tileSpec : Option Nat)
    (modifyRenderList : Option Bool) : Throws EOMap EOMap :=
  let m := { m with emf := m.emf.modifyTile x y fun tile => { tile with spec := tileSpec } }
  match tileSpec with
  | none => do
    let m ← m.setTileGraphic x y 9 none modifyRenderList
    m.setTileGraphic x y 10 none modifyRenderList
  | some tileSpec =>
    match m.textureCache.getSpec tileSpec with
    | none => pure m
    | some cacheEntry => do
      let m ← m.setTileGraphic x y 9 (some cacheEntry) modifyRenderList
      m.setTileGraphic x y 10 (some cacheEntry) modifyRenderList

/-- EOMap.draw (eomap.js 218-230). -/
def draw (m : EOMap) (x y : Nat) (drawID : Option Nat) (layer : Int)
    (modifyRenderList : Option Bool) : Throws EOMap EOMap :=
  if 0 ≤ layer ∧ layer ≤ 8 then
    m.setGraphic x y drawID layer.toNat modifyRenderList
  else if layer = 9 then
    m.setSpec x y drawID modifyRenderList
  else
    .error ("Invalid draw layer: " ++ toString layer, m)

/-- EOMap.getDrawID (eomap.js 232-242). -/
def getDrawID (m : EOMap) (x y : Nat) (layer : Int) : Except String (Option Nat) :=
  if 0 ≤ layer ∧ layer ≤ 8 then
    .ok ((m.emf.getTile x y).gfx layer.toNat)
  else if layer = 9 then
    .ok (m.emf.getTile x y).spec
  else
    .error ("Invalid draw layer: " ++ toString layer)

/-- EOMap.setWarp (eomap.js 283-306). -/
def setWarp (m : EOMap) (x y : Nat) (warp : Option Warp) : Throws EOMap EOMap := do
  let m := { m with emf := m.emf.modifyTile x y fun tile => { tile with warp := warp } }
  let cacheEntry :=
    match warp with
    | some warp =>
      let entityType :=
        if warp.door = 0 then "warp" else if warp.door = 1 then "door" else "lockeddoor"
      m.textureCache.getEntity entityType
    | none => none
  let m ← m.setTileGraphic x y 11 cacheEntry none
  pure (m.updateEntityOffsets x y)

/-- EOMap.setSign (eomap.js 308-320). -/
def setSign (m : EOMap) (x y : Nat) (sign : Option Sign) : Throws EOMap EOMap := do
  let m := { m with emf := m.emf.modifyTile x y fun tile => { tile with sign := sign } }
  let cacheEntry :=
    match sign with
    | some _ => m.textureCache.getEntity "sign"
    | none => none
  let m ← m.setTileGraphic x y 12 cacheEntry none
  pure (m.updateEntityOffsets x y)

/-- EOMap.setItems (eomap.js 322-337). -/
def setItems (m : EOMap) (x y : Nat) (items : List Entity) : Throws EOMap EOMap := do
  let m := { m with items := m.items.set x y items }
  let cacheEntry :=
    if items.length > 0 then
      let entityKey := if items.any (fun item => item.key > 0) then "chest" else "items"
      m.textureCache.getEntity entityKey
    else none
  let m ← m.setTileGraphic x y 13 cacheEntry none
  pure (m.updateEntityOffsets x y)

/-- EOMap.setNPCs (eomap.js 339-350). -/
def setNPCs (m : EOMap) (x y : Nat) (npcs : List Entity) : Throws EOMap EOMap := do
  let m := { m with npcs := m.npcs.set x y npcs }
  let cacheEntry := if npcs.length > 0 then m.textureCache.getEntity "npc" else none
  let m ← m.setTileGraphic x y 14 cacheEntry none
  pure (m.updateEntityOffsets x y)

/-- The first loop of rebuildRenderList (eomap.js 148-156) over the graphic indices of the
visible sections, in the order the loops visit them; `acc` is the Set
`visibleGraphicIndices`. `none` is the TypeError of line 151 on an index without a
TileGraphic. -/
def collectVisible (m : EOMap) : List Nat → List Nat → Option (List Nat)
  | [], acc => some acc
  | graphicIndex :: rest, acc =>
    match m.tileGraphics graphicIndex with
    | none => none
    | some ref =>
      if m.layerVisibility (m.graphics ref).layer then
        collectVisible m rest (sectionAdd acc graphicIndex)
      else
        collectVisible m rest acc

/-- The callback of `Array.from` in rebuildRenderList (eomap.js 158-162): set the alpha of
the graphic of an index and append the graphic to the new render list. -/
def alphaStep (m : EOMap) (acc : (Nat → TileGraphic) × List Nat) (index : Nat) :
    (Nat → TileGraphic) × List Nat :=
  match m.tileGraphics index with
  | some ref =>
    (Function.update acc.1 ref { acc.1 ref with alpha := m.calcAlpha (acc.1 ref).layer },
      acc.2 ++ [ref])
  | none => acc

/-- EOMap.rebuildRenderList (eomap.js 147-167). The sort is the insertion sort by
`depthComparator`, which keeps equal keys in their order. -/
def rebuildRenderList (m : EOMap) : Throws EOMap EOMap :=
  match m.collectVisible (m.visibleSections.flatMap m.sections) [] with
  | none => .error ("TypeError: cannot read properties of undefined", m)
  | some visibleGraphicIndices =>
    let built := visibleGraphicIndices.foldl m.alphaStep (m.graphics, [])
    let graphics := built.1
    let renderList := built.2.insertionSort
      (fun a b => depthComparator (graphics a) (graphics b) ≤ 0)
    .ok { m with graphics := graphics, renderList := renderList, dirtyRenderList := false }

/-- The clamped viewport of cull (eomap.js 441-469): (cullTop, cullBottom, cullLeft,
cullRight). -/
def cullRange (m : EOMap) (camera : Camera) : Rat × Rat × Rat × Rat :=
  let halfWidth : Rat := m.emf.width * 32
  let fullHeight : Rat := m.emf.height * 32
  let cullTop := camera.scrollY
  let cullBottom := cullTop + camera.height
  let cullLeft := camera.scrollX
  let cullRight := cullLeft + camera.width
  let vertical : Rat × Rat :=
    if cullBottom < 0 then (-camera.height, 0)
    else if cullTop > fullHeight then (fullHeight, fullHeight + camera.height)
    else (cullTop, cullBottom)
  let horizontal : Rat × Rat :=
    if cullRight < -halfWidth then (-halfWidth - camera.width, -halfWidth)
    else if cullLeft > halfWidth then (halfWidth, halfWidth + camera.width)
    else (cullLeft, cullRight)
  (max 0 vertical.1, min fullHeight vertical.2, max (-halfWidth) horizontal.1,
    min halfWidth horizontal.2)

/-- The test `isVisible` of cull (eomap.js 475-485) for the grid cell (x, y). -/
def isVisible (m : EOMap) (camera : Camera) (x y : Nat) : Bool :=
  let halfWidth : Rat := m.emf.width * 32
  let range := m.cullRange camera
  let top : Rat := y * SECTION_SIZE
  let bottom : Rat := top + SECTION_SIZE
  let left : Rat := -halfWidth + x * SECTION_SIZE
  let right : Rat := left + SECTION_SIZE
  decide (right ≥ range.2.2.1 ∧ left ≤ range.2.2.2 ∧ bottom ≥ range.1 ∧ top ≤ range.2.1)

/-- EOMap.cull (eomap.js 440-496). -/
def cull (m : EOMap) (camera : Camera) : EOMap :=
  let oldVisibleSections := m.visibleSections
  let visibleSections := (List.range m.sectionHeight).flatMap fun y =>
    (List.range m.sectionWidth).filterMap fun x =>
      if m.isVisible camera x y then some (m.getSection x y) else none
  { m with
    visibleSections := visibleSections,
    dirtyRenderList := if arrayEquals oldVisibleSections visibleSections then m.dirtyRenderList
                       else true }

/-- The body of the loops of initTileGraphics (eomap.js 133-142) for one tile. -/
def initTile (m : EOMap) (x y : Nat) : Throws EOMap EOMap := do
  let tile := m.emf.getTile x y
  let m ← (List.range 9).foldlM (fun m layer => m.setGraphic x y (tile.gfx layer) layer none) m
  let m ← m.setSpec x y tile.spec none
  let m ← m.setWarp x y tile.warp
  let m ← m.setSign x y tile.sign
  let m ← m.setItems x y (m.items.get x y)
  m.setNPCs x y (m.npcs.get x y)

/-- EOMap.initTileGraphics (eomap.js 130-145). -/
def initTileGraphics (m : EOMap) : Throws EOMap EOMap :=
  ((List.range m.emf.height).flatMap fun y => (List.range m.emf.width).map fun x => (x, y)).foldlM
    (fun m tile => m.initTile tile.1 tile.2) m

/-- The fields the constructor of EOMap sets (eomap.js 88-107) with initSections and
initEntityMaps, before initTileGraphics runs; `entries` is the store of the entries of the
texture cache. -/
def init (textureCache : CacheLookup) (entries : Nat → TextureCacheEntry) (emf : Emf)
    (layerVisibility : Nat → Bool) : EOMap :=
  { textureCache := textureCache
    entries := entries
    emf := emf
    layerVisibility := layerVisibility
    selectedLayer := 0
    sectionWidth := (emf.width * 64 + (SECTION_SIZE - 1)) / SECTION_SIZE
    sectionHeight := (emf.height * 32 + (SECTION_SIZE - 1)) / SECTION_SIZE
    sections := fun _ => []
    visibleSections := []
    items := emf.items.foldl EntityMap.add ⟨emf.width, emf.height, fun _ => none⟩
    npcs := emf.npcs.foldl EntityMap.add ⟨emf.width, emf.height, fun _ => none⟩
    graphics := fun _ => ⟨0, 0, 0, 0, 0, 0⟩
    nextGraphic := 0
    tileGraphics := fun _ => none
    renderList := []
    dirtyRenderList := false }

/-- The constructor of EOMap (eomap.js 88-111). -/
def new (textureCache : CacheLookup) (entries : Nat → TextureCacheEntry) (emf : Emf)
    (layerVisibility : Nat → Bool) : Throws EOMap EOMap :=
  (init textureCache entries emf layerVisibility).initTileGraphics

/-- EOMap.setLayerVisibility (eomap.js 498-501). -/
def setLayerVisibility (m : EOMap) (layerVisibility : Nat → Bool) : EOMap :=
  { m with layerVisibility := layerVisibility, dirtyRenderList := true }

/-- EOMap.setSelectedLayer (eomap.js 503-506). -/
def setSelectedLayer (m : EOMap) (selectedLayer : Nat) : EOMap :=
  { m with selectedLayer := selectedLayer, dirtyRenderList := true }

end EOMap

/-! ## texture-cache.js: pages and the cache -/

/-- The bin packer of a page (the external library shelf-pack), taken as given:
`create w h` is `new ShelfPack(w, h)`; `packOne p w h` is `p.packOne(w, h)`, the bin or
nothing, together with the packer after the call; `hasBin p id` tells whether
`p.bins[id]` is defined. -/
structure Packer (P : Type) where
  create : Nat → Nat → P
  packOne : P → Nat → Nat → Option Bin × P
  hasBin : P → Nat → Bool

/-- The getter TextureCachePage.empty (texture-cache.js 33-35). -/
def Packer.empty {P : Type} (pk : Packer P) (page : P) : Bool :=
  !pk.hasBin page 1

/-- The state of a TextureCache (texture-cache.js 38-57), and of an EvictingTextureCache
with its flag `canEvict` (185-189).

* `gfxLoader` is `gfxLoader.info`: the pixel size of a resource, or nothing;
* `width`, `height` are the size of a page; `pages` holds the packer of each page;
* `entries` is the store of the entries created so far, `nextEntry` the reference of the
  next one; `assets` is the Map from asset key to entry, in insertion order, the key
  `fileID + "." + resourceID` being the pair of the two numbers;
* `frames` are the keys of the frames of the multi texture. -/
structure TextureCache (P : Type) where
  gfxLoader : Nat → Nat → Option (Nat × Nat)
  width : Nat
  height : Nat
  pages : List P
  entries : Nat → TextureCacheEntry
  nextEntry : Nat
  assets : List ((Nat × Nat) × Nat)
  pending : List Nat
  frames : List (Nat × Nat)
  canEvict : Bool

namespace TextureCache

variable {P : Type}

/-- The constructor (texture-cache.js 39-57, 186-189): one first page. -/
def new (pk : Packer P) (gfxLoader : Nat → Nat → Option (Nat × Nat)) (width height : Nat) :
    TextureCache P :=
  { gfxLoader := gfxLoader, width := width, height := height,
    pages := [pk.create width height],
    entries := fun _ => ⟨⟨0, 0, 0, 0⟩, 0, ⟨0, 0, 0, 0, 0⟩, 0⟩, nextEntry := 0,
    assets := [], pending := [], frames := [], canEvict := true }

/-- TextureCache.makeAssetKey (texture-cache.js 59-61). -/
def makeAssetKey (fileID resourceID : Nat) : Nat × Nat := (fileID, resourceID)

/-- The lookup `assets.get(key)`. -/
def assetsGet (c : TextureCache P) (key : Nat × Nat) : Option Nat :=
  (c.assets.find? fun kv => kv.1 = key).map fun kv => kv.2

/-- The update `assets.set(key, entry)` of a Map: a present key keeps its place. -/
def assetsSet (assets : List ((Nat × Nat) × Nat)) (key : Nat × Nat) (entry : Nat) :
    List ((Nat × Nat) × Nat) :=
  if assets.any (fun kv => kv.1 = key) then
    assets.map fun kv => if kv.1 = key then (key, entry) else kv
  else assets ++ [(key, entry)]

/-- TextureCache.addPage (texture-cache.js 112-117). -/
def addPage (pk : Packer P) (c : TextureCache P) : TextureCache P :=
  { c with pages := c.pages ++ [pk.create c.width c.height] }

/-- TextureCache.addToPage (texture-cache.js 119-148): the cache after the call and the
new entry, or nothing when the page cannot pack the rectangle. -/
def addToPage (pk : Packer P) (c : TextureCache P) (pageIndex fileID resourceID width height : Nat) :
    TextureCache P × Option Nat :=
  match c.pages[pageIndex]? with
  | none => (c, none)
  | some page =>
    let packed := pk.packOne page width height
    let c := { c with pages := c.pages.set pageIndex packed.2 }
    match packed.1 with
    | none => (c, none)
    | some bin =>
      let asset : TextureCacheEntry := ⟨⟨fileID, resourceID, width, height⟩, pageIndex, bin, 0⟩
      let ref := c.nextEntry
      ({ c with
          frames := c.frames ++ [(fileID, resourceID)],
          entries := Function.update c.entries ref asset,
          nextEntry := ref + 1,
          pending := c.pending ++ [ref] }, some ref)

/-- The loop over the pages in TextureCache.add (texture-cache.js 79-98), from page `i`
with `n` pages left to try: the entry it placed, nothing when no page packed it, or the
error of line 94 on an empty page. -/
def addLoop (pk : Packer P) (fileID resourceID width height : Nat) :
    Nat → Nat → TextureCache P → Throws (TextureCache P) (TextureCache P × Option Nat)
  | 0, _, c => .ok (c, none)
  | n + 1, i, c =>
    match addToPage pk c i fileID resourceID width height with
    | (c, some cacheEntry) =>
      .ok ({ c with assets := assetsSet c.assets (makeAssetKey fileID resourceID) cacheEntry },
        some cacheEntry)
    | (c, none) =>
      if (c.pages[i]?.map pk.empty) = some true then
        .error ("Failed to cache resource " ++ toString resourceID ++ " from file "
          ++ toString fileID, c)
      else addLoop pk fileID resourceID width height n (i + 1) c

/-- The body of TextureCache.add (texture-cache.js 71-106), the methods it calls on `this`
being given: `handleOutOfSpace` and the `add` of the retry. `none` stands for a retry
that did not come back. -/
def addBody (pk : Packer P) (handleOutOfSpace : TextureCache P → TextureCache P)
    (thisAdd : TextureCache P → Nat → Nat →
      Option (Throws (TextureCache P) (TextureCache P × Option Nat)))
    (c : TextureCache P) (fileID resourceID : Nat) :
    Option (Throws (TextureCache P) (TextureCache P × Option Nat)) :=
  match c.gfxLoader fileID resourceID with
  | none => some (.ok (c, none))
  | some info =>
    match addLoop pk fileID resourceID info.1 info.2 c.pages.length 0 c with
    | .error e => some (.error e)
    | .ok (c, some cacheEntry) => some (.ok (c, some cacheEntry))
    | .ok (c, none) => thisAdd (handleOutOfSpace c) fileID resourceID

/-- TextureCache.add (texture-cache.js 71-106) with handleOutOfSpace (108-110); `fuel`
bounds the depth of the retries, `none` is fuel run out. -/
def add (pk : Packer P) : Nat → TextureCache P → Nat → Nat →
    Option (Throws (TextureCache P) (TextureCache P × Option Nat))
  | 0, _, _, _ => none
  | fuel + 1, c, fileID, resourceID =>
    addBody pk (addPage pk) (fun c f r => add pk fuel c f r) c fileID resourceID

/-- TextureCache.get (texture-cache.js 63-69). -/
def get (pk : Packer P) (fuel : Nat) (c : TextureCache P) (fileID resourceID : Nat) :
    Option (Throws (TextureCache P) (TextureCache P × Option Nat)) :=
  match c.assetsGet (makeAssetKey fileID resourceID) with
  | some asset => some (.ok (c, some asset))
  | none => add pk fuel c fileID resourceID

end TextureCache

namespace EvictingTextureCache

open TextureCache

variable {P : Type}

/-- EvictingTextureCache.evictAsset (texture-cache.js 214-235): the frame of the asset
leaves the texture and the key leaves the Map. The frames of an animation belong to
the asset data of the graphics processor and are not modelled. -/
def evictAsset (c : TextureCache P) (assetKey : Nat × Nat) : TextureCache P :=
  { c with
    frames := c.frames.erase assetKey,
    assets := c.assets.filter fun kv => kv.1 ≠ assetKey }

/-- EvictingTextureCache.evict (texture-cache.js 205-212): the loop runs over the entries
the Map had when it started. -/
def evict (c : TextureCache P) : TextureCache P :=
  let swept := c.assets.foldl
    (fun c kv => if (c.entries kv.2).refCount = 0 then evictAsset c kv.1 else c) c
  { swept with canEvict := false }

/-- EvictingTextureCache.handleOutOfSpace (texture-cache.js 197-203). -/
def handleOutOfSpace (pk : Packer P) (c : TextureCache P) : TextureCache P :=
  if c.canEvict then evict c else addPage pk c

/-- EvictingTextureCache.add (texture-cache.js 191-195) around the body of the base
class; a throw leaves `canEvict` as it is. -/
def add (pk : Packer P) : Nat → TextureCache P → Nat → Nat →
    Option (Throws (TextureCache P) (TextureCache P × Option Nat))
  | 0, _, _, _ => none
  | fuel + 1, c, fileID, resourceID =>
    match addBody pk (handleOutOfSpace pk) (fun c f r => add pk fuel c f r) c fileID resourceID with
    | some (.ok (c, asset)) => some (.ok ({ c with canEvict := true }, asset))
    | other => other

/-- TextureCache.get (texture-cache.js 63-69) on an EvictingTextureCache. -/
def get (pk : Packer P) (fuel : Nat) (c : TextureCache P) (fileID resourceID : Nat) :
    Option (Throws (TextureCache P) (TextureCache P × Option Nat)) :=
  match c.assetsGet (makeAssetKey fileID resourceID) with
  | some asset => some (.ok (c, some asset))
  | none => add pk fuel c fileID resourceID

end EvictingTextureCache

/-! ## A packer to run the cache on -/

/-- A shelf of the sample packer: its top `y`, its height `h` and the width `x` in use. -/
structure Shelf where
  y : Nat
  h : Nat
  x : Nat
deriving DecidableEq

/-- Modelled from the spec: the shelf allocator of a page, which places rectangles into a
fixed-size page without overlap. This sample allocator numbers its bins from 1, fills the
first shelf that is high enough and has the width left, and opens a new shelf below the
others when the page has the room; nothing in the cache ever gives a bin back to it. -/
structure ShelfPack where
  w : Nat
  h : Nat
  shelves : List Shelf
  bins : List Bin
  maxId : Nat
deriving DecidableEq

/-- The first shelf that takes a `w` by `h` rectangle: the shelves with that shelf filled,
and the place of the rectangle. -/
def ShelfPack.fill (pageWidth w h : Nat) : List Shelf → Option (List Shelf × Nat × Nat)
  | [] => none
  | shelf :: rest =>
    if h ≤ shelf.h ∧ shelf.x + w ≤ pageWidth then
      some ({ shelf with x := shelf.x + w } :: rest, shelf.x, shelf.y)
    else
      match ShelfPack.fill pageWidth w h rest with
      | some (rest, x, y) => some (shelf :: rest, x, y)
      | none => none

def ShelfPack.packOne (p : ShelfPack) (w h : Nat) : Option Bin × ShelfPack :=
  let id := p.maxId + 1
  let p := { p with maxId := id }
  match ShelfPack.fill p.w w h p.shelves with
  | some (shelves, x, y) =>
    let bin : Bin := ⟨id, x, y, w, h⟩
    (some bin, { p with shelves := shelves, bins := p.bins ++ [bin] })
  | none =>
    let y := (p.shelves.map fun shelf => shelf.h).sum
    if y + h ≤ p.h ∧ w ≤ p.w then
      let bin : Bin := ⟨id, 0, y, w, h⟩
      (some bin, { p with shelves := p.shelves ++ [⟨y, h, w⟩], bins := p.bins ++ [bin] })
    else (none, p)

/-- The sample packer as a `Packer`. -/
def shelfPacker : Packer ShelfPack where
  create := fun w h => ⟨w, h, [], [], 0⟩
  packOne := ShelfPack.packOne
  hasBin := fun p id => p.bins.any fun bin => bin.id = id

/-! ## Orders the statements use -/

/-- The strict lexicographic order on the triples (base depth of the layer, row, column). -/
def depthKeyLexLt (l1 y1 x1 l2 y2 x2 : Nat) : Prop :=
  (layerAt l1).depth < (layerAt l2).depth ∨
    ((layerAt l1).depth = (layerAt l2).depth ∧ (y1 < y2 ∨ (y1 = y2 ∧ x1 < x2)))

/-! ## Sample data to run the map on -/

/-- Cache entries for the examples: 0 and 1 are ground tiles of 64 by 32 pixels, 2 is an
object of 64 by 96 pixels, 3 is the tile-spec sprite, and every other entry (4 warp, 5 sign,
6 item, 7 npc) is an entity sprite of 64 by `h` pixels. No entry is in use. -/
def sampleEntries (h : Nat) : Nat → TextureCacheEntry := fun ref =>
  if ref ≤ 1 then ⟨⟨3, 101 + ref, 64, 32⟩, 0, ⟨ref + 1, 0, 0, 64, 32⟩, 0⟩
  else if ref = 2 then ⟨⟨4, 101, 64, 96⟩, 0, ⟨3, 0, 0, 64, 96⟩, 0⟩
  else if ref = 3 then ⟨⟨0, 0, 64, 32⟩, 0, ⟨4, 0, 0, 64, 32⟩, 0⟩
  else ⟨⟨0, ref, 64, h⟩, 0, ⟨ref + 1, 0, 0, 64, h⟩, 0⟩

/-- The lookups for the examples: ground graphics 1 and 2 and object graphic 1 are
available, every tile spec and every entity has its sprite. -/
def sampleCache : CacheLookup where
  getResource := fun fileID resourceID =>
    if fileID = 3 ∧ resourceID = 101 then some 0
    else if fileID = 3 ∧ resourceID = 102 then some 1
    else if fileID = 4 ∧ resourceID = 101 then some 2
    else none
  getSpec := fun _ => some 3
  getEntity := fun entityType =>
    if entityType = "sign" then some 5
    else if entityType = "items" ∨ entityType = "chest" then some 6
    else if entityType = "npc" then some 7
    else some 4

/-- A map of the given size without content: graphic id 0 everywhere, no tile spec, warp,
sign, item or NPC. -/
def emptyEmf (width height : Nat) : Emf :=
  ⟨width, height, fun _ _ => ⟨fun _ => some 0, none, none, none⟩, [], []⟩

/-- The 4 by 4 map whose only content is ground graphic 1 at the tiles (0, 0) and (1, 1). -/
def scenarioEmf : Emf :=
  ⟨4, 4, fun x y =>
    ⟨fun layer => if layer = 0 ∧ ((x = 0 ∧ y = 0) ∨ (x = 1 ∧ y = 1)) then some 1 else some 0,
      none, none, none⟩, [], []⟩

/-- What the examples look at in the outcome of a call: the message of a throw, or the
render list, the slots of the given graphic indices, the members of the given sections,
the reference counts of the given entries and the y of the graphics in the given slots. -/
inductive Observed where
  | thrown (message : String)
  | state (renderList : List Nat) (slots : List (Option Nat)) (sections : List (List Nat))
      (refCounts : List Nat) (ys : List (Option Int))
deriving DecidableEq

def observe (idxs secs refs : List Nat) (r : Throws EOMap EOMap) : Observed :=
  match r with
  | .error e => .thrown e.1
  | .ok m => .state m.renderList (idxs.map m.tileGraphics) (secs.map m.sections)
      (refs.map fun ref => (m.entries ref).refCount)
      (idxs.map fun i => (m.tileGraphics i).map fun ref => (m.graphics ref).y)

/-! ## Vocabulary of the statements about the map -/

namespace EOMap

/-- The offset the entity graphics of a tile start from: -10, or min(-10, 10 - height of
the object) when the object layer (1) has a graphic at the tile. -/
def entityBase (m : EOMap) (x y : Nat) : Int :=
  match m.tileGraphics (m.getTileGraphicIndex x y 1) with
  | some object => min (-10) (10 - (m.height (m.graphics object) : Int))
  | none => -10

/-- The number of entity graphics present at a tile on the layers from 11 up to, and
without, `layer`. -/
def entitiesBelow (m : EOMap) (x y layer : Nat) : Nat :=
  ((List.range' 11 (layer - 11)).filter fun l =>
    (m.tileGraphics (m.getTileGraphicIndex x y l)).isSome).length

/-- The entity graphics of the tile (x, y), in ascending layer order with k = 0, 1, 2, ...,
have y = 16 (x + y) + base - 28 k. -/
def EntityStacked (m : EOMap) (x y : Nat) : Prop :=
  ∀ layer, 11 ≤ layer → layer ≤ 14 → ∀ r,
    m.tileGraphics (m.getTileGraphicIndex x y layer) = some r →
    (m.graphics r).y
      = 16 * ((x : Int) + (y : Int)) + m.entityBase x y - 28 * (m.entitiesBelow x y layer : Int)

/-- Different slots hold different TileGraphic objects. -/
def SlotsDistinct (m : EOMap) : Prop :=
  ∀ i j r, m.tileGraphics i = some r → m.tileGraphics j = some r → i = j

end EOMap

namespace EOMap

/-- The TileGraphic of every slot is one that has been created. -/
def SlotsFresh (m : EOMap) : Prop :=
  ∀ i r, m.tileGraphics i = some r → r < m.nextGraphic

/-- The reference count of every cache entry covers the slots whose TileGraphic uses the
entry: no finite set of such slots is larger than the count. -/
def RefsCover (m : EOMap) : Prop :=
  ∀ (S : Finset Nat) (e : Nat),
    (∀ i ∈ S, ∃ r, m.tileGraphics i = some r ∧ (m.graphics r).cacheEntry = e) →
    S.card ≤ (m.entries e).refCount

/-- The bookkeeping of the slots is in order. -/
structure Consistent (m : EOMap) : Prop where
  fresh : m.SlotsFresh
  distinct : m.SlotsDistinct
  cover : m.RefsCover

end EOMap

/-- The entry a decRef that does not throw leaves. -/
def released (e : TextureCacheEntry) : TextureCacheEntry :=
  { e with refCount := e.refCount - 1 }

/-- The states a map goes through: the state the constructor leaves, and every state one
of the calls draw, setWarp, setSign, setItems and setNPCs leads to when it returns. -/
inductive Reachable : EOMap → Prop where
  | new {textureCache : CacheLookup} {entries : Nat → TextureCacheEntry} {emf : Emf}
      {layerVisibility : Nat → Bool} {m : EOMap} :
      EOMap.new textureCache entries emf layerVisibility = .ok m → Reachable m
  | draw {m m' : EOMap} {x y : Nat} {drawID : Option Nat} {layer : Int}
      {modifyRenderList : Option Bool} :
      Reachable m → m.draw x y drawID layer modifyRenderList = .ok m' → Reachable m'
  | setWarp {m m' : EOMap} {x y : Nat} {warp : Option Warp} :
      Reachable m → m.setWarp x y warp = .ok m' → Reachable m'
  | setSign {m m' : EOMap} {x y : Nat} {sign : Option Sign} :
      Reachable m → m.setSign x y sign = .ok m' → Reachable m'
  | setItems {m m' : EOMap} {x y : Nat} {items : List Entity} :
      Reachable m → m.setItems x y items = .ok m' → Reachable m'
  | setNPCs {m m' : EOMap} {x y : Nat} {npcs : List Entity} :
      Reachable m → m.setNPCs x y npcs = .ok m' → Reachable m'

/-- A check on the state a call returns; a throw fails the check. -/
def checkOk {σ α : Type} (r : Throws σ α) (check : α → Bool) : Bool :=
  match r with
  | .ok a => check a
  | .error _ => false

/-- A check on the message a call throws; a return fails the check. -/
def checkThrown {σ α : Type} (r : Throws σ α) (message : String) : Bool :=
  match r with
  | .ok _ => false
  | .error e => e.1 = message

/-- A check on the cache and the entry a request returns; a throw, a request without
entry and fuel run out fail the check. -/
def checkAdded {P : Type}
    (r : Option (Throws (TextureCache P) (TextureCache P × Option Nat)))
    (check : TextureCache P → Nat → Bool) : Bool :=
  match r with
  | some (.ok (c, some asset)) => check c asset
  | _ => false

/-- Resource metadata for the examples: every resource of file 3 is 64 by 64 pixels. -/
def sampleInfo : Nat → Nat → Option (Nat × Nat) := fun fileID _ =>
  if fileID = 3 then some (64, 64) else none

/-! ## More vocabulary and sample data -/

/-- A check on the message and the state of a throw; a return fails the check. -/
def checkError {σ α : Type} (r : Throws σ α) (check : String → σ → Bool) : Bool :=
  match r with
  | .ok _ => false
  | .error e => check e.1 e.2

/-- The lookups of `sampleCache` with one tile spec only: no tile spec other than 0 has a
sprite. -/
def sparseCache : CacheLookup :=
  { sampleCache with getSpec := fun tileSpec => if tileSpec = 0 then some 3 else none }

namespace EOMap

/-- What a draw request without cache entry leaves alone: everything but the map data. -/
def SameGraphics (m' m : EOMap) : Prop :=
  m'.tileGraphics = m.tileGraphics ∧ m'.graphics = m.graphics ∧ m'.entries = m.entries ∧
    m'.sections = m.sections ∧ m'.renderList = m.renderList ∧
    m'.nextGraphic = m.nextGraphic

end EOMap

/-- The lookups of the examples with a right wall graphic: the resource 101 of file 6 has
the cache entry 0. -/
def wallCache : CacheLookup :=
  { sampleCache with
    getResource := fun fileID resourceID =>
      if fileID = 6 ∧ resourceID = 101 then some 0
      else sampleCache.getResource fileID resourceID }
namespace EOMap

/-- The box of a TileGraphic meets the viewport of the camera, both closed. -/
def boxMeetsViewport (m : EOMap) (tileGraphic : TileGraphic) (camera : Camera) : Bool :=
  decide ((tileGraphic.x : Rat) ≤ camera.scrollX + camera.width ∧
    camera.scrollX ≤ (tileGraphic.x : Rat) + (m.width tileGraphic : Rat) ∧
    (tileGraphic.y : Rat) ≤ camera.scrollY + camera.height ∧
    camera.scrollY ≤ (tileGraphic.y : Rat) + (m.height tileGraphic : Rat))

/-- The slot `i` holds a TileGraphic whose cache entry is `e`. -/
def Uses (m : EOMap) (e i : Nat) : Prop :=
  ∃ r, m.tileGraphics i = some r ∧ (m.graphics r).cacheEntry = e

/-- The reference count of every cache entry is the number of slots that hold a TileGraphic
with that entry. -/
def Balanced (m : EOMap) : Prop :=
  ∀ e, ∃ S : Finset Nat, (∀ i, i ∈ S ↔ m.Uses e i) ∧ (m.entries e).refCount = S.card

/-- One round of the loop of destroy (eomap.js 613-616) for a key `index`: release the
cache entry of the graphic, which may throw, and delete the slot. -/
def destroyStep (m : EOMap) (index : Nat) : Throws EOMap EOMap :=
  match m.tileGraphics index with
  | none => .ok m
  | some ref =>
    let cacheEntry := (m.graphics ref).cacheEntry
    match (m.entries cacheEntry).decRef with
    | .error thrown =>
      .error (thrown.1, { m with entries := Function.update m.entries cacheEntry thrown.2 })
    | .ok entry =>
      .ok { m with entries := Function.update m.entries cacheEntry entry,
                   tileGraphics := Function.update m.tileGraphics index none }

/-- EOMap.destroy (eomap.js 612-622). `keys` is what `for (index in this.tileGraphics)`
runs through: the indices that hold a TileGraphic. `tileGraphics = null` and
`sections = null` are the stores without content. -/
def destroy (m : EOMap) (keys : List Nat) : Throws EOMap EOMap := do
  let m ← keys.foldlM destroyStep m
  pure { m with tileGraphics := fun _ => none, sections := fun _ => [] }

end EOMap

/-- The states a map constructed from the given texture cache, cache entries, map data and
layer visibility goes through: the state the constructor leaves, and every state one of the
calls draw, setWarp, setSign, setItems and setNPCs leads to, whether the call returns or
throws. -/
inductive ReachableFrom (textureCache : CacheLookup) (entries : Nat → TextureCacheEntry)
    (emf : Emf) (layerVisibility : Nat → Bool) : EOMap → Prop where
  | new {m : EOMap} :
      EOMap.new textureCache entries emf layerVisibility = .ok m →
      ReachableFrom textureCache entries emf layerVisibility m
  | draw {m m' : EOMap} {x y : Nat} {drawID : Option Nat} {layer : Int}
      {modifyRenderList : Option Bool} :
      ReachableFrom textureCache entries emf layerVisibility m →
      m.draw x y drawID layer modifyRenderList = .ok m' →
      ReachableFrom textureCache entries emf layerVisibility m'
  | setWarp {m m' : EOMap} {x y : Nat} {warp : Option Warp} :
      ReachableFrom textureCache entries emf layerVisibility m →
      m.setWarp x y warp = .ok m' →
      ReachableFrom textureCache entries emf layerVisibility m'
  | setSign {m m' : EOMap} {x y : Nat} {sign : Option Sign} :
      ReachableFrom textureCache entries emf layerVisibility m →
      m.setSign x y sign = .ok m' →
      ReachableFrom textureCache entries emf layerVisibility m'
  | setItems {m m' : EOMap} {x y : Nat} {items : List Entity} :
      ReachableFrom textureCache entries emf layerVisibility m →
      m.setItems x y items = .ok m' →
      ReachableFrom textureCache entries emf layerVisibility m'
  | setNPCs {m m' : EOMap} {x y : Nat} {npcs : List Entity} :
      ReachableFrom textureCache entries emf layerVisibility m →
      m.setNPCs x y npcs = .ok m' →
      ReachableFrom textureCache entries emf layerVisibility m'
  | drawThrows {m m' : EOMap} {x y : Nat} {drawID : Option Nat} {layer : Int}
      {modifyRenderList : Option Bool} {message : String} :
      ReachableFrom textureCache entries emf layerVisibility m →
      m.draw x y drawID layer modifyRenderList = .error (message, m') →
      ReachableFrom textureCache entries emf layerVisibility m'
  | setWarpThrows {m m' : EOMap} {x y : Nat} {warp : Option Warp} {message : String} :
      ReachableFrom textureCache entries emf layerVisibility m →
      m.setWarp x y warp = .error (message, m') →
      ReachableFrom textureCache entries emf layerVisibility m'
  | setSignThrows {m m' : EOMap} {x y : Nat} {sign : Option Sign} {message : String} :
      ReachableFrom textureCache entries emf layerVisibility m →
      m.setSign x y sign = .error (message, m') →
      ReachableFrom textureCache entries emf layerVisibility m'
  | setItemsThrows {m m' : EOMap} {x y : Nat} {items : List Entity} {message : String} :
      ReachableFrom textureCache entries emf layerVisibility m →
      m.setItems x y items = .error (message, m') →
      ReachableFrom textureCache entries emf layerVisibility m'
  | setNPCsThrows {m m' : EOMap} {x y : Nat} {npcs : List Entity} {message : String} :
      ReachableFrom textureCache entries emf layerVisibility m →
      m.setNPCs x y npcs = .error (message, m') →
      ReachableFrom textureCache entries emf layerVisibility m'
/-! ## texture-cache.js: the load scheduler, and what the pages rely on -/

namespace TextureCache

variable {P : Type}

/-- The number of assets the loop of update (texture-cache.js 169-176) loads when
`remaining` assets of the queue are left and `loaded` have been loaded: `timeUp k` tells
whether `elapsed > loadTime` holds at the reading of the clock after the k-th load. -/
def loadCount (timeUp : Nat → Bool) : Nat → Nat → Nat
  | 0, loaded => loaded
  | remaining + 1, loaded =>
    if timeUp (loaded + 1) then loaded + 1 else loadCount timeUp remaining (loaded + 1)

/-- TextureCache.update (texture-cache.js 161-182): the cache after the tick and the assets
handed to loadAsset, in the order of the calls. The sort is the insertion sort by the
comparator of line 167, which keeps equal keys in their order. -/
def update (c : TextureCache P) (timeUp : Nat → Bool) : TextureCache P × List Nat :=
  let pending := c.pending.insertionSort
    (fun a b => ((c.entries b).refCount : Int) - ((c.entries a).refCount : Int) ≤ 0)
  let loaded := loadCount timeUp pending.length 0
  ({ c with pending := pending.drop loaded }, pending.take loaded)

/-- The cache after one tick of update for each of the given clocks. -/
def updates (c : TextureCache P) (clocks : List (Nat → Bool)) : TextureCache P :=
  clocks.foldl (fun c timeUp => (update c timeUp).1) c

/-- Every page but the last holds a bin. -/
def Settled (pk : Packer P) (c : TextureCache P) : Prop :=
  ∀ j page, j + 1 < c.pages.length → c.pages[j]? = some page → pk.empty page = false

end TextureCache

/-- What the cache relies on in the bin packer: packOne takes no bin away from a page. -/
def Packer.KeepsBins {P : Type} (pk : Packer P) : Prop :=
  ∀ page w h id, pk.hasBin page id = true → pk.hasBin (pk.packOne page w h).2 id = true

/-- A cache for the examples with three assets in the Map, the second one in use, and
the three entries pending with reference counts 1, 3 and 3. -/
def sampleTextureCache : TextureCache ShelfPack :=
  { TextureCache.new shelfPacker sampleInfo 128 64 with
    entries := fun ref =>
      ⟨⟨3, 101 + ref, 64, 64⟩, 0, ⟨ref + 1, 0, 0, 64, 64⟩,
        if ref = 0 then 1 else if ref ≤ 2 then 3 else 0⟩
    nextEntry := 4
    assets := [((3, 101), 0), ((3, 104), 3), ((3, 102), 1)]
    pending := [0, 1, 2] }

/-- The cache a call of add leaves, whether it returns or throws. -/
def TextureCache.outcome {P : Type}
    (out : Throws (TextureCache P) (TextureCache P × Option Nat)) : TextureCache P :=
  match out with
  | .ok (c, _) => c
  | .error (_, c) => c

/-- A cache for the examples with two pages of 128 by 64 pixels: the first page holds two
assets of 64 by 64 pixels and is full, the second page holds one. -/
def twoPageCache : TextureCache ShelfPack :=
  { TextureCache.new shelfPacker sampleInfo 128 64 with
    pages := [⟨128, 64, [⟨0, 64, 128⟩], [⟨1, 0, 0, 64, 64⟩, ⟨2, 64, 0, 64, 64⟩], 3⟩,
              ⟨128, 64, [⟨0, 64, 64⟩], [⟨1, 0, 0, 64, 64⟩], 1⟩]
    entries := fun ref =>
      ⟨⟨3, 101 + ref, 64, 64⟩, ref / 2, ⟨ref % 2 + 1, ref % 2 * 64, 0, 64, 64⟩, 0⟩
    nextEntry := 3
    assets := [((3, 101), 0), ((3, 102), 1), ((3, 103), 2)]
    frames := [(3, 101), (3, 102), (3, 103)] }

/-- What the cache relies on in the bin packer: a rectangle that a page could not pack
does not fit on a second attempt either (a failed packOne frees no room). -/
def Packer.FailsAgain {P : Type} (pk : Packer P) : Prop :=
  ∀ page w h, (pk.packOne page w h).1 = none →
    (pk.packOne (pk.packOne page w h).2 w h).1 = none

/-- What the cache relies on in the bin packer: a new page that cannot pack a rectangle
holds no bin afterwards. -/
def Packer.FreshStaysEmpty {P : Type} (pk : Packer P) : Prop :=
  ∀ width height w h, (pk.packOne (pk.create width height) w h).1 = none →
    pk.empty (pk.packOne (pk.create width height) w h).2 = true

/-- The outcome of an add of the EvictingTextureCache as its caller sees it: a return
arms canEvict (texture-cache.js 193), a throw passes through. -/
def EvictingTextureCache.armed {P : Type}
    (out : Throws (TextureCache P) (TextureCache P × Option Nat)) :
    Throws (TextureCache P) (TextureCache P × Option Nat) :=
  match out with
  | .ok (c, asset) => .ok ({ c with canEvict := true }, asset)
  | .error thrown => .error thrown

/-- A cache for the examples whose one page of 64 by 64 pixels is full: it holds the asset
(3, 101) of 64 by 64 pixels, which nobody uses. -/
def fullCache : TextureCache ShelfPack :=
  { TextureCache.new shelfPacker sampleInfo 64 64 with
    pages := [⟨64, 64, [⟨0, 64, 64⟩], [⟨1, 0, 0, 64, 64⟩], 1⟩]
    entries := fun ref => ⟨⟨3, 101 + ref, 64, 64⟩, 0, ⟨1, 0, 0, 64, 64⟩, 0⟩
    nextEntry := 1
    assets := [((3, 101), 0)]
    frames := [(3, 101)] }

/-! # Theorems -/

/-! ## Depth keys -/

/-- Base depths of the layer table that are at least one half apart are at least
0.99900005 apart. -/
theorem depth_gap_all : ∀ l1 < 15, ∀ l2 < 15,
    (layerAt l1).depth + 1 / 2 ≤ (layerAt l2).depth →
    (layerAt l1).depth + 99900005 / 100000000 ≤ (layerAt l2).depth := by
  decide!

/-- The fifteen base depths of the layer table are pairwise different. -/
theorem depth_ne_all : ∀ l1 < 15, ∀ l2 < 15, l1 ≠ l2 →
    (layerAt l1).depth ≠ (layerAt l2).depth := by
  decide!

/-- The depth key with the constants written out. -/
theorem calcDepth_eq (x y l : Nat) :
    EOMap.calcDepth x y l
      = (layerAt l).depth + (y : Rat) / 1000 + (x : Rat) * 15 / 100000000 := by
  simp only [EOMap.calcDepth, RDG, TDG, layerInfo, List.length_cons, List.length_nil]
  push_cast
  ring

/-- C4, as stated, fails: the warp layer (11) has the smaller base depth than the sign
layer (12), yet one row further down its key is the greater one; and on one layer the
column 6667 of row 0 gets a greater key than column 0 of row 1. -/
theorem C4_depth_not_lexicographic :
    (depthKeyLexLt 11 1 0 12 0 0 ∧ ¬ (EOMap.calcDepth 0 1 11 < EOMap.calcDepth 0 0 12)) ∧
    (depthKeyLexLt 0 0 6667 0 1 0 ∧ ¬ (EOMap.calcDepth 6667 0 0 < EOMap.calcDepth 0 1 0)) := by
  unfold depthKeyLexLt
  decide!

/-- C4, amended: for columns up to 6666 the depth key is lexicographic on (row, column)
between layers of equal base depth, and for rows up to 998 a base depth that is at least
one half smaller gives the smaller key whatever the rows and columns are. -/
theorem C4_depth_lexicographic_within_bounds (x1 y1 l1 x2 y2 l2 : Nat)
    (h1 : l1 < 15) (h2 : l2 < 15) (hx : x1 ≤ 6666) :
    (y1 ≤ 998 → (layerAt l1).depth + 1 / 2 ≤ (layerAt l2).depth →
      EOMap.calcDepth x1 y1 l1 < EOMap.calcDepth x2 y2 l2) ∧
    ((layerAt l1).depth = (layerAt l2).depth → (y1 < y2 ∨ (y1 = y2 ∧ x1 < x2)) →
      EOMap.calcDepth x1 y1 l1 < EOMap.calcDepth x2 y2 l2) := by
  have hx1 : (x1 : Rat) ≤ 6666 := by exact_mod_cast hx
  have hx2 : (0 : Rat) ≤ x2 := Nat.cast_nonneg _
  have hy2 : (0 : Rat) ≤ y2 := Nat.cast_nonneg _
  refine ⟨fun hy hgap => ?_, fun heq hlex => ?_⟩
  · have hy1 : (y1 : Rat) ≤ 998 := by exact_mod_cast hy
    have hg := depth_gap_all l1 h1 l2 h2 hgap
    rw [calcDepth_eq, calcDepth_eq]
    linarith
  · rw [calcDepth_eq, calcDepth_eq, heq]
    rcases hlex with hlt | ⟨he, hlt⟩
    · have : (y1 : Rat) + 1 ≤ y2 := by exact_mod_cast hlt
      linarith
    · subst he
      have : (x1 : Rat) < x2 := by exact_mod_cast hlt
      linarith

/-- C4, amended, at work: ground at (5, 7) lies below a warp at (0, 0), and on the overlay
layer (3, 1) lies below (0, 2). -/
theorem C4_depth_lexicographic_within_bounds_witness :
    EOMap.calcDepth 5 7 0 < EOMap.calcDepth 0 0 11 ∧
    EOMap.calcDepth 3 1 2 < EOMap.calcDepth 0 2 2 :=
  ⟨(C4_depth_lexicographic_within_bounds 5 7 0 0 0 11 (by decide) (by decide) (by decide)).1
      (by decide) (by decide!),
    (C4_depth_lexicographic_within_bounds 3 1 2 0 2 2 (by decide) (by decide) (by decide)).2
      rfl (Or.inl (by decide))⟩

/-- C5: at one tile two different layers never get equal depth keys, their keys compare as
their base depths do, and the base depths are different. -/
theorem C5_layers_ordered_at_tile (x y l1 l2 : Nat) (h1 : l1 < 15) (h2 : l2 < 15)
    (hne : l1 ≠ l2) :
    EOMap.calcDepth x y l1 ≠ EOMap.calcDepth x y l2 ∧
    (EOMap.calcDepth x y l1 < EOMap.calcDepth x y l2
      ↔ (layerAt l1).depth < (layerAt l2).depth) ∧
    (layerAt l1).depth ≠ (layerAt l2).depth := by
  have hd := depth_ne_all l1 h1 l2 h2 hne
  simp only [EOMap.calcDepth]
  exact ⟨fun h => hd (by linarith), ⟨fun h => by linarith, fun h => by linarith⟩, hd⟩

/-- C5 at work: at tile (3, 4) the object layer (1) lies below the overlay layer (2). -/
theorem C5_layers_ordered_at_tile_witness :
    EOMap.calcDepth 3 4 1 ≠ EOMap.calcDepth 3 4 2 ∧
    (EOMap.calcDepth 3 4 1 < EOMap.calcDepth 3 4 2
      ↔ (layerAt 1).depth < (layerAt 2).depth) ∧
    (layerAt 1).depth ≠ (layerAt 2).depth :=
  C5_layers_ordered_at_tile 3 4 1 2 (by decide) (by decide) (by decide)

/-! ## Culling -/

/-- A section number determines its grid cell. -/
theorem getSection_inj (m : EOMap) {x y x' y' : Nat} (hx : x < m.sectionWidth)
    (hx' : x' < m.sectionWidth) (h : m.getSection x y = m.getSection x' y') :
    x = x' ∧ y = y' := by
  simp only [EOMap.getSection] at h
  have hy : y = y' := by
    rcases Nat.lt_trichotomy y y' with hlt | heq | hgt
    · have : (y + 1) * m.sectionWidth ≤ y' * m.sectionWidth := Nat.mul_le_mul_right _ hlt
      rw [Nat.add_mul] at this
      omega
    · exact heq
    · have : (y' + 1) * m.sectionWidth ≤ y * m.sectionWidth := Nat.mul_le_mul_right _ hgt
      rw [Nat.add_mul] at this
      omega
  subst hy
  exact ⟨by omega, rfl⟩

/-- Inside the map the clamped viewport of cull is the viewport of the camera. -/
theorem cullRange_inside (m : EOMap) (camera : Camera)
    (hw : 0 ≤ camera.width) (hh : 0 ≤ camera.height)
    (hTop : 0 ≤ camera.scrollY)
    (hBottom : camera.scrollY + camera.height ≤ 32 * (m.emf.height : Rat))
    (hLeft : -(32 * (m.emf.width : Rat)) ≤ camera.scrollX)
    (hRight : camera.scrollX + camera.width ≤ 32 * (m.emf.width : Rat)) :
    m.cullRange camera = (camera.scrollY, camera.scrollY + camera.height,
      camera.scrollX, camera.scrollX + camera.width) := by
  have h1 : ¬ camera.scrollY + camera.height < 0 := by linarith
  have h2 : ¬ camera.scrollY > (m.emf.height : Rat) * 32 := by linarith
  have h3 : ¬ camera.scrollX + camera.width < -((m.emf.width : Rat) * 32) := by linarith
  have h4 : ¬ camera.scrollX > (m.emf.width : Rat) * 32 := by linarith
  simp only [EOMap.cullRange, h1, h2, h3, h4, if_false]
  have e1 : max 0 camera.scrollY = camera.scrollY := max_eq_right hTop
  have e2 : min ((m.emf.height : Rat) * 32) (camera.scrollY + camera.height)
      = camera.scrollY + camera.height := min_eq_right (by linarith)
  have e3 : max (-((m.emf.width : Rat) * 32)) camera.scrollX = camera.scrollX :=
    max_eq_right (by linarith)
  have e4 : min ((m.emf.width : Rat) * 32) (camera.scrollX + camera.width)
      = camera.scrollX + camera.width := min_eq_right (by linarith)
  rw [e1, e2, e3, e4]

/-- The sections cull keeps are in row-major grid order, each once. -/
theorem cull_visibleSections_pairwise (m : EOMap) (camera : Camera) :
    (m.cull camera).visibleSections.Pairwise (· < ·) := by
  simp only [EOMap.cull]
  rw [List.pairwise_flatMap]
  constructor
  · intro y _
    rw [List.pairwise_filterMap]
    refine (List.pairwise_lt_range m.sectionWidth).imp ?_
    intro a b hab s hs s' hs'
    split at hs <;> simp at hs
    split at hs' <;> simp at hs'
    subst hs hs'
    simp only [EOMap.getSection]
    omega
  · have hr := List.pairwise_lt_range m.sectionHeight
    refine hr.imp ?_
    intro a b hab s hs s' hs'
    simp only [List.mem_filterMap, List.mem_range] at hs hs'
    obtain ⟨x, hx, hsx⟩ := hs
    obtain ⟨x', hx', hsx'⟩ := hs'
    split at hsx <;> simp at hsx
    split at hsx' <;> simp at hsx'
    subst hsx hsx'
    simp only [EOMap.getSection]
    have : (a + 1) * m.sectionWidth ≤ b * m.sectionWidth := Nat.mul_le_mul_right _ hab
    rw [Nat.add_mul] at this
    omega

/-- Membership in the list cull builds. -/
theorem mem_cull_visibleSections (m : EOMap) (camera : Camera) (s : Nat) :
    s ∈ (m.cull camera).visibleSections ↔
      ∃ sy, sy < m.sectionHeight ∧ ∃ sx, sx < m.sectionWidth ∧
        m.isVisible camera sx sy = true ∧ m.getSection sx sy = s := by
  simp only [EOMap.cull, List.mem_flatMap, List.mem_filterMap, List.mem_range]
  constructor
  · rintro ⟨sy, hsy, sx, hsx, h⟩
    refine ⟨sy, hsy, sx, hsx, ?_⟩
    split at h <;> simp at h
    exact ⟨by assumption, h⟩
  · rintro ⟨sy, hsy, sx, hsx, hv, h⟩
    exact ⟨sy, hsy, sx, hsx, by simp [hv, h]⟩

/-- C9: for a viewport inside the map, cull keeps the section of a grid cell exactly when
the box of the cell overlaps the viewport box, closed on all four sides; every section kept
is the one of a grid cell, and the list is in row-major order without repetition. -/
theorem C9_cull_keeps_overlapping_cells (m : EOMap) (camera : Camera)
    (hw : 0 ≤ camera.width) (hh : 0 ≤ camera.height)
    (hTop : 0 ≤ camera.scrollY)
    (hBottom : camera.scrollY + camera.height ≤ 32 * (m.emf.height : Rat))
    (hLeft : -(32 * (m.emf.width : Rat)) ≤ camera.scrollX)
    (hRight : camera.scrollX + camera.width ≤ 32 * (m.emf.width : Rat)) :
    (∀ sx sy, sx < m.sectionWidth → sy < m.sectionHeight →
      (m.getSection sx sy ∈ (m.cull camera).visibleSections ↔
        (camera.scrollX ≤ -(32 * (m.emf.width : Rat)) + 256 * ((sx : Rat) + 1) ∧
          -(32 * (m.emf.width : Rat)) + 256 * (sx : Rat) ≤ camera.scrollX + camera.width ∧
          camera.scrollY ≤ 256 * ((sy : Rat) + 1) ∧
          256 * (sy : Rat) ≤ camera.scrollY + camera.height))) ∧
    (∀ s ∈ (m.cull camera).visibleSections,
      ∃ sx sy, sx < m.sectionWidth ∧ sy < m.sectionHeight ∧ s = m.getSection sx sy) ∧
    (m.cull camera).visibleSections.Pairwise (· < ·) := by
  refine ⟨?_, ?_, cull_visibleSections_pairwise m camera⟩
  · intro sx sy hsx hsy
    rw [mem_cull_visibleSections]
    have hv : ∀ x y, m.isVisible camera x y = true ↔
        (camera.scrollX ≤ -(32 * (m.emf.width : Rat)) + 256 * ((x : Rat) + 1) ∧
          -(32 * (m.emf.width : Rat)) + 256 * (x : Rat) ≤ camera.scrollX + camera.width ∧
          camera.scrollY ≤ 256 * ((y : Rat) + 1) ∧
          256 * (y : Rat) ≤ camera.scrollY + camera.height) := by
      intro x y
      simp only [EOMap.isVisible, cullRange_inside m camera hw hh hTop hBottom hLeft hRight,
        SECTION_SIZE, decide_eq_true_eq, ge_iff_le]
      push_cast
      constructor
      · rintro ⟨a, b, c, d⟩
        exact ⟨by linarith, by linarith, by linarith, by linarith⟩
      · rintro ⟨a, b, c, d⟩
        exact ⟨by linarith, by linarith, by linarith, by linarith⟩
    constructor
    · rintro ⟨y, hy, x, hx, hvis, heq⟩
      obtain ⟨rfl, rfl⟩ := getSection_inj m hx hsx heq
      exact (hv x y).1 hvis
    · intro h
      exact ⟨sy, hsy, sx, hsx, (hv sx sy).2 h, rfl⟩
  · intro s hs
    rw [mem_cull_visibleSections] at hs
    obtain ⟨sy, hsy, sx, hsx, _, h⟩ := hs
    exact ⟨sx, sy, hsx, hsy, h.symm⟩
/-! ## The full rebuild of the render list -/

/-- Adding to a Set keeps it free of repetitions. -/
theorem sectionAdd_nodup {l : List Nat} (h : l.Nodup) (i : Nat) :
    (EOMap.sectionAdd l i).Nodup := by
  unfold EOMap.sectionAdd
  split
  · exact h
  · rename_i hi
    exact List.nodup_append.2 ⟨h, List.nodup_singleton i, by
      intro a ha hb
      simp at hb
      exact hi (hb ▸ ha)⟩

theorem mem_sectionAdd {l : List Nat} {i j : Nat} :
    j ∈ EOMap.sectionAdd l i ↔ j ∈ l ∨ j = i := by
  unfold EOMap.sectionAdd
  split
  · rename_i hi
    constructor
    · exact Or.inl
    · rintro (h | rfl)
      · exact h
      · exact hi
  · simp

/-- The first loop of rebuildRenderList, when every index it meets has a TileGraphic:
it ends with a Set that holds, each once, what it held before and the indices met whose
layer is visible. -/
theorem collectVisible_spec (m : EOMap) (l : List Nat) :
    ∀ acc : List Nat, acc.Nodup → (∀ i ∈ l, (m.tileGraphics i).isSome) →
    ∃ res, m.collectVisible l acc = some res ∧ res.Nodup ∧
      ∀ i, i ∈ res ↔ i ∈ acc ∨ (i ∈ l ∧
        ∃ r, m.tileGraphics i = some r ∧ m.layerVisibility (m.graphics r).layer = true) := by
  induction l with
  | nil =>
    intro acc hacc _
    exact ⟨acc, rfl, hacc, by simp⟩
  | cons a rest ih =>
    intro acc hacc hlive
    have ha := hlive a (List.mem_cons_self a rest)
    obtain ⟨r, hr⟩ := Option.isSome_iff_exists.1 ha
    have hrest : ∀ i ∈ rest, (m.tileGraphics i).isSome :=
      fun i hi => hlive i (List.mem_cons_of_mem a hi)
    by_cases hv : m.layerVisibility (m.graphics r).layer = true
    · obtain ⟨res, hres, hnd, hmem⟩ := ih (EOMap.sectionAdd acc a) (sectionAdd_nodup hacc a) hrest
      refine ⟨res, ?_, hnd, ?_⟩
      · simp only [EOMap.collectVisible, hr, hv, if_true]
        exact hres
      · intro i
        rw [hmem, mem_sectionAdd]
        constructor
        · rintro ((h | rfl) | ⟨h, h'⟩)
          · exact Or.inl h
          · exact Or.inr ⟨List.mem_cons_self _ _, r, hr, hv⟩
          · exact Or.inr ⟨List.mem_cons_of_mem _ h, h'⟩
        · rintro (h | ⟨h, h'⟩)
          · exact Or.inl (Or.inl h)
          · rcases List.mem_cons.1 h with rfl | h
            · exact Or.inl (Or.inr rfl)
            · exact Or.inr ⟨h, h'⟩
    · obtain ⟨res, hres, hnd, hmem⟩ := ih acc hacc hrest
      refine ⟨res, ?_, hnd, ?_⟩
      · simp only [EOMap.collectVisible, hr, hv]
        exact hres
      · intro i
        rw [hmem]
        constructor
        · rintro (h | ⟨h, h'⟩)
          · exact Or.inl h
          · exact Or.inr ⟨List.mem_cons_of_mem _ h, h'⟩
        · rintro (h | ⟨h, r', hr', hv'⟩)
          · exact Or.inl h
          · rcases List.mem_cons.1 h with rfl | h
            · rw [hr] at hr'
              cases hr'
              exact absurd hv' hv
            · exact Or.inr ⟨h, r', hr', hv'⟩

/-- The store of graphics after the alpha of the graphics in `refs` has been set. -/
theorem alphaStep_foldl (m : EOMap) (idxs : List Nat) :
    ∀ (g : Nat → TileGraphic) (acc : List Nat),
    idxs.foldl m.alphaStep (g, acc)
      = ((fun r => if r ∈ idxs.filterMap m.tileGraphics
            then { g r with alpha := m.calcAlpha (g r).layer } else g r),
          acc ++ idxs.filterMap m.tileGraphics) := by
  induction idxs with
  | nil => intro g acc; simp
  | cons i rest ih =>
    intro g acc
    rw [List.foldl_cons]
    cases hi : m.tileGraphics i with
    | none =>
      have : m.alphaStep (g, acc) i = (g, acc) := by simp [EOMap.alphaStep, hi]
      rw [this, ih, List.filterMap_cons_none hi]
    | some r0 =>
      have : m.alphaStep (g, acc) i
          = (Function.update g r0 { g r0 with alpha := m.calcAlpha (g r0).layer },
              acc ++ [r0]) := by
        simp [EOMap.alphaStep, hi]
      rw [this, ih, List.filterMap_cons_some hi]
      refine Prod.ext ?_ (by simp)
      funext r
      by_cases hr : r = r0
      · subst hr
        simp
      · simp [hr, Function.update_noteq hr]

/-- C7: when every index in a visible section has a TileGraphic, rebuildRenderList returns,
and the new render list is a rearrangement of the graphics of a list `idxs` of indices that
holds, each once, exactly the indices of the visible sections whose layer is visible (so no
graphic is repeated when different indices hold different graphics); a graphic is in the
list exactly when it belongs to such an index; every graphic of the list has the alpha
calcAlpha gives its layer; the list is sorted by ascending depth; dirtyRenderList is
false. -/
theorem C7_rebuildRenderList (m : EOMap)
    (hlive : ∀ s ∈ m.visibleSections, ∀ i ∈ m.sections s, (m.tileGraphics i).isSome) :
    ∃ (m' : EOMap) (idxs : List Nat), m.rebuildRenderList = .ok m' ∧
      idxs.Nodup ∧
      (∀ i, i ∈ idxs ↔ (∃ s ∈ m.visibleSections, i ∈ m.sections s) ∧
        ∃ r, m.tileGraphics i = some r ∧ m.layerVisibility (m.graphics r).layer = true) ∧
      m'.renderList.Perm (idxs.filterMap m.tileGraphics) ∧
      ((∀ i j r, m.tileGraphics i = some r → m.tileGraphics j = some r → i = j) →
        m'.renderList.Nodup) ∧
      (∀ r, r ∈ m'.renderList ↔ ∃ i, (∃ s ∈ m.visibleSections, i ∈ m.sections s) ∧
        m.tileGraphics i = some r ∧ m.layerVisibility (m.graphics r).layer = true) ∧
      (∀ r ∈ m'.renderList, (m'.graphics r).alpha = m'.calcAlpha (m'.graphics r).layer) ∧
      m'.renderList.Pairwise (fun a b => (m'.graphics a).depth ≤ (m'.graphics b).depth) ∧
      m'.dirtyRenderList = false := by
  have hlive' : ∀ i ∈ m.visibleSections.flatMap m.sections, (m.tileGraphics i).isSome := by
    intro i hi
    obtain ⟨s, hs, his⟩ := List.mem_flatMap.1 hi
    exact hlive s hs i his
  obtain ⟨idxs, hcol, hnd, hmem⟩ := collectVisible_spec m _ [] List.nodup_nil hlive'
  have hmem' : ∀ i, i ∈ idxs ↔ (∃ s ∈ m.visibleSections, i ∈ m.sections s) ∧
      ∃ r, m.tileGraphics i = some r ∧ m.layerVisibility (m.graphics r).layer = true := by
    intro i
    rw [hmem]
    simp only [List.not_mem_nil, false_or, List.mem_flatMap]
  let g' : Nat → TileGraphic := fun r =>
    if r ∈ idxs.filterMap m.tileGraphics
      then { m.graphics r with alpha := m.calcAlpha (m.graphics r).layer } else m.graphics r
  let rel : Nat → Nat → Prop := fun a b => depthComparator (g' a) (g' b) ≤ 0
  have hrel : ∀ a b, rel a b ↔ (g' a).depth ≤ (g' b).depth := by
    intro a b
    simp only [rel, depthComparator]
    constructor <;> intro h <;> linarith
  haveI : IsTotal Nat rel := ⟨fun a b => by
    rw [hrel, hrel]
    exact le_total _ _⟩
  haveI : IsTrans Nat rel := ⟨fun a b c => by
    rw [hrel, hrel, hrel]
    exact le_trans⟩
  have hrun : m.rebuildRenderList = .ok { m with
      graphics := g',
      renderList := (idxs.filterMap m.tileGraphics).insertionSort rel,
      dirtyRenderList := false } := by
    simp only [EOMap.rebuildRenderList, hcol, alphaStep_foldl, List.nil_append]
  have hperm := List.perm_insertionSort rel (idxs.filterMap m.tileGraphics)
  have hlayer : ∀ r, (g' r).layer = (m.graphics r).layer := by
    intro r
    simp only [g']
    split <;> rfl
  refine ⟨_, idxs, hrun, hnd, hmem', hperm, ?_, ?_, ?_, ?_, rfl⟩
  · intro hinj
    refine hperm.nodup_iff.2 ?_
    refine List.Nodup.filterMap ?_ hnd
    intro i j r hi hj
    exact hinj i j r hi hj
  · intro r
    rw [hperm.mem_iff, List.mem_filterMap]
    constructor
    · rintro ⟨i, hi, hr⟩
      obtain ⟨hs, r', hr', hv⟩ := (hmem' i).1 hi
      rw [hr] at hr'
      cases hr'
      exact ⟨i, hs, hr, hv⟩
    · rintro ⟨i, hs, hr, hv⟩
      exact ⟨i, (hmem' i).2 ⟨hs, r, hr, hv⟩, hr⟩
  · intro r hr
    have hr' : r ∈ idxs.filterMap m.tileGraphics := hperm.mem_iff.1 hr
    show (g' r).alpha = EOMap.calcAlpha _ (g' r).layer
    rw [hlayer]
    simp only [g', hr', if_true, EOMap.calcAlpha]
  · have hs := List.sorted_insertionSort rel (idxs.filterMap m.tileGraphics)
    exact hs.imp (fun {a b} h => (hrel a b).1 h)

/-! ## Entity stacking -/

theorem getTileGraphicIndex_eq (m : EOMap) (x y layer : Nat) :
    m.getTileGraphicIndex x y layer = (y * m.emf.width + x) * 15 + layer := rfl

/-- updateEntityOffsets changes nothing but the store of graphics. -/
theorem updateEntityOffsets_eq (m : EOMap) (x y : Nat) :
    m.updateEntityOffsets x y = { m with graphics := (m.updateEntityOffsets x y).graphics } := rfl

/-- One round of the loop of updateEntityOffsets changes of a graphic at most its y. -/
theorem entityOffsetStep_frame (m : EOMap) (x y : Nat) (acc : (Nat → TileGraphic) × Int)
    (layer r : Nat) :
    ((m.entityOffsetStep x y acc layer).1 r).cacheEntry = (acc.1 r).cacheEntry ∧
    ((m.entityOffsetStep x y acc layer).1 r).layer = (acc.1 r).layer ∧
    ((m.entityOffsetStep x y acc layer).1 r).depth = (acc.1 r).depth ∧
    ((m.entityOffsetStep x y acc layer).1 r).alpha = (acc.1 r).alpha ∧
    ((m.entityOffsetStep x y acc layer).1 r).x = (acc.1 r).x := by
  unfold EOMap.entityOffsetStep
  split
  · rename_i e _
    by_cases h : r = e
    · subst h
      simp
    · simp [Function.update_noteq h]
  · simp

/-- updateEntityOffsets changes of a graphic at most its y. -/
theorem updateEntityOffsets_frame (m : EOMap) (x y r : Nat) :
    ((m.updateEntityOffsets x y).graphics r).cacheEntry = (m.graphics r).cacheEntry ∧
    ((m.updateEntityOffsets x y).graphics r).layer = (m.graphics r).layer ∧
    ((m.updateEntityOffsets x y).graphics r).depth = (m.graphics r).depth ∧
    ((m.updateEntityOffsets x y).graphics r).alpha = (m.graphics r).alpha ∧
    ((m.updateEntityOffsets x y).graphics r).x = (m.graphics r).x := by
  have key : ∀ (ls : List Nat) (acc : (Nat → TileGraphic) × Int),
      ((ls.foldl (m.entityOffsetStep x y) acc).1 r).cacheEntry = (acc.1 r).cacheEntry ∧
      ((ls.foldl (m.entityOffsetStep x y) acc).1 r).layer = (acc.1 r).layer ∧
      ((ls.foldl (m.entityOffsetStep x y) acc).1 r).depth = (acc.1 r).depth ∧
      ((ls.foldl (m.entityOffsetStep x y) acc).1 r).alpha = (acc.1 r).alpha ∧
      ((ls.foldl (m.entityOffsetStep x y) acc).1 r).x = (acc.1 r).x := by
    intro ls
    induction ls with
    | nil => intro acc; simp
    | cons l rest ih =>
      intro acc
      rw [List.foldl_cons]
      obtain ⟨h1, h2, h3, h4, h5⟩ := ih (m.entityOffsetStep x y acc l)
      obtain ⟨g1, g2, g3, g4, g5⟩ := entityOffsetStep_frame m x y acc l r
      exact ⟨h1.trans g1, h2.trans g2, h3.trans g3, h4.trans g4, h5.trans g5⟩
  exact key _ _

/-- After updateEntityOffsets the entity graphics of the tile are stacked, when different
slots hold different graphics. -/
theorem updateEntityOffsets_stacked (m : EOMap) (x y : Nat) (hd : m.SlotsDistinct) :
    (m.updateEntityOffsets x y).EntityStacked x y := by
  intro layer h11 h14 r hr
  have hidx : ∀ l, (m.updateEntityOffsets x y).getTileGraphicIndex x y l
      = m.getTileGraphicIndex x y l := fun _ => rfl
  have hbase : (m.updateEntityOffsets x y).entityBase x y = m.entityBase x y := by
    simp only [EOMap.entityBase, EOMap.height, hidx]
    rw [show (m.updateEntityOffsets x y).tileGraphics = m.tileGraphics from rfl,
      show (m.updateEntityOffsets x y).entries = m.entries from rfl]
    split
    · rename_i o ho
      simp only [ho, (updateEntityOffsets_frame m x y o).1]
    · rename_i ho
      simp only [ho]
  rw [hbase]
  have hr' : m.tileGraphics (m.getTileGraphicIndex x y layer) = some r := hr
  have hbelow : (m.updateEntityOffsets x y).entitiesBelow x y layer = m.entitiesBelow x y layer :=
    rfl
  rw [hbelow]
  have hne : ∀ l l' : Nat, l ≠ l' → ∀ a b,
      m.tileGraphics (m.getTileGraphicIndex x y l) = some a →
      m.tileGraphics (m.getTileGraphicIndex x y l') = some b → (a = b) = False := by
    intro l l' hll a b h h'
    refine eq_false ?_
    intro e
    subst e
    have := hd _ _ _ h h'
    simp only [getTileGraphicIndex_eq] at this
    omega
  have hoff : ∀ o : Int, (match m.tileGraphics (m.getTileGraphicIndex x y 1) with
      | some object => min (-10 : Int) (10 - (m.height (m.graphics object) : Int))
      | none => (-10 : Int)) = m.entityBase x y := fun _ => rfl
  simp only [EOMap.updateEntityOffsets, hoff 0, List.foldl_cons, List.foldl_nil,
    EOMap.entityOffsetStep, EOMap.entitiesBelow]
  generalize m.entityBase x y = base
  have hl : layer = 11 ∨ layer = 12 ∨ layer = 13 ∨ layer = 14 := by omega
  cases e11 : m.tileGraphics (m.getTileGraphicIndex x y 11) <;>
  cases e12 : m.tileGraphics (m.getTileGraphicIndex x y 12) <;>
  cases e13 : m.tileGraphics (m.getTileGraphicIndex x y 13) <;>
  cases e14 : m.tileGraphics (m.getTileGraphicIndex x y 14) <;>
  rcases hl with rfl | rfl | rfl | rfl <;>
  simp only [e11, e12, e13, e14] at hr' <;>
  cases hr' <;>
  simp [List.range', e11, e12, e13, e14, Function.update,
    hne 11 12 (by decide), hne 11 13 (by decide), hne 11 14 (by decide),
    hne 12 11 (by decide), hne 12 13 (by decide), hne 12 14 (by decide),
    hne 13 11 (by decide), hne 13 12 (by decide), hne 13 14 (by decide),
    hne 14 11 (by decide), hne 14 12 (by decide), hne 14 13 (by decide)] <;>
  try ring

/-! ## setTileGraphic, step by step -/

theorem removeOldGraphic_ok (m : EOMap) (idx old : Nat)
    (h : (m.entries (m.graphics old).cacheEntry).refCount ≠ 0) :
    m.removeOldGraphic idx old
      = .ok (m.dropGraphic idx old (released (m.entries (m.graphics old).cacheEntry))) := by
  simp [EOMap.removeOldGraphic, TextureCacheEntry.decRef, h, released]

theorem removeOldGraphic_throws (m : EOMap) (idx old : Nat)
    (h : (m.entries (m.graphics old).cacheEntry).refCount = 0) :
    m.removeOldGraphic idx old = .error ("Negative asset entry refCount", m) := by
  simp only [EOMap.removeOldGraphic, TextureCacheEntry.decRef, h, if_true,
    Function.update_eq_self]

/-- setTileGraphic on a slot without a graphic. -/
theorem setTileGraphic_empty_slot (m : EOMap) (x y layer : Nat) (ce : Option Nat)
    (mod : Option Bool) (h : m.tileGraphics (m.getTileGraphicIndex x y layer) = none) :
    m.setTileGraphic x y layer ce mod = .ok (match ce with
      | none => m.clearGraphic x y layer none (mod.getD true)
      | some e => m.createGraphic x y layer e (mod.getD true)) := by
  unfold EOMap.setTileGraphic
  simp only [h]
  cases ce <;> rfl

/-- setTileGraphic on a slot with a graphic whose cache entry is in use. -/
theorem setTileGraphic_full_slot (m : EOMap) (x y layer : Nat) (ce : Option Nat)
    (mod : Option Bool) (old : Nat)
    (h : m.tileGraphics (m.getTileGraphicIndex x y layer) = some old)
    (hrc : (m.entries (m.graphics old).cacheEntry).refCount ≠ 0) :
    m.setTileGraphic x y layer ce mod = .ok (match ce with
      | none => (m.dropGraphic (m.getTileGraphicIndex x y layer) old
          (released (m.entries (m.graphics old).cacheEntry))).clearGraphic x y layer (some old)
          (mod.getD true)
      | some e => (m.dropGraphic (m.getTileGraphicIndex x y layer) old
          (released (m.entries (m.graphics old).cacheEntry))).createGraphic x y layer e
          (mod.getD true)) := by
  unfold EOMap.setTileGraphic
  simp only [h, removeOldGraphic_ok m _ old hrc]
  cases ce <;> rfl

@[simp] theorem updateEntityOffsets_tileGraphics (m : EOMap) (x y : Nat) :
    (m.updateEntityOffsets x y).tileGraphics = m.tileGraphics := rfl

@[simp] theorem updateEntityOffsets_nextGraphic (m : EOMap) (x y : Nat) :
    (m.updateEntityOffsets x y).nextGraphic = m.nextGraphic := rfl

@[simp] theorem updateEntityOffsets_entries (m : EOMap) (x y : Nat) :
    (m.updateEntityOffsets x y).entries = m.entries := rfl

@[simp] theorem updateEntityOffsets_emf (m : EOMap) (x y : Nat) :
    (m.updateEntityOffsets x y).emf = m.emf := rfl

@[simp] theorem updateEntityOffsets_textureCache (m : EOMap) (x y : Nat) :
    (m.updateEntityOffsets x y).textureCache = m.textureCache := rfl

@[simp] theorem updateEntityOffsets_sections (m : EOMap) (x y : Nat) :
    (m.updateEntityOffsets x y).sections = m.sections := rfl

@[simp] theorem updateEntityOffsets_renderList (m : EOMap) (x y : Nat) :
    (m.updateEntityOffsets x y).renderList = m.renderList := rfl

@[simp] theorem updateEntityOffsets_cacheEntry (m : EOMap) (x y r : Nat) :
    ((m.updateEntityOffsets x y).graphics r).cacheEntry = (m.graphics r).cacheEntry :=
  (updateEntityOffsets_frame m x y r).1

/-- What clearGraphic leaves alone. -/
theorem clearGraphic_frame (m : EOMap) (x y layer : Nat) (old : Option Nat) (mod : Bool) :
    (m.clearGraphic x y layer old mod).tileGraphics = m.tileGraphics ∧
    (m.clearGraphic x y layer old mod).nextGraphic = m.nextGraphic ∧
    (m.clearGraphic x y layer old mod).entries = m.entries ∧
    (m.clearGraphic x y layer old mod).emf = m.emf ∧
    (m.clearGraphic x y layer old mod).textureCache = m.textureCache ∧
    (m.clearGraphic x y layer old mod).sections = m.sections ∧
    (∀ r, ((m.clearGraphic x y layer old mod).graphics r).cacheEntry
      = (m.graphics r).cacheEntry) := by
  unfold EOMap.clearGraphic
  by_cases hl : layer = 1 <;> cases old <;> cases mod <;> simp [hl]

/-- What createGraphic does to the slots, the counter of graphics, the cache entries and
the cache entry of each graphic. -/
theorem createGraphic_frame (m : EOMap) (x y layer e : Nat) (mod : Bool) :
    (m.createGraphic x y layer e mod).tileGraphics
      = Function.update m.tileGraphics (m.getTileGraphicIndex x y layer) (some m.nextGraphic) ∧
    (m.createGraphic x y layer e mod).nextGraphic = m.nextGraphic + 1 ∧
    (m.createGraphic x y layer e mod).entries
      = Function.update m.entries e (m.entries e).incRef ∧
    (m.createGraphic x y layer e mod).emf = m.emf ∧
    (m.createGraphic x y layer e mod).textureCache = m.textureCache ∧
    (∀ r, ((m.createGraphic x y layer e mod).graphics r).cacheEntry
      = if r = m.nextGraphic then e else (m.graphics r).cacheEntry) := by
  have hg : ∀ (g : Nat → TileGraphic) (t : TileGraphic) (r : Nat), t.cacheEntry = e →
      (Function.update g m.nextGraphic t r).cacheEntry
        = if r = m.nextGraphic then e else (g r).cacheEntry := by
    intro g t r ht
    by_cases hr : r = m.nextGraphic
    · subst hr
      simp [ht]
    · simp [hr, Function.update_noteq hr]
  unfold EOMap.createGraphic
  by_cases hl : layer = 1 <;> cases mod <;> simp [hl, hg, EOMap.getTileGraphicIndex]
/-! ## The bookkeeping stays in order -/

/-- Consistency only looks at the slots, the counter of graphics, the cache entries and
the cache entry of each graphic. -/
theorem Consistent_congr {m m' : EOMap} (hc : m.Consistent)
    (ht : m'.tileGraphics = m.tileGraphics) (hn : m'.nextGraphic = m.nextGraphic)
    (he : m'.entries = m.entries)
    (hg : ∀ r, (m'.graphics r).cacheEntry = (m.graphics r).cacheEntry) : m'.Consistent := by
  refine ⟨?_, ?_, ?_⟩
  · intro i r h
    rw [ht] at h
    rw [hn]
    exact hc.fresh i r h
  · intro i j r hi hj
    rw [ht] at hi hj
    exact hc.distinct i j r hi hj
  · intro S e hS
    rw [he]
    refine hc.cover S e ?_
    intro i hi
    obtain ⟨r, hr, hre⟩ := hS i hi
    rw [ht] at hr
    rw [hg] at hre
    exact ⟨r, hr, hre⟩

/-- In a consistent state the cache entry of the graphic of a slot is in use. -/
theorem EOMap.Consistent.refCount_ne_zero {m : EOMap} (hc : m.Consistent) {i old : Nat}
    (h : m.tileGraphics i = some old) :
    (m.entries (m.graphics old).cacheEntry).refCount ≠ 0 := by
  have := hc.cover {i} (m.graphics old).cacheEntry (by
    intro j hj
    rw [Finset.mem_singleton] at hj
    subst hj
    exact ⟨old, h, rfl⟩)
  simp at this
  omega

theorem dropGraphic_consistent {m : EOMap} (hc : m.Consistent) {idx old : Nat}
    (h : m.tileGraphics idx = some old) :
    (m.dropGraphic idx old (released (m.entries (m.graphics old).cacheEntry))).Consistent := by
  have htg : (m.dropGraphic idx old (released (m.entries (m.graphics old).cacheEntry))).tileGraphics
      = Function.update m.tileGraphics idx none := rfl
  have hgr : (m.dropGraphic idx old (released (m.entries (m.graphics old).cacheEntry))).graphics
      = m.graphics := rfl
  have hen : (m.dropGraphic idx old (released (m.entries (m.graphics old).cacheEntry))).entries
      = Function.update m.entries (m.graphics old).cacheEntry
          (released (m.entries (m.graphics old).cacheEntry)) := rfl
  have hold : ∀ i r, Function.update m.tileGraphics idx none i = some r →
      i ≠ idx ∧ m.tileGraphics i = some r := by
    intro i r hi
    by_cases e : i = idx
    · subst e
      simp at hi
    · rw [Function.update_noteq e] at hi
      exact ⟨e, hi⟩
  refine ⟨?_, ?_, ?_⟩
  · intro i r hi
    rw [htg] at hi
    exact hc.fresh i r (hold i r hi).2
  · intro i j r hi hj
    rw [htg] at hi hj
    exact hc.distinct i j r (hold i r hi).2 (hold j r hj).2
  · intro S e hS
    rw [hen]
    have hS' : ∀ i ∈ S, i ≠ idx ∧ ∃ r, m.tileGraphics i = some r ∧ (m.graphics r).cacheEntry = e := by
      intro i hi
      obtain ⟨r, hr, hre⟩ := hS i hi
      rw [htg] at hr
      rw [hgr] at hre
      exact ⟨(hold i r hr).1, r, (hold i r hr).2, hre⟩
    by_cases he : e = (m.graphics old).cacheEntry
    · subst he
      have hnot : idx ∉ S := fun hi => (hS' idx hi).1 rfl
      have := hc.cover (insert idx S) (m.graphics old).cacheEntry (by
        intro i hi
        rcases Finset.mem_insert.1 hi with rfl | hi
        · exact ⟨old, h, rfl⟩
        · exact (hS' i hi).2)
      rw [Finset.card_insert_of_not_mem hnot] at this
      simp only [Function.update_same, released]
      omega
    · rw [Function.update_noteq he]
      exact hc.cover S e (fun i hi => (hS' i hi).2)

theorem createGraphic_consistent {m : EOMap} (hc : m.Consistent) (x y layer e : Nat)
    (mod : Bool) : (m.createGraphic x y layer e mod).Consistent := by
  obtain ⟨htg, hn, hen, _, _, hce⟩ := createGraphic_frame m x y layer e mod
  have hold : ∀ i r,
      Function.update m.tileGraphics (m.getTileGraphicIndex x y layer) (some m.nextGraphic) i
        = some r →
      (i = m.getTileGraphicIndex x y layer ∧ r = m.nextGraphic) ∨
      (i ≠ m.getTileGraphicIndex x y layer ∧ m.tileGraphics i = some r ∧ r < m.nextGraphic) := by
    intro i r hi
    by_cases e : i = m.getTileGraphicIndex x y layer
    · subst e
      simp at hi
      exact Or.inl ⟨rfl, hi.symm⟩
    · rw [Function.update_noteq e] at hi
      exact Or.inr ⟨e, hi, hc.fresh i r hi⟩
  refine ⟨?_, ?_, ?_⟩
  · intro i r hi
    rw [htg] at hi
    rw [hn]
    rcases hold i r hi with ⟨_, rfl⟩ | ⟨_, _, h⟩ <;> omega
  · intro i j r hi hj
    rw [htg] at hi hj
    rcases hold i r hi with ⟨hi1, hi2⟩ | ⟨_, hi2, hi3⟩ <;>
    rcases hold j r hj with ⟨hj1, hj2⟩ | ⟨_, hj2, hj3⟩
    · rw [hi1, hj1]
    · omega
    · omega
    · exact hc.distinct i j r hi2 hj2
  · intro S e' hS
    rw [hen]
    have hS' : ∀ i ∈ S.erase (m.getTileGraphicIndex x y layer),
        ∃ r, m.tileGraphics i = some r ∧ (m.graphics r).cacheEntry = e' := by
      intro i hi
      obtain ⟨hne, hi⟩ := Finset.mem_erase.1 hi
      obtain ⟨r, hr, hre⟩ := hS i hi
      rw [htg] at hr
      rcases hold i r hr with ⟨h1, _⟩ | ⟨_, h2, h3⟩
      · exact absurd h1 hne
      · rw [hce, if_neg (by omega)] at hre
        exact ⟨r, h2, hre⟩
    have hcov := hc.cover _ e' hS'
    by_cases he : e' = e
    · subst he
      simp only [Function.update_same, TextureCacheEntry.incRef]
      have := Finset.pred_card_le_card_erase (s := S) (a := m.getTileGraphicIndex x y layer)
      omega
    · rw [Function.update_noteq he]
      have hnot : m.getTileGraphicIndex x y layer ∉ S := by
        intro hi
        obtain ⟨r, hr, hre⟩ := hS _ hi
        rw [htg] at hr
        simp at hr
        subst hr
        rw [hce, if_pos rfl] at hre
        exact he hre.symm
      rw [Finset.erase_eq_of_not_mem hnot] at hcov
      exact hcov

/-- In a consistent state setTileGraphic returns, the state it leaves is consistent, the
slot holds the new graphic or nothing, and the other slots, the map data and the lookups
are as before. -/
theorem setTileGraphic_consistent {m : EOMap} (hc : m.Consistent) (x y layer : Nat)
    (ce : Option Nat) (mod : Option Bool) :
    ∃ m', m.setTileGraphic x y layer ce mod = .ok m' ∧ m'.Consistent ∧
      m'.tileGraphics = Function.update m.tileGraphics (m.getTileGraphicIndex x y layer)
        (ce.map fun _ => m.nextGraphic) ∧
      m'.emf = m.emf ∧ m'.textureCache = m.textureCache := by
  cases hslot : m.tileGraphics (m.getTileGraphicIndex x y layer) with
  | none =>
    rw [setTileGraphic_empty_slot m x y layer ce mod hslot]
    cases ce with
    | none =>
      obtain ⟨h1, h2, h3, h4, h5, _, h7⟩ := clearGraphic_frame m x y layer none (mod.getD true)
      refine ⟨_, rfl, Consistent_congr hc h1 h2 h3 h7, ?_, h4, h5⟩
      rw [h1]
      funext i
      by_cases e : i = m.getTileGraphicIndex x y layer
      · subst e
        simp [hslot]
      · simp [Function.update_noteq e]
    | some e =>
      obtain ⟨h1, _, _, h4, h5, _⟩ := createGraphic_frame m x y layer e (mod.getD true)
      exact ⟨_, rfl, createGraphic_consistent hc x y layer e _, h1, h4, h5⟩
  | some old =>
    rw [setTileGraphic_full_slot m x y layer ce mod old hslot (hc.refCount_ne_zero hslot)]
    have hd := dropGraphic_consistent hc hslot
    cases ce with
    | none =>
      obtain ⟨h1, h2, h3, h4, h5, _, h7⟩ := clearGraphic_frame
        (m.dropGraphic (m.getTileGraphicIndex x y layer) old
          (released (m.entries (m.graphics old).cacheEntry))) x y layer (some old) (mod.getD true)
      exact ⟨_, rfl, Consistent_congr hd h1 h2 h3 h7, h1, h4, h5⟩
    | some e =>
      obtain ⟨h1, _, _, h4, h5, _⟩ := createGraphic_frame
        (m.dropGraphic (m.getTileGraphicIndex x y layer) old
          (released (m.entries (m.graphics old).cacheEntry))) x y layer e (mod.getD true)
      refine ⟨_, rfl, createGraphic_consistent hd x y layer e _, ?_, h4, h5⟩
      rw [h1]
      show Function.update (Function.update m.tileGraphics _ none) _ _ = _
      simp [EOMap.getTileGraphicIndex, EOMap.dropGraphic]

/-! ## Setting and clearing the content of a slot -/

/-- Writing map data leaves the bookkeeping of the slots alone. -/
theorem Consistent_emf {m : EOMap} (hc : m.Consistent) (emf : Emf) :
    ({ m with emf := emf } : EOMap).Consistent :=
  Consistent_congr hc rfl rfl rfl (fun _ => rfl)

/-- In a map of width W the graphic index determines the tile and the layer, for columns
below W and layers below 15. -/
theorem getTileGraphicIndex_inj (m : EOMap) {x y l x' y' l' : Nat}
    (hx : x < m.emf.width) (hx' : x' < m.emf.width) (hl : l < 15) (hl' : l' < 15)
    (h : m.getTileGraphicIndex x y l = m.getTileGraphicIndex x' y' l') :
    x = x' ∧ y = y' ∧ l = l' := by
  simp only [getTileGraphicIndex_eq] at h
  have h1 : y * m.emf.width + x = y' * m.emf.width + x' := by omega
  have h2 : l = l' := by omega
  have hy : y = y' := by
    rcases Nat.lt_trichotomy y y' with hlt | heq | hgt
    · have : (y + 1) * m.emf.width ≤ y' * m.emf.width := Nat.mul_le_mul_right _ hlt
      rw [Nat.add_mul] at this
      omega
    · exact heq
    · have : (y' + 1) * m.emf.width ≤ y * m.emf.width := Nat.mul_le_mul_right _ hgt
      rw [Nat.add_mul] at this
      omega
  subst hy
  exact ⟨by omega, rfl, h2⟩

/-- setGraphic with a graphic whose cache entry is available, in a consistent state. -/
theorem setGraphic_available {m : EOMap} (hc : m.Consistent) (x y id layer e : Nat)
    (mod : Option Bool) (hid : id ≠ 0)
    (he : m.textureCache.getResource (layerFiles.getD layer 0) (id + 100) = some e) :
    ∃ m', m.setGraphic x y (some id) layer mod = .ok m' ∧ m'.Consistent ∧
      m'.tileGraphics = Function.update m.tileGraphics (m.getTileGraphicIndex x y layer)
        (some m.nextGraphic) ∧
      m'.emf.width = m.emf.width ∧ m'.textureCache = m.textureCache := by
  obtain ⟨m', h1, h2, h3, h4, h5⟩ := setTileGraphic_consistent
    (Consistent_emf hc (m.emf.modifyTile x y fun tile =>
      { tile with gfx := Function.update tile.gfx layer (some id) })) x y layer (some e) mod
  refine ⟨m', ?_, h2, h3, by rw [h4]; rfl, h5⟩
  obtain ⟨k, rfl⟩ : ∃ k, id = k + 1 := ⟨id - 1, by omega⟩
  simp only [EOMap.setGraphic, he]
  simpa using h1

/-- setGraphic with nothing to show (null, or graphic 0 on the ground layer), in a
consistent state. -/
theorem setGraphic_clear {m : EOMap} (hc : m.Consistent) (x y layer : Nat) (gfx : Option Nat)
    (mod : Option Bool) (hg : gfx = none ∨ (gfx = some 0 ∧ layer = 0)) :
    ∃ m', m.setGraphic x y gfx layer mod = .ok m' ∧ m'.Consistent ∧
      m'.tileGraphics = Function.update m.tileGraphics (m.getTileGraphicIndex x y layer) none ∧
      m'.emf.width = m.emf.width ∧ m'.textureCache = m.textureCache := by
  obtain ⟨m', h1, h2, h3, h4, h5⟩ := setTileGraphic_consistent
    (Consistent_emf hc (m.emf.modifyTile x y fun tile =>
      { tile with gfx := Function.update tile.gfx layer gfx })) x y layer none mod
  refine ⟨m', ?_, h2, h3, by rw [h4]; rfl, h5⟩
  rcases hg with rfl | ⟨rfl, rfl⟩
  · simp only [EOMap.setGraphic]
    simpa using h1
  · simp only [EOMap.setGraphic]
    simpa using h1

/-- setGraphic with graphic 0 on a layer other than the ground layer changes nothing. -/
theorem setGraphic_zero_ignored (m : EOMap) (x y layer : Nat) (mod : Option Bool)
    (hl : layer ≠ 0) : m.setGraphic x y (some 0) layer mod = .ok m := by
  simp [EOMap.setGraphic, hl]
  rfl

/-- setSpec in a consistent state, with a tile spec whose cache entry is available or
with null: it returns, both tile-spec slots get a graphic or lose theirs, and the other
slots are as before. -/
theorem setSpec_consistent {m : EOMap} (hc : m.Consistent) (x y : Nat) (tileSpec : Option Nat)
    (mod : Option Bool) (ce : Option Nat)
    (he : ce = tileSpec.bind m.textureCache.getSpec) (hs : tileSpec.isSome → ce.isSome) :
    ∃ m', m.setSpec x y tileSpec mod = .ok m' ∧ m'.Consistent ∧
      (∀ i, i ≠ m.getTileGraphicIndex x y 9 → i ≠ m.getTileGraphicIndex x y 10 →
        m'.tileGraphics i = m.tileGraphics i) ∧
      (m'.tileGraphics (m.getTileGraphicIndex x y 9)).isSome = ce.isSome ∧
      (m'.tileGraphics (m.getTileGraphicIndex x y 10)).isSome = ce.isSome ∧
      m'.emf.width = m.emf.width ∧ m'.textureCache = m.textureCache := by
  obtain ⟨m1, h1, c1, t1, e1, k1⟩ := setTileGraphic_consistent
    (Consistent_emf hc (m.emf.modifyTile x y fun tile => { tile with spec := tileSpec }))
    x y 9 ce mod
  obtain ⟨m2, h2, c2, t2, e2, k2⟩ := setTileGraphic_consistent c1 x y 10 ce mod
  have hw : m1.emf.width = m.emf.width := by rw [e1]; rfl
  have hi : ∀ l, m1.getTileGraphicIndex x y l = m.getTileGraphicIndex x y l := by
    intro l
    simp only [EOMap.getTileGraphicIndex, hw]
  have hne : m.getTileGraphicIndex x y 9 ≠ m.getTileGraphicIndex x y 10 := by
    simp only [getTileGraphicIndex_eq]
    omega
  have hrun : m.setSpec x y tileSpec mod = .ok m2 := by
    cases tileSpec with
    | none =>
      subst he
      simp only [EOMap.setSpec]
      simp only [Option.bind] at h1 h2
      rw [h1]
      exact h2
    | some s =>
      cases hsp : m.textureCache.getSpec s with
      | none =>
        rw [he] at hs
        simp [hsp] at hs
      | some c =>
        have hce : ce = some c := by rw [he]; simp [hsp]
        subst hce
        simp only [EOMap.setSpec, hsp]
        rw [h1]
        exact h2
  refine ⟨m2, hrun, c2, ?_, ?_, ?_, by rw [e2, hw], by rw [k2, k1]⟩
  · intro i h9 h10
    rw [t2, hi, Function.update_noteq h10, t1]
    exact Function.update_noteq h9 _ _
  · rw [t2, hi, Function.update_noteq hne, t1]
    show (Function.update m.tileGraphics (m.getTileGraphicIndex x y 9) _
      (m.getTileGraphicIndex x y 9)).isSome = _
    rw [Function.update_same]
    cases ce <;> rfl
  · rw [t2, hi, Function.update_same]
    cases ce <;> rfl
/-- The state the constructor starts from is consistent. -/
theorem init_consistent (textureCache : CacheLookup) (entries : Nat → TextureCacheEntry)
    (emf : Emf) (layerVisibility : Nat → Bool) :
    (EOMap.init textureCache entries emf layerVisibility).Consistent := by
  refine ⟨?_, ?_, ?_⟩
  · intro i r h
    simp [EOMap.init] at h
  · intro i j r h
    simp [EOMap.init] at h
  · intro S e hS
    have : S = ∅ := by
      refine Finset.eq_empty_of_forall_not_mem ?_
      intro i hi
      obtain ⟨r, hr, _⟩ := hS i hi
      simp [EOMap.init] at hr
    subst this
    simp

/-- draw on a layer 0..8 is setGraphic. -/
theorem draw_graphic_layer (m : EOMap) (x y : Nat) (drawID : Option Nat) (layer : Nat)
    (mod : Option Bool) (hl : layer ≤ 8) :
    m.draw x y drawID (layer : Int) mod = m.setGraphic x y drawID layer mod := by
  have h : (0 : Int) ≤ (layer : Int) ∧ (layer : Int) ≤ 8 := ⟨by omega, by omega⟩
  simp only [EOMap.draw, h, and_self, if_true, Int.toNat_ofNat]

/-- draw on layer 9 is setSpec. -/
theorem draw_spec_layer (m : EOMap) (x y : Nat) (drawID : Option Nat) (mod : Option Bool) :
    m.draw x y drawID 9 mod = m.setSpec x y drawID mod := by
  simp [EOMap.draw]

/-- C6, as stated, fails on the layers 1..8: an object graphic set at tile (0, 0) of an
empty 4 by 4 map is still in its slot after draw with graphic id 0. -/
theorem C6_draw_zero_keeps_object :
    observe [1] [] [2]
      (do let m ← EOMap.new sampleCache (sampleEntries 32) (emptyEmf 4 4) (fun _ => true)
          let m ← m.draw 0 0 (some 1) 1 none
          m.draw 0 0 (some 0) 1 none)
      = .state [0] [some 0] [] [1] [some (-66)] := by
  decide!

/-- C6, amended: in a consistent state, draw with a graphic id other than 0 whose cache
entry is available, on a layer 0..8, returns and leaves one TileGraphic in the slot, which
no other slot holds; after that, draw with a null id returns and leaves the slot without
TileGraphic, and so does draw with id 0 on layer 0, while draw with id 0 on the layers 1..8
returns without changing anything. On layer 9, draw with a tile spec whose cache entry is
available leaves one TileGraphic in the slot, and draw with null after that leaves none. -/
theorem C6_set_then_clear (m : EOMap) (hc : m.Consistent) (x y : Nat) (hx : x < m.emf.width)
    (mod mod' : Option Bool) :
    (∀ layer id e, layer ≤ 8 → id ≠ 0 →
      m.textureCache.getResource (layerFiles.getD layer 0) (id + 100) = some e →
      ∃ m1 r, m.draw x y (some id) (layer : Int) mod = .ok m1 ∧
        m1.tileGraphics (m.getTileGraphicIndex x y layer) = some r ∧
        (∀ x' y' l', x' < m.emf.width → l' < 15 →
          m1.tileGraphics (m.getTileGraphicIndex x' y' l') = some r →
          x' = x ∧ y' = y ∧ l' = layer) ∧
        (∃ m2, m1.draw x y none (layer : Int) mod' = .ok m2 ∧
          m2.tileGraphics (m.getTileGraphicIndex x y layer) = none) ∧
        (layer = 0 → ∃ m2, m1.draw x y (some 0) (layer : Int) mod' = .ok m2 ∧
          m2.tileGraphics (m.getTileGraphicIndex x y layer) = none) ∧
        (layer ≠ 0 → m1.draw x y (some 0) (layer : Int) mod' = .ok m1)) ∧
    (∀ spec e, m.textureCache.getSpec spec = some e →
      ∃ m1 r, m.draw x y (some spec) 9 mod = .ok m1 ∧
        m1.tileGraphics (m.getTileGraphicIndex x y 9) = some r ∧
        (∀ x' y' l', x' < m.emf.width → l' < 15 →
          m1.tileGraphics (m.getTileGraphicIndex x' y' l') = some r →
          x' = x ∧ y' = y ∧ l' = 9) ∧
        ∃ m2, m1.draw x y none 9 mod' = .ok m2 ∧
          m2.tileGraphics (m.getTileGraphicIndex x y 9) = none) := by
  constructor
  · intro layer id e hl hid he
    obtain ⟨m1, h1, c1, t1, w1, k1⟩ := setGraphic_available hc x y id layer e mod hid he
    have hi : ∀ l, m1.getTileGraphicIndex x y l = m.getTileGraphicIndex x y l := by
      intro l
      simp only [EOMap.getTileGraphicIndex, w1]
    have hslot : m1.tileGraphics (m.getTileGraphicIndex x y layer) = some m.nextGraphic := by
      rw [t1, Function.update_same]
    refine ⟨m1, m.nextGraphic, ?_, hslot, ?_, ?_, ?_, ?_⟩
    · rw [draw_graphic_layer m x y _ layer mod hl]
      exact h1
    · intro x' y' l' hx' hl' h
      have := c1.distinct _ _ _ h hslot
      exact getTileGraphicIndex_inj m hx' hx hl' (by omega) this
    · obtain ⟨m2, h2, _, t2, _, _⟩ := setGraphic_clear c1 x y layer none mod' (Or.inl rfl)
      refine ⟨m2, ?_, ?_⟩
      · rw [draw_graphic_layer m1 x y _ layer mod' hl]
        exact h2
      · rw [t2, hi, Function.update_same]
    · intro h0
      obtain ⟨m2, h2, _, t2, _, _⟩ := setGraphic_clear c1 x y layer (some 0) mod'
        (Or.inr ⟨rfl, h0⟩)
      refine ⟨m2, ?_, ?_⟩
      · rw [draw_graphic_layer m1 x y _ layer mod' hl]
        exact h2
      · rw [t2, hi, Function.update_same]
    · intro h0
      rw [draw_graphic_layer m1 x y _ layer mod' hl]
      exact setGraphic_zero_ignored m1 x y layer mod' h0
  · intro spec e he
    obtain ⟨m1, h1, c1, _, s9, _, w1, k1⟩ := setSpec_consistent hc x y (some spec) mod (some e)
      (by simp [he]) (fun _ => rfl)
    have hi : ∀ l, m1.getTileGraphicIndex x y l = m.getTileGraphicIndex x y l := by
      intro l
      simp only [EOMap.getTileGraphicIndex, w1]
    obtain ⟨r, hr⟩ := Option.isSome_iff_exists.1 (by rw [s9]; rfl :
      (m1.tileGraphics (m.getTileGraphicIndex x y 9)).isSome = true)
    refine ⟨m1, r, ?_, hr, ?_, ?_⟩
    · rw [draw_spec_layer]
      exact h1
    · intro x' y' l' hx' hl' h
      have := c1.distinct _ _ _ h hr
      exact getTileGraphicIndex_inj m hx' hx hl' (by omega) this
    · obtain ⟨m2, h2, _, _, t9, _, _, _⟩ := setSpec_consistent c1 x y none mod' none rfl
        (fun h => by simp at h)
      refine ⟨m2, ?_, ?_⟩
      · rw [draw_spec_layer]
        exact h2
      · rw [hi] at t9
        simpa using t9

/-- C6, amended, at work on the empty 4 by 4 map: ground graphic 1 drawn at tile (1, 2) is
in its slot, and draw with graphic id 0 takes it out again. -/
theorem C6_set_then_clear_witness :
    ∃ m1 r,
      (EOMap.init sampleCache (sampleEntries 32) (emptyEmf 4 4) (fun _ => true)).draw 1 2
        (some 1) 0 none = .ok m1 ∧
      m1.tileGraphics 135 = some r ∧
      ∃ m2, m1.draw 1 2 (some 0) 0 none = .ok m2 ∧ m2.tileGraphics 135 = none := by
  obtain ⟨m1, r, h1, h2, _, _, h3, _⟩ :=
    (C6_set_then_clear (EOMap.init sampleCache (sampleEntries 32) (emptyEmf 4 4) (fun _ => true))
      (init_consistent _ _ _ _) 1 2 (by decide) none none).1 0 1 0 (by decide) (by decide) rfl
  exact ⟨m1, r, h1, h2, h3 rfl⟩

/-! ## Entity stacking after the setters -/

/-- Stacking only looks at the slots, the graphics, the cache entries and the map width. -/
theorem EntityStacked_congr {m m' : EOMap} {x y : Nat} (h : m.EntityStacked x y)
    (ht : m'.tileGraphics = m.tileGraphics) (hg : m'.graphics = m.graphics)
    (he : m'.entries = m.entries) (hw : m'.emf.width = m.emf.width) :
    m'.EntityStacked x y := by
  intro layer h11 h14 r hr
  have hi : ∀ l, m'.getTileGraphicIndex x y l = m.getTileGraphicIndex x y l := by
    intro l
    simp only [EOMap.getTileGraphicIndex, hw]
  have hb : m'.entityBase x y = m.entityBase x y := by
    simp only [EOMap.entityBase, EOMap.height, hi, ht, hg, he]
  have hk : m'.entitiesBelow x y layer = m.entitiesBelow x y layer := by
    simp only [EOMap.entitiesBelow, hi, ht]
  rw [hi, ht] at hr
  rw [hg, hb, hk]
  exact h layer h11 h14 r hr

/-- A state that updateEntityOffsets has just left is stacked when its slots hold
different graphics. -/
theorem stacked_of_updateEntityOffsets {m m1 : EOMap} {x y : Nat}
    (h : m = m1.updateEntityOffsets x y) (hd : m.SlotsDistinct) : m.EntityStacked x y := by
  subst h
  exact updateEntityOffsets_stacked m1 x y hd

/-- After setTileGraphic on the object layer the entity graphics of the tile are stacked. -/
theorem setTileGraphic_object_stacked {m m' : EOMap} (hc : m.Consistent) (x y : Nat)
    (ce : Option Nat) (mod : Option Bool) (h : m.setTileGraphic x y 1 ce mod = .ok m') :
    m'.EntityStacked x y := by
  obtain ⟨m2, h2, c2, _⟩ := setTileGraphic_consistent hc x y 1 ce mod
  rw [h] at h2
  cases h2
  have hclear : ∀ (m0 : EOMap) (old : Option Nat) (b : Bool),
      (m0.clearGraphic x y 1 old b).SlotsDistinct → (m0.clearGraphic x y 1 old b).EntityStacked x y := by
    intro m0 old b hd
    have hst : (m0.updateEntityOffsets x y).EntityStacked x y :=
      updateEntityOffsets_stacked m0 x y (by
        intro i j r hi hj
        have e : (m0.clearGraphic x y 1 old b).tileGraphics = m0.tileGraphics :=
          (clearGraphic_frame m0 x y 1 old b).1
        exact hd i j r (by rw [e]; exact hi) (by rw [e]; exact hj))
    cases old with
    | none => exact hst
    | some o =>
      cases b
      · exact hst
      · exact EntityStacked_congr hst rfl rfl rfl rfl
  have hcreate : ∀ (m0 : EOMap) (e : Nat) (b : Bool),
      (m0.createGraphic x y 1 e b).SlotsDistinct → (m0.createGraphic x y 1 e b).EntityStacked x y := by
    intro m0 e b hd
    cases b
    · exact stacked_of_updateEntityOffsets rfl hd
    · exact stacked_of_updateEntityOffsets rfl hd
  cases hslot : m.tileGraphics (m.getTileGraphicIndex x y 1) with
  | none =>
    rw [setTileGraphic_empty_slot m x y 1 ce mod hslot] at h
    cases ce with
    | none =>
      cases h
      exact hclear _ _ _ c2.distinct
    | some e =>
      cases h
      exact hcreate _ _ _ c2.distinct
  | some old =>
    rw [setTileGraphic_full_slot m x y 1 ce mod old hslot (hc.refCount_ne_zero hslot)] at h
    cases ce with
    | none =>
      cases h
      exact hclear _ _ _ c2.distinct
    | some e =>
      cases h
      exact hcreate _ _ _ c2.distinct

/-- What a setter of an entity layer does: setTileGraphic on its layer, then
updateEntityOffsets. -/
theorem entity_setter_stacked {m m' : EOMap} (hc : m.Consistent) (x y layer : Nat)
    (emf : Emf) (items npcs : EntityMap) (ce : Option Nat)
    (h : (do let m1 ← ({ m with emf := emf, items := items, npcs := npcs } : EOMap).setTileGraphic
                x y layer ce none
             pure (m1.updateEntityOffsets x y) : Throws EOMap EOMap) = .ok m') :
    m'.EntityStacked x y ∧ m'.Consistent := by
  have hc' : ({ m with emf := emf, items := items, npcs := npcs } : EOMap).Consistent :=
    Consistent_congr hc rfl rfl rfl (fun _ => rfl)
  obtain ⟨m1, h1, c1, _⟩ := setTileGraphic_consistent hc' x y layer ce none
  rw [h1] at h
  cases h
  exact ⟨updateEntityOffsets_stacked m1 x y c1.distinct,
    Consistent_congr c1 rfl rfl rfl (fun r => updateEntityOffsets_cacheEntry m1 x y r)⟩

/-- C8: in a consistent state, after updateEntityOffsets(x, y), and so after setWarp,
setSign, setItems, setNPCs and after setTileGraphic on the object layer at (x, y), the
entity graphics of the tile are stacked: taken in ascending layer order with
k = 0, 1, 2, ..., they have y = 16 (x + y) + base - 28 k, with base = -10 without an
object graphic and base = min(-10, 10 - height of the object) with one. In particular,
in such a state with an object, a warp and a sign at the tile, the sign is 28 above the
warp, and the warp is at most -10 and at most 10 - height of the object from 16 (x + y). -/
theorem C8_entity_stacking (m : EOMap) (hc : m.Consistent) (x y : Nat) :
    (m.updateEntityOffsets x y).EntityStacked x y ∧
    (∀ warp m', m.setWarp x y warp = .ok m' → m'.EntityStacked x y) ∧
    (∀ sign m', m.setSign x y sign = .ok m' → m'.EntityStacked x y) ∧
    (∀ items m', m.setItems x y items = .ok m' → m'.EntityStacked x y) ∧
    (∀ npcs m', m.setNPCs x y npcs = .ok m' → m'.EntityStacked x y) ∧
    (∀ ce mod m', m.setTileGraphic x y 1 ce mod = .ok m' → m'.EntityStacked x y) ∧
    (∀ m' : EOMap, m'.EntityStacked x y → ∀ object warp sign,
      m'.tileGraphics (m'.getTileGraphicIndex x y 1) = some object →
      m'.tileGraphics (m'.getTileGraphicIndex x y 11) = some warp →
      m'.tileGraphics (m'.getTileGraphicIndex x y 12) = some sign →
      (m'.graphics sign).y = (m'.graphics warp).y - 28 ∧
      (m'.graphics warp).y - 16 * ((x : Int) + (y : Int)) ≤ -10 ∧
      (m'.graphics warp).y - 16 * ((x : Int) + (y : Int))
        ≤ 10 - (m'.height (m'.graphics object) : Int)) := by
  refine ⟨updateEntityOffsets_stacked m x y hc.distinct, ?_, ?_, ?_, ?_, ?_, ?_⟩
  · intro warp m' h
    exact (entity_setter_stacked hc x y 11 _ m.items m.npcs _ h).1
  · intro sign m' h
    exact (entity_setter_stacked hc x y 12 _ m.items m.npcs _ h).1
  · intro items m' h
    exact (entity_setter_stacked hc x y 13 m.emf _ m.npcs _ h).1
  · intro npcs m' h
    exact (entity_setter_stacked hc x y 14 m.emf m.items _ _ h).1
  · intro ce mod m' h
    exact setTileGraphic_object_stacked hc x y ce mod h
  · intro m' hst object warp sign ho hw hs
    have h11 := hst 11 (by omega) (by omega) warp hw
    have h12 := hst 12 (by omega) (by omega) sign hs
    have hb : m'.entityBase x y = min (-10) (10 - (m'.height (m'.graphics object) : Int)) := by
      simp only [EOMap.entityBase, ho]
    have k11 : m'.entitiesBelow x y 11 = 0 := by simp [EOMap.entitiesBelow]
    have k12 : m'.entitiesBelow x y 12 = 1 := by
      simp [EOMap.entitiesBelow, List.range', hw]
    rw [k11] at h11
    rw [k12] at h12
    rw [hb] at h11 h12
    have hmin1 := min_le_left (-10 : Int) (10 - (m'.height (m'.graphics object) : Int))
    have hmin2 := min_le_right (-10 : Int) (10 - (m'.height (m'.graphics object) : Int))
    refine ⟨by rw [h11, h12]; push_cast; ring, by rw [h11]; push_cast; linarith,
      by rw [h11]; push_cast; linarith⟩

/-! ## Every reachable state is consistent -/

/-- A property that every round of a loop keeps holds when the loop returns. -/
theorem foldlM_keeps {σ α ε : Type} (P : σ → Prop) (f : σ → α → Except ε σ)
    (hf : ∀ s a s', P s → f s a = .ok s' → P s') :
    ∀ (l : List α) (s s' : σ), P s → l.foldlM f s = .ok s' → P s' := by
  intro l
  induction l with
  | nil =>
    intro s s' hs h
    simp only [List.foldlM_nil, pure, Except.pure] at h
    cases h
    exact hs
  | cons a rest ih =>
    intro s s' hs h
    rw [List.foldlM_cons] at h
    cases hfa : f s a with
    | error e =>
      rw [hfa] at h
      cases h
    | ok s1 =>
      rw [hfa] at h
      exact ih s1 s' (hf s a s1 hs hfa) h

theorem setGraphic_keeps_consistent {m m' : EOMap} (hc : m.Consistent) (x y : Nat)
    (gfx : Option Nat) (layer : Nat) (mod : Option Bool)
    (h : m.setGraphic x y gfx layer mod = .ok m') : m'.Consistent := by
  by_cases hg : gfx = some 0 ∧ layer ≠ 0
  · obtain ⟨rfl, hl⟩ := hg
    rw [setGraphic_zero_ignored m x y layer mod hl] at h
    cases h
    exact hc
  · cases gfx with
    | none =>
      obtain ⟨m2, h2, c2, _⟩ := setGraphic_clear hc x y layer none mod (Or.inl rfl)
      rw [h2] at h
      cases h
      exact c2
    | some id =>
      by_cases hid : id = 0
      · subst hid
        have hl : layer = 0 := by
          by_contra hl
          exact hg ⟨rfl, hl⟩
        obtain ⟨m2, h2, c2, _⟩ := setGraphic_clear hc x y layer (some 0) mod (Or.inr ⟨rfl, hl⟩)
        rw [h2] at h
        cases h
        exact c2
      · cases he : m.textureCache.getResource (layerFiles.getD layer 0) (id + 100) with
        | none =>
          obtain ⟨k, rfl⟩ : ∃ k, id = k + 1 := ⟨id - 1, by omega⟩
          simp only [EOMap.setGraphic, he] at h
          simp at h
        | some e =>
          obtain ⟨m2, h2, c2, _⟩ := setGraphic_available hc x y id layer e mod hid he
          rw [h2] at h
          cases h
          exact c2

theorem setSpec_keeps_consistent {m m' : EOMap} (hc : m.Consistent) (x y : Nat)
    (tileSpec : Option Nat) (mod : Option Bool)
    (h : m.setSpec x y tileSpec mod = .ok m') : m'.Consistent := by
  cases hce : tileSpec.bind m.textureCache.getSpec with
  | some e =>
    obtain ⟨m2, h2, c2, _⟩ := setSpec_consistent hc x y tileSpec mod (some e) hce.symm
      (fun _ => rfl)
    rw [h2] at h
    cases h
    exact c2
  | none =>
    cases tileSpec with
    | none =>
      obtain ⟨m2, h2, c2, _⟩ := setSpec_consistent hc x y none mod none rfl (fun h => by simp at h)
      rw [h2] at h
      cases h
      exact c2
    | some s =>
      have hs : m.textureCache.getSpec s = none := by simpa using hce
      simp only [EOMap.setSpec, hs, pure, Except.pure] at h
      cases h
      exact Consistent_emf hc _

theorem draw_keeps_consistent {m m' : EOMap} (hc : m.Consistent) (x y : Nat)
    (drawID : Option Nat) (layer : Int) (mod : Option Bool)
    (h : m.draw x y drawID layer mod = .ok m') : m'.Consistent := by
  unfold EOMap.draw at h
  split at h
  · exact setGraphic_keeps_consistent hc x y drawID _ mod h
  · split at h
    · exact setSpec_keeps_consistent hc x y drawID mod h
    · cases h

theorem initTile_keeps_consistent {m m' : EOMap} (hc : m.Consistent) (x y : Nat)
    (h : m.initTile x y = .ok m') : m'.Consistent := by
  unfold EOMap.initTile at h
  simp only [bind, Except.bind] at h
  split at h
  · cases h
  · rename_i m1 h1
    have c1 : m1.Consistent := foldlM_keeps EOMap.Consistent _
      (fun s a s' hs hf => setGraphic_keeps_consistent hs x y _ a none hf) _ _ _ hc h1
    split at h
    · cases h
    · rename_i m2 h2
      have c2 := setSpec_keeps_consistent c1 x y _ none h2
      split at h
      · cases h
      · rename_i m3 h3
        have c3 := (entity_setter_stacked c2 x y 11 _ m2.items m2.npcs _ h3).2
        split at h
        · cases h
        · rename_i m4 h4
          have c4 := (entity_setter_stacked c3 x y 12 _ m3.items m3.npcs _ h4).2
          split at h
          · cases h
          · rename_i m5 h5
            have c5 := (entity_setter_stacked c4 x y 13 m4.emf _ m4.npcs _ h5).2
            exact (entity_setter_stacked c5 x y 14 m5.emf m5.items _ _ h).2

/-- Every reachable state is consistent: the slots hold graphics that exist, different
slots hold different graphics, and the reference counts cover the slots. -/
theorem reachable_consistent {m : EOMap} (h : Reachable m) : m.Consistent := by
  induction h with
  | new h =>
    exact foldlM_keeps EOMap.Consistent _
      (fun s a s' hs hf => initTile_keeps_consistent hs a.1 a.2 hf) _ _ _
      (init_consistent _ _ _ _) h
  | draw _ h ih => exact draw_keeps_consistent ih _ _ _ _ _ h
  | setWarp _ h ih => exact (entity_setter_stacked ih _ _ 11 _ _ _ _ h).2
  | setSign _ h ih => exact (entity_setter_stacked ih _ _ 12 _ _ _ _ h).2
  | setItems _ h ih => exact (entity_setter_stacked ih _ _ 13 _ _ _ _ h).2
  | setNPCs _ h ih => exact (entity_setter_stacked ih _ _ 14 _ _ _ _ h).2

/-! ## Running the examples -/

theorem checkOk_elim {σ α : Type} {r : Throws σ α} {check : α → Bool}
    (h : checkOk r check = true) : ∃ a, r = .ok a ∧ check a = true := by
  cases r with
  | error e => simp [checkOk] at h
  | ok a => exact ⟨a, rfl, h⟩

theorem checkThrown_elim {σ α : Type} {r : Throws σ α} {message : String}
    (h : checkThrown r message = true) : ∃ s, r = .error (message, s) := by
  cases r with
  | error e =>
    obtain ⟨msg, s⟩ := e
    simp [checkThrown] at h
    exact ⟨s, by rw [h]⟩
  | ok a => simp [checkThrown] at h

theorem bind_ok {ε α β : Type} {x : Except ε α} {f : α → Except ε β} {b : β}
    (h : (x >>= f) = .ok b) : ∃ a, x = .ok a ∧ f a = .ok b := by
  cases x with
  | error e => cases h
  | ok a => exact ⟨a, rfl, h⟩

/-- C10: on the 4 by 4 map with ground graphic 1 at (0, 0) and (1, 1), every layer visible
and the camera on the whole map, construction, cull and rebuildRenderList return; the
render list then holds exactly two graphics, the one of tile (0, 0) before the one of tile
(1, 1), their depth keys are calcDepth(0,0,0) and calcDepth(1,1,0), and the first key is
the smaller one. -/
theorem C10_end_to_end_scenario :
    ∃ m0 m, EOMap.new sampleCache (sampleEntries 32) scenarioEmf (fun _ => true) = .ok m0 ∧
      (m0.cull ⟨-128, 0, 256, 128⟩).rebuildRenderList = .ok m ∧
      m.tileGraphics (m.getTileGraphicIndex 0 0 0) = some 0 ∧
      m.tileGraphics (m.getTileGraphicIndex 1 1 0) = some 1 ∧
      m.renderList = [0, 1] ∧
      (m.graphics 0).depth = EOMap.calcDepth 0 0 0 ∧
      (m.graphics 1).depth = EOMap.calcDepth 1 1 0 ∧
      EOMap.calcDepth 0 0 0 < EOMap.calcDepth 1 1 0 := by
  have h : checkOk
      (do let m0 ← EOMap.new sampleCache (sampleEntries 32) scenarioEmf (fun _ => true)
          (m0.cull ⟨-128, 0, 256, 128⟩).rebuildRenderList)
      (fun m => decide (m.tileGraphics (m.getTileGraphicIndex 0 0 0) = some 0 ∧
        m.tileGraphics (m.getTileGraphicIndex 1 1 0) = some 1 ∧
        m.renderList = [0, 1] ∧
        (m.graphics 0).depth = EOMap.calcDepth 0 0 0 ∧
        (m.graphics 1).depth = EOMap.calcDepth 1 1 0 ∧
        EOMap.calcDepth 0 0 0 < EOMap.calcDepth 1 1 0)) = true := by
    decide!
  obtain ⟨m, hrun, hm⟩ := checkOk_elim h
  obtain ⟨m0, h0, h1⟩ := bind_ok hrun
  exact ⟨m0, m, h0, h1, of_decide_eq_true hm⟩

/-! ## Stale section members -/

/-- C1 fails on the code: on an empty 8 by 9 map with entity sprites 42 pixels high, after
setWarp and setSign at tile (7, 7) and the removal of the sign, the state is reachable,
section 3 still holds the graphic index 957 of the sign, the slot 957 holds no TileGraphic,
and the next full rebuild of the render list throws on it. The sign was entered into the
sections of its first position (y = 214, down to 256); updateEntityOffsets moved it to
y = 186, and the removal looked for it in the sections of that position only. -/
theorem C1_stale_section_index :
    ∃ m, Reachable m ∧ 957 ∈ m.sections 3 ∧ m.tileGraphics 957 = none ∧
      m.getTileGraphicIndex 7 7 12 = 957 ∧
      ∃ s, ((m.cull ⟨-256, 0, 512, 288⟩).rebuildRenderList)
        = .error ("TypeError: cannot read properties of undefined", s) := by
  have h : checkOk
      (do let m0 ← EOMap.new sampleCache (sampleEntries 42) (emptyEmf 8 9) (fun _ => true)
          let m1 ← m0.setWarp 7 7 (some ⟨0⟩)
          let m2 ← m1.setSign 7 7 (some ⟨""⟩)
          m2.setSign 7 7 none)
      (fun m => decide (957 ∈ m.sections 3 ∧ m.tileGraphics 957 = none ∧
          m.getTileGraphicIndex 7 7 12 = 957) &&
        checkThrown ((m.cull ⟨-256, 0, 512, 288⟩).rebuildRenderList)
          "TypeError: cannot read properties of undefined") = true := by
    decide!
  obtain ⟨m, hrun, hm⟩ := checkOk_elim h
  obtain ⟨m0, h0, hrun⟩ := bind_ok hrun
  obtain ⟨m1, h1, hrun⟩ := bind_ok hrun
  obtain ⟨m2, h2, h3⟩ := bind_ok hrun
  rw [Bool.and_eq_true] at hm
  obtain ⟨hm1, hm2⟩ := hm
  obtain ⟨a, b, c⟩ := of_decide_eq_true hm1
  exact ⟨m, ((Reachable.new h0).setWarp h1 |>.setSign h2).setSign h3, a, b, c,
    checkThrown_elim hm2⟩

/-! ## The incremental update of the render list -/

theorem mem_binaryInsert {α : Type} (comparator : α → α → Rat) (l : List α) (v a : α) :
    a ∈ binaryInsert comparator l v ↔ a = v ∨ a ∈ l := by
  induction l with
  | nil => simp [binaryInsert]
  | cons b rest ih =>
    unfold binaryInsert
    split
    · simp only [List.mem_cons, ih]
      tauto
    · simp only [List.mem_cons]

/-- What createGraphic does to the render list when it is to modify it. -/
theorem createGraphic_renderList (m : EOMap) (x y layer e : Nat) :
    ∃ comparator : Nat → Nat → Rat, (m.createGraphic x y layer e true).renderList
      = binaryInsert comparator m.renderList m.nextGraphic := by
  unfold EOMap.createGraphic
  by_cases hl : layer = 1
  · simp only [hl, if_true, updateEntityOffsets_renderList]
    exact ⟨_, rfl⟩
  · simp only [hl, if_false, if_true]
    exact ⟨_, rfl⟩

/-- In every consistent state, replacing the graphic of a slot through setTileGraphic with
a cache entry and modifyRenderList enabled leaves the old graphic in the render list, next
to the new one. -/
theorem setTileGraphic_replace_keeps_old {m : EOMap} (hc : m.Consistent) (x y layer e old : Nat)
    (hslot : m.tileGraphics (m.getTileGraphicIndex x y layer) = some old)
    (hin : old ∈ m.renderList) :
    ∃ m', m.setTileGraphic x y layer (some e) (some true) = .ok m' ∧
      m'.tileGraphics (m.getTileGraphicIndex x y layer) = some m.nextGraphic ∧
      old ≠ m.nextGraphic ∧ old ∈ m'.renderList ∧ m.nextGraphic ∈ m'.renderList := by
  rw [setTileGraphic_full_slot m x y layer (some e) (some true) old hslot
    (hc.refCount_ne_zero hslot)]
  obtain ⟨cmp, hrl⟩ := createGraphic_renderList
    (m.dropGraphic (m.getTileGraphicIndex x y layer) old
      (released (m.entries (m.graphics old).cacheEntry))) x y layer e
  have hne : old ≠ m.nextGraphic := by
    have := hc.fresh _ _ hslot
    omega
  refine ⟨_, rfl, ?_, hne, ?_, ?_⟩
  · have := (createGraphic_frame (m.dropGraphic (m.getTileGraphicIndex x y layer) old
      (released (m.entries (m.graphics old).cacheEntry))) x y layer e true).1
    simp only [Option.getD_some]
    rw [this]
    exact Function.update_same _ _ _
  · simp only [Option.getD_some]
    rw [hrl, mem_binaryInsert]
    exact Or.inr hin
  · simp only [Option.getD_some]
    rw [hrl, mem_binaryInsert]
    exact Or.inl rfl

/-- C2 fails on the code: on the 4 by 4 map with ground graphics at (0, 0) and (1, 1), the
slot (0, 0, 0) holds the graphic 0, which is in the render list [0, 1]; setTileGraphic with
modifyRenderList enabled and another cache entry puts the new graphic 2 into the slot and
into the render list, and the old graphic 0 is still in the list. -/
theorem C2_replaced_graphic_stays_listed :
    ∃ m m', Reachable m ∧ m.tileGraphics (m.getTileGraphicIndex 0 0 0) = some 0 ∧
      m.renderList = [0, 1] ∧
      m.setTileGraphic 0 0 0 (some 1) (some true) = .ok m' ∧
      m'.tileGraphics (m.getTileGraphicIndex 0 0 0) = some 2 ∧
      m'.renderList = [0, 2, 1] := by
  have h : checkOk
      (EOMap.new sampleCache (sampleEntries 32) scenarioEmf (fun _ => true))
      (fun m => decide (m.tileGraphics (m.getTileGraphicIndex 0 0 0) = some 0 ∧
          m.renderList = [0, 1]) &&
        checkOk (m.setTileGraphic 0 0 0 (some 1) (some true)) (fun m' =>
          decide (m'.tileGraphics (m.getTileGraphicIndex 0 0 0) = some 2 ∧
            m'.renderList = [0, 2, 1]))) = true := by
    decide!
  obtain ⟨m, h0, hm⟩ := checkOk_elim h
  rw [Bool.and_eq_true] at hm
  obtain ⟨hm1, hm2⟩ := hm
  obtain ⟨a, b⟩ := of_decide_eq_true hm1
  obtain ⟨m', h1, hm'⟩ := checkOk_elim hm2
  obtain ⟨c, d⟩ := of_decide_eq_true hm'
  exact ⟨m, m', Reachable.new h0, a, b, h1, c, d⟩

/-! ## Witnesses -/

/-- C7 at work: after construction and cull on the 4 by 4 map with two ground graphics,
rebuildRenderList returns a sorted render list without repetition. -/
theorem C7_rebuildRenderList_witness :
    ∃ m0, EOMap.new sampleCache (sampleEntries 32) scenarioEmf (fun _ => true) = .ok m0 ∧
      ∃ (m' : EOMap), (m0.cull ⟨-128, 0, 256, 128⟩).rebuildRenderList = .ok m' ∧
        m'.renderList.Pairwise (fun a b => (m'.graphics a).depth ≤ (m'.graphics b).depth) ∧
        m'.dirtyRenderList = false := by
  have h : checkOk
      (EOMap.new sampleCache (sampleEntries 32) scenarioEmf (fun _ => true))
      (fun m0 => decide (∀ s ∈ (m0.cull ⟨-128, 0, 256, 128⟩).visibleSections,
        ∀ i ∈ (m0.cull ⟨-128, 0, 256, 128⟩).sections s,
          ((m0.cull ⟨-128, 0, 256, 128⟩).tileGraphics i).isSome)) = true := by
    decide!
  obtain ⟨m0, h0, hlive⟩ := checkOk_elim h
  obtain ⟨m', _, hrun, _, _, _, _, _, _, hsorted, hdirty⟩ :=
    C7_rebuildRenderList (m0.cull ⟨-128, 0, 256, 128⟩) (of_decide_eq_true hlive)
  exact ⟨m0, h0, m', hrun, hsorted, hdirty⟩

/-- C8 at work: on the empty 4 by 4 map, after an object, a warp and a sign are set at
tile (1, 2), the entity graphics of the tile are stacked. -/
theorem C8_entity_stacking_witness :
    ∃ m1 m2 m3,
      (EOMap.init sampleCache (sampleEntries 32) (emptyEmf 4 4) (fun _ => true)).setTileGraphic
        1 2 1 (some 2) none = .ok m1 ∧
      m1.setWarp 1 2 (some ⟨0⟩) = .ok m2 ∧
      m2.setSign 1 2 (some ⟨""⟩) = .ok m3 ∧
      m3.EntityStacked 1 2 := by
  obtain ⟨m1, h1, c1, _⟩ := setTileGraphic_consistent
    (init_consistent sampleCache (sampleEntries 32) (emptyEmf 4 4) (fun _ => true))
    1 2 1 (some 2) none
  have hset : ∀ (m : EOMap) (hc : m.Consistent) (emf : Emf) (layer : Nat) (ce : Option Nat),
      ∃ m', (do let m1 ← ({ m with emf := emf } : EOMap).setTileGraphic 1 2 layer ce none
                pure (m1.updateEntityOffsets 1 2) : Throws EOMap EOMap) = .ok m' := by
    intro m hc emf layer ce
    obtain ⟨m', h', _⟩ := setTileGraphic_consistent (Consistent_emf hc emf) 1 2 layer ce none
    exact ⟨_, by rw [h']; rfl⟩
  obtain ⟨m2, h2⟩ := hset m1 c1 _ 11 _
  have c2 := (entity_setter_stacked c1 1 2 11 _ m1.items m1.npcs _ h2).2
  obtain ⟨m3, h3⟩ := hset m2 c2 _ 12 _
  exact ⟨m1, m2, m3, h1, h2, h3, (C8_entity_stacking m2 c2 1 2).2.2.1 _ m3 h3⟩

/-- C9 at work: on a 16 by 16 map (4 by 2 sections) with the viewport
[-100, 200] x [50, 250], the section of the grid cell (2, 0) is visible and the visible
sections are in ascending order. -/
theorem C9_cull_keeps_overlapping_cells_witness :
    (EOMap.init sampleCache (sampleEntries 32) (emptyEmf 16 16) (fun _ => true)).getSection 2 0
      ∈ ((EOMap.init sampleCache (sampleEntries 32) (emptyEmf 16 16) (fun _ => true)).cull
          ⟨-100, 50, 300, 200⟩).visibleSections ∧
    ((EOMap.init sampleCache (sampleEntries 32) (emptyEmf 16 16) (fun _ => true)).cull
      ⟨-100, 50, 300, 200⟩).visibleSections.Pairwise (· < ·) := by
  have h := C9_cull_keeps_overlapping_cells
    (EOMap.init sampleCache (sampleEntries 32) (emptyEmf 16 16) (fun _ => true))
    ⟨-100, 50, 300, 200⟩ (by decide!) (by decide!) (by decide!) (by decide!) (by decide!)
    (by decide!)
  exact ⟨(h.1 2 0 (by decide) (by decide)).2 (by decide!), h.2.2⟩

/-! ## Eviction -/

theorem checkAdded_elim {P : Type}
    {r : Option (Throws (TextureCache P) (TextureCache P × Option Nat))}
    {check : TextureCache P → Nat → Bool} (h : checkAdded r check = true) :
    ∃ c asset, r = some (.ok (c, some asset)) ∧ check c asset = true := by
  unfold checkAdded at h
  split at h
  · rename_i c asset
    exact ⟨c, asset, rfl, h⟩
  · cases h

/-- Whatever the packer is, the eviction sweep gives no page anything back: the packers of
the pages are what they were. -/
theorem evict_pages {P : Type} (c : TextureCache P) :
    (EvictingTextureCache.evict c).pages = c.pages := by
  have key : ∀ (l : List ((Nat × Nat) × Nat)) (c : TextureCache P),
      (l.foldl (fun c kv =>
        if (c.entries kv.2).refCount = 0 then EvictingTextureCache.evictAsset c kv.1 else c) c).pages
        = c.pages := by
    intro l
    induction l with
    | nil => intro c; rfl
    | cons kv rest ih =>
      intro c
      rw [List.foldl_cons, ih]
      split <;> rfl
  exact key _ _

/-- C3 fails on the code: a 64 by 64 resource fills the one page of an evicting cache with
64 by 64 pages and is not in use; the request of a second such resource, which no page can
pack and a blank page can, evicts the first entry from the asset map, but the packer of
page 0 keeps its bin, and the request is placed on a new page 1: there are two pages. -/
theorem C3_eviction_frees_no_rectangle :
    ∃ c1 a1 c2 a2,
      EvictingTextureCache.get shelfPacker 3 (TextureCache.new shelfPacker sampleInfo 64 64)
        3 101 = some (.ok (c1, some a1)) ∧
      c1.pages.length = 1 ∧
      (∀ kv ∈ c1.assets, (c1.entries kv.2).refCount = 0) ∧
      (∀ page ∈ c1.pages, (shelfPacker.packOne page 64 64).1 = none) ∧
      (shelfPacker.packOne (shelfPacker.create 64 64) 64 64).1.isSome = true ∧
      EvictingTextureCache.get shelfPacker 3 c1 3 102 = some (.ok (c2, some a2)) ∧
      c2.assets = [((3, 102), a2)] ∧
      c2.pages.length = 2 ∧
      (c2.entries a2).page = 1 ∧
      c2.pages.map (fun page => page.bins.length) = [1, 1] := by
  have h : checkAdded
      (EvictingTextureCache.get shelfPacker 3 (TextureCache.new shelfPacker sampleInfo 64 64)
        3 101)
      (fun c1 _ => decide (c1.pages.length = 1 ∧
          (∀ kv ∈ c1.assets, (c1.entries kv.2).refCount = 0) ∧
          (∀ page ∈ c1.pages, (shelfPacker.packOne page 64 64).1 = none) ∧
          (shelfPacker.packOne (shelfPacker.create 64 64) 64 64).1.isSome = true) &&
        checkAdded (EvictingTextureCache.get shelfPacker 3 c1 3 102) (fun c2 a2 =>
          decide (c2.assets = [((3, 102), a2)] ∧ c2.pages.length = 2 ∧
            (c2.entries a2).page = 1 ∧
            c2.pages.map (fun page => page.bins.length) = [1, 1]))) = true := by
    decide!
  obtain ⟨c1, a1, h1, hc1⟩ := checkAdded_elim h
  rw [Bool.and_eq_true] at hc1
  obtain ⟨hc1, hc2⟩ := hc1
  obtain ⟨p1, p2, p3, p4⟩ := of_decide_eq_true hc1
  obtain ⟨c2, a2, h2, hc2⟩ := checkAdded_elim hc2
  obtain ⟨q1, q2, q3, q4⟩ := of_decide_eq_true hc2
  exact ⟨c1, a1, c2, a2, h1, p1, p2, p3, p4, h2, q1, q2, q3, q4⟩

/-! ## Reference counts of a cache entry -/

/-- C11: decRef throws exactly when the count is 0 at the call, with the fatal message and
the entry as it was; otherwise it returns the entry with the count exactly one lower and
nothing else changed; and incRef followed by decRef returns the entry it started from. -/
theorem C11_refcount_lifecycle (e : TextureCacheEntry) :
    ((∃ thrown, e.decRef = .error thrown) ↔ e.refCount = 0) ∧
    (e.refCount = 0 → e.decRef = .error ("Negative asset entry refCount", e)) ∧
    (e.refCount ≠ 0 → ∃ e', e.decRef = .ok e' ∧ e'.refCount + 1 = e.refCount ∧
      e'.data = e.data ∧ e'.page = e.page ∧ e'.bin = e.bin) ∧
    e.incRef.refCount = e.refCount + 1 ∧
    e.incRef.decRef = .ok e := by
  refine ⟨?_, ?_, ?_, rfl, ?_⟩
  · constructor
    · rintro ⟨thrown, h⟩
      by_contra h0
      simp [TextureCacheEntry.decRef, h0] at h
    · intro h0
      exact ⟨("Negative asset entry refCount", e), by simp [TextureCacheEntry.decRef, h0]⟩
  · intro h0
    simp [TextureCacheEntry.decRef, h0]
  · intro h0
    refine ⟨{ e with refCount := e.refCount - 1 }, by simp [TextureCacheEntry.decRef, h0],
      ?_, rfl, rfl, rfl⟩
    show e.refCount - 1 + 1 = e.refCount
    omega
  · simp [TextureCacheEntry.decRef, TextureCacheEntry.incRef]

/-- C11 at work: an entry that is not in use throws on decRef and stays as it is; an entry
with two users goes down to one. -/
theorem C11_refcount_lifecycle_witness :
    (⟨⟨3, 101, 64, 32⟩, 0, ⟨1, 0, 0, 64, 32⟩, 0⟩ : TextureCacheEntry).decRef
      = .error ("Negative asset entry refCount", ⟨⟨3, 101, 64, 32⟩, 0, ⟨1, 0, 0, 64, 32⟩, 0⟩) ∧
    ∃ e', (⟨⟨3, 101, 64, 32⟩, 0, ⟨1, 0, 0, 64, 32⟩, 2⟩ : TextureCacheEntry).decRef = .ok e' ∧
      e'.refCount + 1 = 2 := by
  obtain ⟨e', h1, h2, _⟩ :=
    (C11_refcount_lifecycle ⟨⟨3, 101, 64, 32⟩, 0, ⟨1, 0, 0, 64, 32⟩, 2⟩).2.2.1 (by decide)
  exact ⟨(C11_refcount_lifecycle ⟨⟨3, 101, 64, 32⟩, 0, ⟨1, 0, 0, 64, 32⟩, 0⟩).2.1 rfl,
    e', h1, h2⟩

/-! ## Messages of the throws -/

theorem invalid_layer_ne_negative (s : String) :
    "Invalid draw layer: " ++ s ≠ "Negative asset entry refCount" := by
  intro h
  have := congrArg String.data h
  simp at this

theorem invalid_layer_ne_reference (s : String) :
    "Invalid draw layer: " ++ s ≠ "ReferenceError: file is not defined" := by
  intro h
  have := congrArg String.data h
  simp at this

/-- The only throw of setTileGraphic is the one of decRef. -/
theorem setTileGraphic_error {m : EOMap} {x y layer : Nat} {ce : Option Nat}
    {mod : Option Bool} {thrown : String × EOMap}
    (h : m.setTileGraphic x y layer ce mod = .error thrown) :
    thrown.1 = "Negative asset entry refCount" := by
  cases hslot : m.tileGraphics (m.getTileGraphicIndex x y layer) with
  | none =>
    rw [setTileGraphic_empty_slot m x y layer ce mod hslot] at h
    cases h
  | some old =>
    by_cases hrc : (m.entries (m.graphics old).cacheEntry).refCount = 0
    · unfold EOMap.setTileGraphic at h
      simp only [hslot, removeOldGraphic_throws m _ old hrc] at h
      cases h
      rfl
    · rw [setTileGraphic_full_slot m x y layer ce mod old hslot hrc] at h
      cases h

/-- The throws of setGraphic are the one of decRef and the ReferenceError. -/
theorem setGraphic_error {m : EOMap} {x y layer : Nat} {gfx : Option Nat}
    {mod : Option Bool} {thrown : String × EOMap}
    (h : m.setGraphic x y gfx layer mod = .error thrown) :
    thrown.1 = "Negative asset entry refCount" ∨
      thrown.1 = "ReferenceError: file is not defined" := by
  unfold EOMap.setGraphic at h
  split at h
  · cases h
  · split at h
    · exact Or.inl (setTileGraphic_error h)
    · exact Or.inl (setTileGraphic_error h)
    · dsimp only at h
      split at h
      · cases h
        exact Or.inr rfl
      · exact Or.inl (setTileGraphic_error h)

/-- The only throw of setSpec is the one of decRef. -/
theorem setSpec_error {m : EOMap} {x y : Nat} {tileSpec : Option Nat}
    {mod : Option Bool} {thrown : String × EOMap}
    (h : m.setSpec x y tileSpec mod = .error thrown) :
    thrown.1 = "Negative asset entry refCount" := by
  have two : ∀ (m0 : EOMap) (ce : Option Nat),
      (m0.setTileGraphic x y 9 ce mod >>= fun m1 => m1.setTileGraphic x y 10 ce mod)
        = .error thrown → thrown.1 = "Negative asset entry refCount" := by
    intro m0 ce h
    cases h1 : m0.setTileGraphic x y 9 ce mod with
    | error t =>
      rw [h1] at h
      cases h
      exact setTileGraphic_error h1
    | ok m1 =>
      rw [h1] at h
      exact setTileGraphic_error h
  unfold EOMap.setSpec at h
  dsimp only at h
  split at h
  · exact two _ _ h
  · split at h
    · cases h
    · exact two _ _ h

/-! ## Invalid draw layers -/

/-- C12: draw and getDrawID throw the error `Invalid draw layer` exactly when the layer is
not one of 0..9, hence for every layer outside 0..14; and when draw throws it, the state of
the map at the throw is the state at the call. -/
theorem C12_invalid_draw_layer (m : EOMap) (x y : Nat) (drawID : Option Nat) (layer : Int)
    (mod : Option Bool) :
    ((∃ s, m.draw x y drawID layer mod
        = .error ("Invalid draw layer: " ++ toString layer, s)) ↔ ¬ (0 ≤ layer ∧ layer ≤ 9)) ∧
    (m.getDrawID x y layer = .error ("Invalid draw layer: " ++ toString layer)
      ↔ ¬ (0 ≤ layer ∧ layer ≤ 9)) ∧
    (¬ (0 ≤ layer ∧ layer ≤ 9) →
      m.draw x y drawID layer mod = .error ("Invalid draw layer: " ++ toString layer, m)) ∧
    (layer < 0 ∨ 14 < layer →
      m.draw x y drawID layer mod = .error ("Invalid draw layer: " ++ toString layer, m) ∧
      m.getDrawID x y layer = .error ("Invalid draw layer: " ++ toString layer)) := by
  have hdraw : ¬ (0 ≤ layer ∧ layer ≤ 9) →
      m.draw x y drawID layer mod = .error ("Invalid draw layer: " ++ toString layer, m) := by
    intro h
    have h8 : ¬ (0 ≤ layer ∧ layer ≤ 8) := fun h' => h ⟨h'.1, by omega⟩
    have h9 : ¬ layer = 9 := fun h' => h ⟨by omega, by omega⟩
    simp only [EOMap.draw, h8, h9, if_false]
  have hget : ¬ (0 ≤ layer ∧ layer ≤ 9) →
      m.getDrawID x y layer = .error ("Invalid draw layer: " ++ toString layer) := by
    intro h
    have h8 : ¬ (0 ≤ layer ∧ layer ≤ 8) := fun h' => h ⟨h'.1, by omega⟩
    have h9 : ¬ layer = 9 := fun h' => h ⟨by omega, by omega⟩
    simp only [EOMap.getDrawID, h8, h9, if_false]
  refine ⟨⟨?_, fun h => ⟨m, hdraw h⟩⟩, ⟨?_, hget⟩, hdraw, ?_⟩
  · rintro ⟨s, h⟩ hin
    unfold EOMap.draw at h
    split at h
    · rcases setGraphic_error h with e | e
      · exact invalid_layer_ne_negative _ e
      · exact invalid_layer_ne_reference _ e
    · split at h
      · exact invalid_layer_ne_negative _ (setSpec_error h)
      · rename_i h8 h9
        rcases hin with ⟨h0, h9'⟩
        by_cases heq : layer = 9
        · exact h9 heq
        · exact h8 ⟨h0, by omega⟩
  · intro h hin
    unfold EOMap.getDrawID at h
    split at h
    · cases h
    · split at h
      · cases h
      · rename_i h8 h9
        rcases hin with ⟨h0, h9'⟩
        by_cases heq : layer = 9
        · exact h9 heq
        · exact h8 ⟨h0, by omega⟩
  · intro h
    have hout : ¬ (0 ≤ layer ∧ layer ≤ 9) := by
      rintro ⟨h0, h9⟩
      omega
    exact ⟨hdraw hout, hget hout⟩

/-- C12 at work: draw on layer 12 of the empty 4 by 4 map throws and leaves the map as it
is. -/
theorem C12_invalid_draw_layer_witness :
    (EOMap.init sampleCache (sampleEntries 32) (emptyEmf 4 4) (fun _ => true)).draw 1 2
      (some 1) 12 none
      = .error ("Invalid draw layer: " ++ toString (12 : Int),
          EOMap.init sampleCache (sampleEntries 32) (emptyEmf 4 4) (fun _ => true)) :=
  (C12_invalid_draw_layer (EOMap.init sampleCache (sampleEntries 32) (emptyEmf 4 4) (fun _ => true))
    1 2 (some 1) 12 none).2.2.1 (by decide)
/-! ## Draw requests without cache entry -/

theorem checkError_elim {σ α : Type} {r : Throws σ α} {check : String → σ → Bool}
    (h : checkError r check = true) :
    ∃ message s, r = .error (message, s) ∧ check message s = true := by
  cases r with
  | error e => exact ⟨e.1, e.2, rfl, h⟩
  | ok a => simp [checkError] at h

/-- C13, as stated, fails. On the 4 by 4 map with a ground graphic at (0, 0), draw with the
ground graphic 5, which has no cache entry, throws, and the slot still holds its graphic.
On the empty 4 by 4 map with one tile spec sprite only, after a tile spec with sprite is
drawn at (0, 0), draw with the tile spec 7, which has no cache entry, returns, and the slot
still holds the graphic of the first tile spec. -/
theorem C13_missing_resource_not_blank :
    (∃ m s, EOMap.new sampleCache (sampleEntries 32) scenarioEmf (fun _ => true) = .ok m ∧
      m.textureCache.getResource 3 105 = none ∧
      m.draw 0 0 (some 5) 0 none = .error ("ReferenceError: file is not defined", s) ∧
      s.tileGraphics (s.getTileGraphicIndex 0 0 0) = some 0) ∧
    (∃ m1 m2,
      (EOMap.init sparseCache (sampleEntries 32) (emptyEmf 4 4) (fun _ => true)).draw 0 0
        (some 0) 9 none = .ok m1 ∧
      m1.tileGraphics (m1.getTileGraphicIndex 0 0 9) = some 0 ∧
      m1.textureCache.getSpec 7 = none ∧
      m1.draw 0 0 (some 7) 9 none = .ok m2 ∧
      m2.tileGraphics (m2.getTileGraphicIndex 0 0 9) = some 0) := by
  constructor
  · have h : checkOk (EOMap.new sampleCache (sampleEntries 32) scenarioEmf (fun _ => true))
        (fun m => decide (m.textureCache.getResource 3 105 = none) &&
          checkError (m.draw 0 0 (some 5) 0 none) (fun message s =>
            decide (message = "ReferenceError: file is not defined" ∧
              s.tileGraphics (s.getTileGraphicIndex 0 0 0) = some 0))) = true := by
      decide!
    obtain ⟨m, h0, hm⟩ := checkOk_elim h
    rw [Bool.and_eq_true] at hm
    obtain ⟨message, s, h1, hs⟩ := checkError_elim hm.2
    obtain ⟨rfl, h2⟩ := of_decide_eq_true hs
    exact ⟨m, s, h0, of_decide_eq_true hm.1, h1, h2⟩
  · have h : checkOk
        ((EOMap.init sparseCache (sampleEntries 32) (emptyEmf 4 4) (fun _ => true)).draw 0 0
          (some 0) 9 none)
        (fun m1 => decide (m1.tileGraphics (m1.getTileGraphicIndex 0 0 9) = some 0 ∧
            m1.textureCache.getSpec 7 = none) &&
          checkOk (m1.draw 0 0 (some 7) 9 none) (fun m2 =>
            decide (m2.tileGraphics (m2.getTileGraphicIndex 0 0 9) = some 0))) = true := by
      decide!
    obtain ⟨m1, h1, hm⟩ := checkOk_elim h
    rw [Bool.and_eq_true] at hm
    obtain ⟨a, b⟩ := of_decide_eq_true hm.1
    obtain ⟨m2, h2, c⟩ := checkOk_elim hm.2
    exact ⟨m1, m2, h1, a, b, h2, of_decide_eq_true c⟩

/-- C13, amended: a draw request with an id for which the texture cache has no entry only
writes the map data: the state the call ends in has the slots, the graphics, the cache
entries with their reference counts, the sections and the render list of the state at the
call, so the slot holds afterwards what it held before. On layer 9 the call returns. -/
theorem C13_missing_resource_keeps_graphics (m : EOMap) (x y : Nat) (mod : Option Bool) :
    (∀ layer id, layer ≤ 8 → id ≠ 0 →
      m.textureCache.getResource (layerFiles.getD layer 0) (id + 100) = none →
      ∃ m', (m.draw x y (some id) (layer : Int) mod = .ok m' ∨
          ∃ message, m.draw x y (some id) (layer : Int) mod = .error (message, m')) ∧
        m'.SameGraphics m ∧
        m'.emf = m.emf.modifyTile x y fun tile =>
          { tile with gfx := Function.update tile.gfx layer (some id) }) ∧
    (∀ tileSpec, m.textureCache.getSpec tileSpec = none →
      ∃ m', m.draw x y (some tileSpec) 9 mod = .ok m' ∧ m'.SameGraphics m ∧
        m'.emf = m.emf.modifyTile x y fun tile => { tile with spec := some tileSpec }) := by
  constructor
  · intro layer id hl hid he
    obtain ⟨k, rfl⟩ : ∃ k, id = k + 1 := ⟨id - 1, by omega⟩
    refine ⟨{ m with emf := m.emf.modifyTile x y fun tile =>
      { tile with gfx := Function.update tile.gfx layer (some (k + 1)) } }, Or.inr
        ⟨"ReferenceError: file is not defined", ?_⟩, ⟨rfl, rfl, rfl, rfl, rfl, rfl⟩, rfl⟩
    rw [draw_graphic_layer m x y _ layer mod hl]
    simp only [EOMap.setGraphic, he]
    simp
  · intro tileSpec he
    refine ⟨{ m with emf := m.emf.modifyTile x y fun tile => { tile with spec := some tileSpec } },
      ?_, ⟨rfl, rfl, rfl, rfl, rfl, rfl⟩, rfl⟩
    rw [draw_spec_layer]
    simp only [EOMap.setSpec, he]
    rfl

/-- C13, amended, at work on the construction of the 4 by 4 map with one tile spec sprite
only: draw with the tile spec 7 at (1, 2) returns and leaves the slots as they are. -/
theorem C13_missing_resource_keeps_graphics_witness :
    ∃ m', (EOMap.init sparseCache (sampleEntries 32) (emptyEmf 4 4) (fun _ => true)).draw 1 2
        (some 7) 9 none = .ok m' ∧
      m'.SameGraphics (EOMap.init sparseCache (sampleEntries 32) (emptyEmf 4 4) (fun _ => true)) := by
  obtain ⟨m', h1, h2, _⟩ := (C13_missing_resource_keeps_graphics
    (EOMap.init sparseCache (sampleEntries 32) (emptyEmf 4 4) (fun _ => true)) 1 2 none).2 7 rfl
  exact ⟨m', h1, h2⟩
/-! ## The dirty flag and the range of cull -/

/-- The list of visible sections cull computes depends on the camera through the test
`isVisible` on the cells of the grid only. -/
theorem cull_visibleSections_congr (m : EOMap) (first second : Camera)
    (h : ∀ x y, x < m.sectionWidth → y < m.sectionHeight →
      m.isVisible second x y = m.isVisible first x y) :
    (m.cull second).visibleSections = (m.cull first).visibleSections := by
  simp only [EOMap.cull]
  refine List.flatMap_congr ?_
  intro y hy
  refine List.filterMap_congr ?_
  intro x hx
  rw [h x y (List.mem_range.1 hx) (List.mem_range.1 hy)]

/-- C17: a cull call that finds the visible sections the call before it left does not touch
dirtyRenderList, in particular when its camera passes the visibility test on the same grid
cells as the camera of the call before; and no cull call takes dirtyRenderList from true to
false. -/
theorem C17_cull_dirty_only_on_change (m : EOMap) (first second : Camera) :
    (((m.cull first).cull second).visibleSections = (m.cull first).visibleSections →
      ((m.cull first).cull second).dirtyRenderList = (m.cull first).dirtyRenderList) ∧
    ((∀ x y, x < m.sectionWidth → y < m.sectionHeight →
        m.isVisible second x y = m.isVisible first x y) →
      ((m.cull first).cull second).dirtyRenderList = (m.cull first).dirtyRenderList) ∧
    (m.dirtyRenderList = true → (m.cull first).dirtyRenderList = true) := by
  have key : ∀ (m0 : EOMap) (camera : Camera),
      (m0.cull camera).visibleSections = m0.visibleSections →
      (m0.cull camera).dirtyRenderList = m0.dirtyRenderList := by
    intro m0 camera h
    have h' : arrayEquals m0.visibleSections (m0.cull camera).visibleSections = true := by
      rw [h]
      simp [arrayEquals]
    simp only [EOMap.cull] at h' ⊢
    rw [if_pos h']
  refine ⟨key _ _, ?_, ?_⟩
  · intro h
    refine key _ _ ?_
    exact cull_visibleSections_congr m first second h
  · intro h
    simp only [EOMap.cull, h]
    split <;> rfl

/-- C17 at work on a 16 by 16 map: the camera moves from (-100, 50) to (-90, 55) without
crossing a cell boundary, and the second cull leaves dirtyRenderList as the first left
it. -/
theorem C17_cull_dirty_only_on_change_witness :
    (((EOMap.init sampleCache (sampleEntries 32) (emptyEmf 16 16) (fun _ => true)).cull
        ⟨-100, 50, 300, 200⟩).cull ⟨-90, 55, 300, 200⟩).dirtyRenderList
      = ((EOMap.init sampleCache (sampleEntries 32) (emptyEmf 16 16) (fun _ => true)).cull
        ⟨-100, 50, 300, 200⟩).dirtyRenderList :=
  (C17_cull_dirty_only_on_change
    (EOMap.init sampleCache (sampleEntries 32) (emptyEmf 16 16) (fun _ => true))
    ⟨-100, 50, 300, 200⟩ ⟨-90, 55, 300, 200⟩).1 (by decide!)

/-- The clamping of one axis in cull: the range it leaves lies in the bounds and is not
inverted. -/
theorem clamp_axis (lo hi start size : Rat) (hb : lo ≤ hi) (hs : 0 ≤ size) :
    lo ≤ max lo (if start + size < lo then (lo - size, lo)
        else if start > hi then (hi, hi + size) else (start, start + size)).1 ∧
    max lo (if start + size < lo then (lo - size, lo)
        else if start > hi then (hi, hi + size) else (start, start + size)).1
      ≤ min hi (if start + size < lo then (lo - size, lo)
        else if start > hi then (hi, hi + size) else (start, start + size)).2 ∧
    min hi (if start + size < lo then (lo - size, lo)
        else if start > hi then (hi, hi + size) else (start, start + size)).2 ≤ hi := by
  refine ⟨le_max_left _ _, ?_, min_le_left _ _⟩
  split_ifs with h1 h2 <;> dsimp only <;>
    refine le_min (max_le ?_ ?_) (max_le ?_ ?_) <;> linarith

/-- The range of cull written with the clamping of the two axes. -/
theorem cullRange_eq (m : EOMap) (camera : Camera) :
    m.cullRange camera =
      (max 0 (if camera.scrollY + camera.height < 0 then (0 - camera.height, (0 : Rat))
          else if camera.scrollY > (m.emf.height : Rat) * 32
            then ((m.emf.height : Rat) * 32, (m.emf.height : Rat) * 32 + camera.height)
          else (camera.scrollY, camera.scrollY + camera.height)).1,
        min ((m.emf.height : Rat) * 32)
          (if camera.scrollY + camera.height < 0 then (0 - camera.height, (0 : Rat))
          else if camera.scrollY > (m.emf.height : Rat) * 32
            then ((m.emf.height : Rat) * 32, (m.emf.height : Rat) * 32 + camera.height)
          else (camera.scrollY, camera.scrollY + camera.height)).2,
        max (-((m.emf.width : Rat) * 32))
          (if camera.scrollX + camera.width < -((m.emf.width : Rat) * 32)
            then (-((m.emf.width : Rat) * 32) - camera.width, -((m.emf.width : Rat) * 32))
          else if camera.scrollX > (m.emf.width : Rat) * 32
            then ((m.emf.width : Rat) * 32, (m.emf.width : Rat) * 32 + camera.width)
          else (camera.scrollX, camera.scrollX + camera.width)).1,
        min ((m.emf.width : Rat) * 32)
          (if camera.scrollX + camera.width < -((m.emf.width : Rat) * 32)
            then (-((m.emf.width : Rat) * 32) - camera.width, -((m.emf.width : Rat) * 32))
          else if camera.scrollX > (m.emf.width : Rat) * 32
            then ((m.emf.width : Rat) * 32, (m.emf.width : Rat) * 32 + camera.width)
          else (camera.scrollX, camera.scrollX + camera.width)).2) := by
  simp only [EOMap.cullRange, zero_sub]

/-- A range inside the extent of an axis of the grid meets one of the cells of the axis. -/
theorem range_meets_cell (extent cells : Nat) (lo hi : Rat) (he : 1 ≤ extent)
    (hc : cells = (extent + 255) / 256) (h0 : 0 ≤ lo) (hlh : lo ≤ hi)
    (hle : lo ≤ (extent : Rat)) :
    ∃ c, c < cells ∧ (256 : Rat) * (c : Rat) ≤ hi ∧ lo ≤ 256 * ((c : Rat) + 1) := by
  have hcells : 1 ≤ cells := by omega
  have hcover : extent ≤ 256 * cells := by omega
  have hcover' : (extent : Rat) ≤ 256 * (cells : Rat) := by exact_mod_cast hcover
  by_cases hf : ⌊lo / 256⌋₊ < cells
  · refine ⟨⌊lo / 256⌋₊, hf, ?_, ?_⟩
    · have := Nat.floor_le (div_nonneg h0 (by norm_num : (0 : Rat) ≤ 256))
      linarith
    · have := Nat.lt_floor_add_one (lo / 256)
      linarith
  · have hge : cells ≤ ⌊lo / 256⌋₊ := by omega
    have h1 : ((cells : Nat) : Rat) ≤ lo / 256 :=
      le_trans (by exact_mod_cast hge) (Nat.floor_le (div_nonneg h0 (by norm_num)))
    refine ⟨cells - 1, by omega, ?_, ?_⟩
    · have : ((cells - 1 : Nat) : Rat) ≤ (cells : Rat) := by exact_mod_cast Nat.sub_le _ _
      linarith
    · have : ((cells - 1 : Nat) : Rat) + 1 = (cells : Rat) := by
        have : cells - 1 + 1 = cells := by omega
        exact_mod_cast this
      rw [this]
      linarith

/-- C20: on a map of width and height at least 1, whose section grid is the one the
constructor computes, with a camera of width and height at least 0, the range cull clamps
to satisfies 0 <= cullTop <= cullBottom <= 32 height and
-32 width <= cullLeft <= cullRight <= 32 width, and at least one section is visible after
cull. -/
theorem C20_cull_range_valid (m : EOMap) (camera : Camera)
    (hW : 1 ≤ m.emf.width) (hH : 1 ≤ m.emf.height)
    (hw : 0 ≤ camera.width) (hh : 0 ≤ camera.height)
    (hsw : m.sectionWidth = (m.emf.width * 64 + 255) / 256)
    (hsh : m.sectionHeight = (m.emf.height * 32 + 255) / 256) :
    0 ≤ (m.cullRange camera).1 ∧
    (m.cullRange camera).1 ≤ (m.cullRange camera).2.1 ∧
    (m.cullRange camera).2.1 ≤ 32 * (m.emf.height : Rat) ∧
    -(32 * (m.emf.width : Rat)) ≤ (m.cullRange camera).2.2.1 ∧
    (m.cullRange camera).2.2.1 ≤ (m.cullRange camera).2.2.2 ∧
    (m.cullRange camera).2.2.2 ≤ 32 * (m.emf.width : Rat) ∧
    (m.cull camera).visibleSections ≠ [] := by
  have hH0 : (0 : Rat) ≤ (m.emf.height : Rat) * 32 := by positivity
  have hW0 : -((m.emf.width : Rat) * 32) ≤ (m.emf.width : Rat) * 32 := by
    have : (0 : Rat) ≤ (m.emf.width : Rat) * 32 := by positivity
    linarith
  obtain ⟨v1, v2, v3⟩ := clamp_axis 0 ((m.emf.height : Rat) * 32) camera.scrollY camera.height
    hH0 hh
  obtain ⟨x1, x2, x3⟩ := clamp_axis (-((m.emf.width : Rat) * 32)) ((m.emf.width : Rat) * 32)
    camera.scrollX camera.width hW0 hw
  have hr := cullRange_eq m camera
  have r1 : 0 ≤ (m.cullRange camera).1 := by rw [hr]; exact v1
  have r2 : (m.cullRange camera).1 ≤ (m.cullRange camera).2.1 := by rw [hr]; exact v2
  have r3 : (m.cullRange camera).2.1 ≤ (m.emf.height : Rat) * 32 := by rw [hr]; exact v3
  have r4 : -((m.emf.width : Rat) * 32) ≤ (m.cullRange camera).2.2.1 := by rw [hr]; exact x1
  have r5 : (m.cullRange camera).2.2.1 ≤ (m.cullRange camera).2.2.2 := by rw [hr]; exact x2
  have r6 : (m.cullRange camera).2.2.2 ≤ (m.emf.width : Rat) * 32 := by rw [hr]; exact x3
  refine ⟨r1, r2, by linarith, by linarith, r5, by linarith, ?_⟩
  obtain ⟨sy, hsy, hy1, hy2⟩ := range_meets_cell (m.emf.height * 32) m.sectionHeight
    (m.cullRange camera).1 (m.cullRange camera).2.1 (by omega) hsh r1 r2
    (by push_cast; linarith)
  obtain ⟨sx, hsx, hx1, hx2⟩ := range_meets_cell (m.emf.width * 64) m.sectionWidth
    ((m.cullRange camera).2.2.1 + (m.emf.width : Rat) * 32)
    ((m.cullRange camera).2.2.2 + (m.emf.width : Rat) * 32) (by omega) hsw (by linarith)
    (by linarith) (by push_cast; linarith)
  have hvis : m.isVisible camera sx sy = true := by
    simp only [EOMap.isVisible, SECTION_SIZE, decide_eq_true_eq, ge_iff_le]
    push_cast
    exact ⟨by linarith, by linarith, by linarith, by linarith⟩
  intro hnil
  have hmem : m.getSection sx sy ∈ (m.cull camera).visibleSections :=
    (mem_cull_visibleSections m camera _).2 ⟨sy, hsy, sx, hsx, hvis, rfl⟩
  rw [hnil] at hmem
  cases hmem

/-- C20 at work on a 16 by 16 map with a camera wholly to the right of and below the map:
the range is the corner (512, 512) and a section is visible. -/
theorem C20_cull_range_valid_witness :
    (0 : Rat) ≤ ((EOMap.init sampleCache (sampleEntries 32) (emptyEmf 16 16)
        (fun _ => true)).cullRange ⟨1000, 2000, 300, 200⟩).1 ∧
    ((EOMap.init sampleCache (sampleEntries 32) (emptyEmf 16 16) (fun _ => true)).cull
      ⟨1000, 2000, 300, 200⟩).visibleSections ≠ [] := by
  have h := C20_cull_range_valid
    (EOMap.init sampleCache (sampleEntries 32) (emptyEmf 16 16) (fun _ => true))
    ⟨1000, 2000, 300, 200⟩ (by decide) (by decide) (by decide!) (by decide!) (by decide)
    (by decide)
  exact ⟨h.1, h.2.2.2.2.2.2⟩
/-! ## Graphics beyond the last row or column of the grid -/

/-- C18 fails on the code. On the empty 4 by 4 map (one section), the right wall graphic
drawn at tile (3, 0) has the box [128, 192] x [47, 79], which meets the viewport
[-128, 192] x [0, 128]; findSections gives no section for it, because its first column 1
lies beyond the last column 0 and only the last column of the box is clamped to the grid;
so it is in no visible section after cull, and the rebuild of the render list leaves it
out. On the empty 17 by 1 map (one row of sections), the same holds for the ground graphic
drawn at tile (16, 0), whose box [512, 576] x [256, 288] starts in row 1. -/
theorem C18_graphic_on_screen_in_no_section :
    (∃ m0 m g m',
      EOMap.new wallCache (sampleEntries 32) (emptyEmf 4 4) (fun _ => true) = .ok m0 ∧
      m0.draw 3 0 (some 1) 4 none = .ok m ∧
      m.tileGraphics (m.getTileGraphicIndex 3 0 4) = some g ∧
      ((m.graphics g).x, (m.graphics g).y, m.width (m.graphics g), m.height (m.graphics g))
        = (128, 47, 64, 32) ∧
      m.boxMeetsViewport (m.graphics g) ⟨-128, 0, 320, 128⟩ = true ∧
      m.findSections (m.graphics g) = [] ∧
      (m.cull ⟨-128, 0, 320, 128⟩).visibleSections = [0] ∧
      (m.cull ⟨-128, 0, 320, 128⟩).rebuildRenderList = .ok m' ∧ m'.renderList = []) ∧
    (∃ m0 m g m',
      EOMap.new sampleCache (sampleEntries 32) (emptyEmf 17 1) (fun _ => true) = .ok m0 ∧
      m0.draw 16 0 (some 1) 0 none = .ok m ∧
      m.tileGraphics (m.getTileGraphicIndex 16 0 0) = some g ∧
      ((m.graphics g).x, (m.graphics g).y, m.width (m.graphics g), m.height (m.graphics g))
        = (512, 256, 64, 32) ∧
      m.boxMeetsViewport (m.graphics g) ⟨400, 200, 300, 200⟩ = true ∧
      m.findSections (m.graphics g) = [] ∧
      (m.cull ⟨400, 200, 300, 200⟩).visibleSections = [3, 4] ∧
      (m.cull ⟨400, 200, 300, 200⟩).rebuildRenderList = .ok m' ∧ m'.renderList = []) := by
  constructor
  · have h : checkOk (EOMap.new wallCache (sampleEntries 32) (emptyEmf 4 4) (fun _ => true))
        (fun m0 => checkOk (m0.draw 3 0 (some 1) 4 none)
          (fun m => decide (m.tileGraphics (m.getTileGraphicIndex 3 0 4) = some 0 ∧
              ((m.graphics 0).x, (m.graphics 0).y, m.width (m.graphics 0),
                m.height (m.graphics 0)) = (128, 47, 64, 32) ∧
              m.boxMeetsViewport (m.graphics 0) ⟨-128, 0, 320, 128⟩ = true ∧
              m.findSections (m.graphics 0) = [] ∧
              (m.cull ⟨-128, 0, 320, 128⟩).visibleSections = [0]) &&
            checkOk (m.cull ⟨-128, 0, 320, 128⟩).rebuildRenderList
              (fun m' => decide (m'.renderList = [])))) = true := by
      decide!
    obtain ⟨m0, h0, hm0⟩ := checkOk_elim h
    obtain ⟨m, h1, hm⟩ := checkOk_elim hm0
    rw [Bool.and_eq_true] at hm
    obtain ⟨a, b, c, d, e⟩ := of_decide_eq_true hm.1
    obtain ⟨m', h2, f⟩ := checkOk_elim hm.2
    exact ⟨m0, m, 0, m', h0, h1, a, b, c, d, e, h2, of_decide_eq_true f⟩
  · have h : checkOk (EOMap.new sampleCache (sampleEntries 32) (emptyEmf 17 1) (fun _ => true))
        (fun m0 => checkOk (m0.draw 16 0 (some 1) 0 none)
          (fun m => decide (m.tileGraphics (m.getTileGraphicIndex 16 0 0) = some 0 ∧
              ((m.graphics 0).x, (m.graphics 0).y, m.width (m.graphics 0),
                m.height (m.graphics 0)) = (512, 256, 64, 32) ∧
              m.boxMeetsViewport (m.graphics 0) ⟨400, 200, 300, 200⟩ = true ∧
              m.findSections (m.graphics 0) = [] ∧
              (m.cull ⟨400, 200, 300, 200⟩).visibleSections = [3, 4]) &&
            checkOk (m.cull ⟨400, 200, 300, 200⟩).rebuildRenderList
              (fun m' => decide (m'.renderList = [])))) = true := by
      decide!
    obtain ⟨m0, h0, hm0⟩ := checkOk_elim h
    obtain ⟨m, h1, hm⟩ := checkOk_elim hm0
    rw [Bool.and_eq_true] at hm
    obtain ⟨a, b, c, d, e⟩ := of_decide_eq_true hm.1
    obtain ⟨m', h2, f⟩ := checkOk_elim hm.2
    exact ⟨m0, m, 0, m', h0, h1, a, b, c, d, e, h2, of_decide_eq_true f⟩
/-! ## The balance of the reference counts -/

/-- The balance only looks at the slots, the cache entries and the cache entry of each
graphic. -/
theorem Balanced_congr {m m' : EOMap} (hb : m.Balanced)
    (ht : m'.tileGraphics = m.tileGraphics) (he : m'.entries = m.entries)
    (hg : ∀ r, (m'.graphics r).cacheEntry = (m.graphics r).cacheEntry) : m'.Balanced := by
  intro e
  obtain ⟨S, hS, hc⟩ := hb e
  refine ⟨S, ?_, by rw [he]; exact hc⟩
  intro i
  rw [hS]
  simp only [EOMap.Uses, ht, hg]

/-- Deleting the graphic of a slot and releasing its cache entry keeps the balance. -/
theorem Balanced_drop {m m' : EOMap} (hb : m.Balanced) {idx old : Nat}
    (hslot : m.tileGraphics idx = some old)
    (ht : m'.tileGraphics = Function.update m.tileGraphics idx none)
    (he : m'.entries = Function.update m.entries (m.graphics old).cacheEntry
      (released (m.entries (m.graphics old).cacheEntry)))
    (hg : ∀ r, (m'.graphics r).cacheEntry = (m.graphics r).cacheEntry) : m'.Balanced := by
  have huses : ∀ e i, m'.Uses e i ↔ i ≠ idx ∧ m.Uses e i := by
    intro e i
    simp only [EOMap.Uses, ht, hg]
    by_cases hi : i = idx
    · subst hi
      simp
    · simp [Function.update_noteq hi, hi]
  intro e
  obtain ⟨S, hS, hc⟩ := hb e
  by_cases hee : e = (m.graphics old).cacheEntry
  · have hin : idx ∈ S := (hS idx).2 ⟨old, hslot, hee.symm⟩
    refine ⟨S.erase idx, ?_, ?_⟩
    · intro i
      rw [Finset.mem_erase, hS, huses]
    · rw [he, hee, Function.update_same, Finset.card_erase_of_mem hin]
      simp only [released]
      rw [← hee, hc]
  · refine ⟨S, ?_, ?_⟩
    · intro i
      rw [hS, huses]
      constructor
      · intro hu
        refine ⟨?_, hu⟩
        rintro rfl
        obtain ⟨r, hr, hre⟩ := hu
        rw [hslot] at hr
        cases hr
        exact hee hre.symm
      · exact fun h => h.2
    · rw [he, Function.update_noteq hee]
      exact hc

/-- Putting a new graphic into an empty slot and taking a reference on its cache entry
keeps the balance. -/
theorem Balanced_create {m m' : EOMap} (hb : m.Balanced) (hf : m.SlotsFresh) {idx e1 : Nat}
    (hslot : m.tileGraphics idx = none)
    (ht : m'.tileGraphics = Function.update m.tileGraphics idx (some m.nextGraphic))
    (he : m'.entries = Function.update m.entries e1 (m.entries e1).incRef)
    (hg : ∀ r, (m'.graphics r).cacheEntry
      = if r = m.nextGraphic then e1 else (m.graphics r).cacheEntry) : m'.Balanced := by
  have huses : ∀ e i, m'.Uses e i ↔ (i = idx ∧ e = e1) ∨ (i ≠ idx ∧ m.Uses e i) := by
    intro e i
    simp only [EOMap.Uses, ht]
    by_cases hi : i = idx
    · subst hi
      simp only [Function.update_same, Option.some.injEq, true_and, ne_eq, not_true_eq_false,
        false_and, or_false]
      constructor
      · rintro ⟨r, rfl, hr⟩
        rw [hg, if_pos rfl] at hr
        exact hr.symm
      · rintro rfl
        exact ⟨m.nextGraphic, rfl, by rw [hg, if_pos rfl]⟩
    · simp only [Function.update_noteq hi, hi, false_and, ne_eq, not_false_eq_true, true_and,
        false_or]
      constructor
      · rintro ⟨r, hr, hre⟩
        have := hf i r hr
        rw [hg, if_neg (by omega)] at hre
        exact ⟨r, hr, hre⟩
      · rintro ⟨r, hr, hre⟩
        have := hf i r hr
        exact ⟨r, hr, by rw [hg, if_neg (by omega)]; exact hre⟩
  intro e
  obtain ⟨S, hS, hc⟩ := hb e
  have hnot : idx ∉ S := by
    intro hin
    obtain ⟨r, hr, _⟩ := (hS idx).1 hin
    rw [hslot] at hr
    cases hr
  by_cases hee : e = e1
  · refine ⟨insert idx S, ?_, ?_⟩
    · intro i
      rw [Finset.mem_insert, hS, huses]
      constructor
      · rintro (rfl | hu)
        · exact Or.inl ⟨rfl, hee⟩
        · refine Or.inr ⟨?_, hu⟩
          rintro rfl
          exact hnot ((hS _).2 hu)
      · rintro (⟨rfl, _⟩ | ⟨_, hu⟩)
        · exact Or.inl rfl
        · exact Or.inr hu
    · rw [he, hee, Function.update_same, Finset.card_insert_of_not_mem hnot]
      simp only [TextureCacheEntry.incRef]
      rw [← hee, hc]
  · refine ⟨S, ?_, ?_⟩
    · intro i
      rw [hS, huses]
      constructor
      · intro hu
        refine Or.inr ⟨?_, hu⟩
        rintro rfl
        exact hnot ((hS _).2 hu)
      · rintro (⟨_, h⟩ | ⟨_, hu⟩)
        · exact absurd h hee
        · exact hu
    · rw [he, Function.update_noteq hee]
      exact hc

/-- In a consistent state, a setTileGraphic that returns keeps the balance. -/
theorem setTileGraphic_balanced {m m' : EOMap} (hc : m.Consistent) (hb : m.Balanced)
    {x y layer : Nat} {ce : Option Nat} {mod : Option Bool}
    (h : m.setTileGraphic x y layer ce mod = .ok m') : m'.Balanced := by
  have hclear : ∀ (m0 : EOMap) (old : Option Nat), m0.Balanced →
      (m0.clearGraphic x y layer old (mod.getD true)).Balanced := by
    intro m0 old hb0
    obtain ⟨h1, _, h3, _, _, _, h7⟩ := clearGraphic_frame m0 x y layer old (mod.getD true)
    exact Balanced_congr hb0 h1 h3 h7
  have hcreate : ∀ (m0 : EOMap) (e : Nat), m0.Balanced → m0.SlotsFresh →
      m0.tileGraphics (m0.getTileGraphicIndex x y layer) = none →
      (m0.createGraphic x y layer e (mod.getD true)).Balanced := by
    intro m0 e hb0 hf0 hs0
    obtain ⟨h1, _, h3, _, _, h6⟩ := createGraphic_frame m0 x y layer e (mod.getD true)
    exact Balanced_create hb0 hf0 hs0 h1 h3 h6
  cases hslot : m.tileGraphics (m.getTileGraphicIndex x y layer) with
  | none =>
    rw [setTileGraphic_empty_slot m x y layer ce mod hslot] at h
    cases ce with
    | none =>
      cases h
      exact hclear m none hb
    | some e =>
      cases h
      exact hcreate m e hb hc.fresh hslot
  | some old =>
    rw [setTileGraphic_full_slot m x y layer ce mod old hslot (hc.refCount_ne_zero hslot)] at h
    have hd : (m.dropGraphic (m.getTileGraphicIndex x y layer) old
        (released (m.entries (m.graphics old).cacheEntry))).Balanced :=
      Balanced_drop hb hslot rfl rfl (fun _ => rfl)
    cases ce with
    | none =>
      cases h
      exact hclear _ _ hd
    | some e =>
      cases h
      refine hcreate _ e hd (dropGraphic_consistent hc hslot).fresh ?_
      show Function.update m.tileGraphics _ none _ = none
      exact Function.update_same _ _ _
theorem setTileGraphic_keeps_balanced {m m' : EOMap} (hq : m.Consistent ∧ m.Balanced)
    (emf : Emf) (items npcs : EntityMap) {x y layer : Nat} {ce : Option Nat} {mod : Option Bool}
    (h : ({ m with emf := emf, items := items, npcs := npcs } : EOMap).setTileGraphic
      x y layer ce mod = .ok m') : m'.Consistent ∧ m'.Balanced := by
  have hc : ({ m with emf := emf, items := items, npcs := npcs } : EOMap).Consistent :=
    Consistent_congr hq.1 rfl rfl rfl (fun _ => rfl)
  have hb : ({ m with emf := emf, items := items, npcs := npcs } : EOMap).Balanced :=
    Balanced_congr hq.2 rfl rfl (fun _ => rfl)
  obtain ⟨m2, h2, c2, _⟩ := setTileGraphic_consistent hc x y layer ce mod
  rw [h2] at h
  cases h
  exact ⟨c2, setTileGraphic_balanced hc hb h2⟩

theorem setGraphic_keeps_balanced {m m' : EOMap} (hq : m.Consistent ∧ m.Balanced)
    {x y : Nat} {gfx : Option Nat} {layer : Nat} {mod : Option Bool}
    (h : m.setGraphic x y gfx layer mod = .ok m') : m'.Consistent ∧ m'.Balanced := by
  unfold EOMap.setGraphic at h
  split at h
  · cases h
    exact hq
  · dsimp only at h
    split at h
    · exact setTileGraphic_keeps_balanced hq _ m.items m.npcs h
    · exact setTileGraphic_keeps_balanced hq _ m.items m.npcs h
    · split at h
      · cases h
      · exact setTileGraphic_keeps_balanced hq _ m.items m.npcs h

theorem setSpec_keeps_balanced {m m' : EOMap} (hq : m.Consistent ∧ m.Balanced)
    {x y : Nat} {tileSpec : Option Nat} {mod : Option Bool}
    (h : m.setSpec x y tileSpec mod = .ok m') : m'.Consistent ∧ m'.Balanced := by
  unfold EOMap.setSpec at h
  dsimp only at h
  split at h
  · obtain ⟨m1, h1, h2⟩ := bind_ok h
    have q1 := setTileGraphic_keeps_balanced hq _ m.items m.npcs h1
    exact setTileGraphic_keeps_balanced q1 m1.emf m1.items m1.npcs h2
  · split at h
    · cases h
      exact ⟨Consistent_congr hq.1 rfl rfl rfl (fun _ => rfl),
        Balanced_congr hq.2 rfl rfl (fun _ => rfl)⟩
    · obtain ⟨m1, h1, h2⟩ := bind_ok h
      have q1 := setTileGraphic_keeps_balanced hq _ m.items m.npcs h1
      exact setTileGraphic_keeps_balanced q1 m1.emf m1.items m1.npcs h2

theorem draw_keeps_balanced {m m' : EOMap} (hq : m.Consistent ∧ m.Balanced)
    {x y : Nat} {drawID : Option Nat} {layer : Int} {mod : Option Bool}
    (h : m.draw x y drawID layer mod = .ok m') : m'.Consistent ∧ m'.Balanced := by
  unfold EOMap.draw at h
  split at h
  · exact setGraphic_keeps_balanced hq h
  · split at h
    · exact setSpec_keeps_balanced hq h
    · cases h

theorem entity_setter_balanced {m m' : EOMap} (hq : m.Consistent ∧ m.Balanced)
    (x y layer : Nat) (emf : Emf) (items npcs : EntityMap) (ce : Option Nat)
    (h : (do let m1 ← ({ m with emf := emf, items := items, npcs := npcs } : EOMap).setTileGraphic
                x y layer ce none
             pure (m1.updateEntityOffsets x y) : Throws EOMap EOMap) = .ok m') :
    m'.Consistent ∧ m'.Balanced := by
  obtain ⟨m1, h1, h2⟩ := bind_ok h
  have q1 := setTileGraphic_keeps_balanced hq emf items npcs h1
  cases h2
  exact ⟨Consistent_congr q1.1 rfl rfl rfl (fun r => updateEntityOffsets_cacheEntry m1 x y r),
    Balanced_congr q1.2 rfl rfl (fun r => updateEntityOffsets_cacheEntry m1 x y r)⟩

theorem bind_error {ε α β : Type} {x : Except ε α} {f : α → Except ε β} {e : ε}
    (h : (x >>= f) = .error e) : x = .error e ∨ ∃ a, x = .ok a ∧ f a = .error e := by
  cases x with
  | error e' =>
    cases h
    exact Or.inl rfl
  | ok a => exact Or.inr ⟨a, rfl, h⟩

/-- In a consistent state setTileGraphic does not throw, whatever the map data. -/
theorem setTileGraphic_no_throw {m : EOMap} (hc : m.Consistent) (emf : Emf)
    (items npcs : EntityMap) {x y layer : Nat} {ce : Option Nat} {mod : Option Bool}
    {thrown : String × EOMap}
    (h : ({ m with emf := emf, items := items, npcs := npcs } : EOMap).setTileGraphic
      x y layer ce mod = .error thrown) : False := by
  have hc' : ({ m with emf := emf, items := items, npcs := npcs } : EOMap).Consistent :=
    Consistent_congr hc rfl rfl rfl (fun _ => rfl)
  obtain ⟨m2, h2, _⟩ := setTileGraphic_consistent hc' x y layer ce mod
  rw [h2] at h
  cases h

theorem draw_throw_balanced {m m' : EOMap} (hq : m.Consistent ∧ m.Balanced)
    {x y : Nat} {drawID : Option Nat} {layer : Int} {mod : Option Bool} {message : String}
    (h : m.draw x y drawID layer mod = .error (message, m')) : m'.Consistent ∧ m'.Balanced := by
  unfold EOMap.draw at h
  split at h
  · unfold EOMap.setGraphic at h
    split at h
    · cases h
    · dsimp only at h
      split at h
      · exact (setTileGraphic_no_throw hq.1 _ m.items m.npcs h).elim
      · exact (setTileGraphic_no_throw hq.1 _ m.items m.npcs h).elim
      · split at h
        · cases h
          exact ⟨Consistent_congr hq.1 rfl rfl rfl (fun _ => rfl),
            Balanced_congr hq.2 rfl rfl (fun _ => rfl)⟩
        · exact (setTileGraphic_no_throw hq.1 _ m.items m.npcs h).elim
  · split at h
    · have two : ∀ ce, (do
            let m1 ← ({ m with emf := m.emf.modifyTile x y fun tile =>
              { tile with spec := drawID } } : EOMap).setTileGraphic x y 9 ce mod
            m1.setTileGraphic x y 10 ce mod : Throws EOMap EOMap) = .error (message, m') →
          False := by
        intro ce h2
        rcases bind_error h2 with h1 | ⟨m1, h1, h3⟩
        · exact setTileGraphic_no_throw hq.1 _ m.items m.npcs h1
        · have q1 := setTileGraphic_keeps_balanced hq _ m.items m.npcs h1
          exact setTileGraphic_no_throw q1.1 m1.emf m1.items m1.npcs h3
      unfold EOMap.setSpec at h
      dsimp only at h
      split at h
      · exact (two _ h).elim
      · split at h
        · cases h
        · exact (two _ h).elim
    · cases h
      exact hq

theorem entity_setter_no_throw {m : EOMap} (hc : m.Consistent)
    (x y layer : Nat) (emf : Emf) (items npcs : EntityMap) (ce : Option Nat)
    {thrown : String × EOMap}
    (h : (do let m1 ← ({ m with emf := emf, items := items, npcs := npcs } : EOMap).setTileGraphic
                x y layer ce none
             pure (m1.updateEntityOffsets x y) : Throws EOMap EOMap) = .error thrown) :
    False := by
  rcases bind_error h with h1 | ⟨m1, _, h2⟩
  · exact setTileGraphic_no_throw hc emf items npcs h1
  · cases h2

theorem initTile_keeps_balanced {m m' : EOMap} (hq : m.Consistent ∧ m.Balanced) (x y : Nat)
    (h : m.initTile x y = .ok m') : m'.Consistent ∧ m'.Balanced := by
  unfold EOMap.initTile at h
  obtain ⟨m1, h1, h⟩ := bind_ok h
  have q1 : m1.Consistent ∧ m1.Balanced :=
    foldlM_keeps (fun s => s.Consistent ∧ s.Balanced) _
      (fun s a s' hs hf => setGraphic_keeps_balanced hs hf) _ _ _ hq h1
  obtain ⟨m2, h2, h⟩ := bind_ok h
  have q2 := setSpec_keeps_balanced q1 h2
  obtain ⟨m3, h3, h⟩ := bind_ok h
  have q3 := entity_setter_balanced q2 x y 11 _ m2.items m2.npcs _ h3
  obtain ⟨m4, h4, h⟩ := bind_ok h
  have q4 := entity_setter_balanced q3 x y 12 _ m3.items m3.npcs _ h4
  obtain ⟨m5, h5, h⟩ := bind_ok h
  have q5 := entity_setter_balanced q4 x y 13 m4.emf _ m4.npcs _ h5
  exact entity_setter_balanced q5 x y 14 m5.emf m5.items _ _ h

/-- Every state of a map whose cache entries start without references is consistent and
balanced. -/
theorem reachableFrom_balanced {textureCache : CacheLookup} {entries : Nat → TextureCacheEntry}
    {emf : Emf} {layerVisibility : Nat → Bool} (hzero : ∀ e, (entries e).refCount = 0)
    {m : EOMap} (h : ReachableFrom textureCache entries emf layerVisibility m) :
    m.Consistent ∧ m.Balanced := by
  induction h with
  | new h =>
    refine foldlM_keeps (fun s => s.Consistent ∧ s.Balanced) _
      (fun s a s' hs hf => initTile_keeps_balanced hs a.1 a.2 hf) _ _ _
      ⟨init_consistent _ _ _ _, ?_⟩ h
    intro e
    exact ⟨∅, by simp [EOMap.Uses, EOMap.init], by simp [EOMap.init, hzero]⟩
  | draw _ h ih => exact draw_keeps_balanced ih h
  | setWarp _ h ih => exact entity_setter_balanced ih _ _ 11 _ _ _ _ h
  | setSign _ h ih => exact entity_setter_balanced ih _ _ 12 _ _ _ _ h
  | setItems _ h ih => exact entity_setter_balanced ih _ _ 13 _ _ _ _ h
  | setNPCs _ h ih => exact entity_setter_balanced ih _ _ 14 _ _ _ _ h
  | drawThrows _ h ih => exact draw_throw_balanced ih h
  | setWarpThrows _ h ih => exact (entity_setter_no_throw ih.1 _ _ 11 _ _ _ _ h).elim
  | setSignThrows _ h ih => exact (entity_setter_no_throw ih.1 _ _ 12 _ _ _ _ h).elim
  | setItemsThrows _ h ih => exact (entity_setter_no_throw ih.1 _ _ 13 _ _ _ _ h).elim
  | setNPCsThrows _ h ih => exact (entity_setter_no_throw ih.1 _ _ 14 _ _ _ _ h).elim

/-- The loop of destroy over the keys of a balanced state returns, and leaves a balanced
state with no slot in use. -/
theorem destroy_loop : ∀ (keys : List Nat) (m : EOMap), keys.Nodup →
    (∀ i, i ∈ keys ↔ (m.tileGraphics i).isSome = true) → m.Balanced →
    ∃ m', keys.foldlM EOMap.destroyStep m = .ok m' ∧ m'.Balanced ∧
      ∀ i, m'.tileGraphics i = none := by
  intro keys
  induction keys with
  | nil =>
    intro m _ hk hb
    refine ⟨m, rfl, hb, ?_⟩
    intro i
    have := (hk i).not
    simpa using this
  | cons k rest ih =>
    intro m hn hk hb
    have hlive : (m.tileGraphics k).isSome = true := (hk k).1 (List.mem_cons_self _ _)
    obtain ⟨old, hold⟩ := Option.isSome_iff_exists.1 hlive
    have hpos : (m.entries (m.graphics old).cacheEntry).refCount ≠ 0 := by
      obtain ⟨S, hS, hc⟩ := hb (m.graphics old).cacheEntry
      have hin : k ∈ S := (hS k).2 ⟨old, hold, rfl⟩
      rw [hc]
      exact Finset.card_ne_zero_of_mem hin
    have hstep : m.destroyStep k = .ok
        { m with
          entries := Function.update m.entries (m.graphics old).cacheEntry
            (released (m.entries (m.graphics old).cacheEntry)),
          tileGraphics := Function.update m.tileGraphics k none } := by
      simp [EOMap.destroyStep, hold, TextureCacheEntry.decRef, hpos, released]
    rw [List.foldlM_cons, hstep]
    refine ih _ (List.nodup_cons.1 hn).2 ?_ (Balanced_drop hb hold rfl rfl (fun _ => rfl))
    intro i
    show i ∈ rest ↔ (Function.update m.tileGraphics k none i).isSome = true
    by_cases hi : i = k
    · subst hi
      simp [(List.nodup_cons.1 hn).1]
    · rw [Function.update_noteq hi, ← hk i]
      simp [hi]

/-- C19: take a map constructed over cache entries that all have refCount 0, so that the
map is the only caller of incRef and decRef. In every state reachable from the
construction by calls of draw, setWarp, setSign, setItems and setNPCs, returning or
throwing, the refCount of every cache entry is the number of slots of tileGraphics whose
TileGraphic has that cache entry, and different slots hold different TileGraphics; every
setTileGraphic from such a state returns, so its decRef does not throw; and destroy, run
over the keys of tileGraphics, returns with the refCount of every entry 0. -/
theorem C19_refcount_balance (textureCache : CacheLookup) (entries : Nat → TextureCacheEntry)
    (emf : Emf) (layerVisibility : Nat → Bool) (m : EOMap)
    (hzero : ∀ e, (entries e).refCount = 0)
    (h : ReachableFrom textureCache entries emf layerVisibility m) :
    m.Balanced ∧ m.SlotsDistinct ∧
    (∀ x y layer cacheEntry modifyRenderList,
      ∃ m', m.setTileGraphic x y layer cacheEntry modifyRenderList = .ok m') ∧
    (∀ keys : List Nat, keys.Nodup →
      (∀ i, i ∈ keys ↔ (m.tileGraphics i).isSome = true) →
      ∃ m', m.destroy keys = .ok m' ∧ ∀ e, (m'.entries e).refCount = 0) := by
  obtain ⟨hc, hb⟩ := reachableFrom_balanced hzero h
  refine ⟨hb, hc.distinct, ?_, ?_⟩
  · intro x y layer ce mod
    obtain ⟨m', h', _⟩ := setTileGraphic_consistent hc x y layer ce mod
    exact ⟨m', h'⟩
  · intro keys hn hk
    obtain ⟨m1, h1, hb1, hnone⟩ := destroy_loop keys m hn hk hb
    refine ⟨_, by simp only [EOMap.destroy, h1]; rfl, ?_⟩
    intro e
    obtain ⟨S, hS, hcard⟩ := hb1 e
    show (m1.entries e).refCount = 0
    rw [hcard, Finset.card_eq_zero, Finset.eq_empty_iff_forall_not_mem]
    intro i hi
    obtain ⟨r, hr, _⟩ := (hS i).1 hi
    rw [hnone i] at hr
    cases hr
/-- C19 at work: the 4 by 4 map with two ground graphics of the same cache entry is
constructed over entries without references; the entry then has refCount 2, the counts
are balanced, and every setTileGraphic returns. -/
theorem C19_refcount_balance_witness :
    ∃ m, EOMap.new sampleCache (sampleEntries 32) scenarioEmf (fun _ => true) = .ok m ∧
      (m.entries 0).refCount = 2 ∧ m.Balanced ∧
      ∀ x y layer cacheEntry modifyRenderList,
        ∃ m', m.setTileGraphic x y layer cacheEntry modifyRenderList = .ok m' := by
  have h : checkOk (EOMap.new sampleCache (sampleEntries 32) scenarioEmf (fun _ => true))
      (fun m => decide ((m.entries 0).refCount = 2)) = true := by
    decide!
  obtain ⟨m, h0, hm⟩ := checkOk_elim h
  have hzero : ∀ e, (sampleEntries 32 e).refCount = 0 := by
    intro e
    simp only [sampleEntries]
    split_ifs <;> rfl
  have hall := C19_refcount_balance sampleCache (sampleEntries 32) scenarioEmf (fun _ => true)
    m hzero (ReachableFrom.new h0)
  exact ⟨m, h0, of_decide_eq_true hm, hall.1, hall.2.2.1⟩
/-! ## The sweep of evict -/

/-- The sweep over a list of Map entries removes the keys of the entries of the list
without reference, and nothing else. -/
theorem evict_fold {P : Type} (l : List ((Nat × Nat) × Nat)) :
    ∀ c : TextureCache P,
    (l.foldl (fun c kv => if (c.entries kv.2).refCount = 0
        then EvictingTextureCache.evictAsset c kv.1 else c) c).assets
      = c.assets.filter (fun kv =>
          !(l.any fun kv' => decide ((c.entries kv'.2).refCount = 0) && decide (kv'.1 = kv.1))) ∧
    (l.foldl (fun c kv => if (c.entries kv.2).refCount = 0
        then EvictingTextureCache.evictAsset c kv.1 else c) c).entries = c.entries := by
  induction l with
  | nil =>
    intro c
    simp
  | cons a rest ih =>
    intro c
    rw [List.foldl_cons]
    by_cases h0 : (c.entries a.2).refCount = 0
    · rw [if_pos h0]
      obtain ⟨h1, h2⟩ := ih (EvictingTextureCache.evictAsset c a.1)
      rw [h1, h2]
      refine ⟨?_, rfl⟩
      simp only [EvictingTextureCache.evictAsset, List.filter_filter]
      apply List.filter_congr
      intro kv _
      simp only [List.any_cons, h0, decide_True, Bool.true_and]
      by_cases hk : a.1 = kv.1
      · simp [hk]
      · have hk' : kv.1 ≠ a.1 := fun h => hk h.symm
        simp [hk, hk']
    · rw [if_neg h0]
      obtain ⟨h1, h2⟩ := ih c
      rw [h1, h2]
      refine ⟨?_, rfl⟩
      apply List.filter_congr
      intro kv _
      simp [List.any_cons, h0]

/-- The first entry of a key stays the first one when entries are taken away that do not
include it. -/
theorem find_filter_of_find {α : Type} (p q : α → Bool) (l : List α) (a : α)
    (h : l.find? q = some a) (hp : p a = true) : (l.filter p).find? q = some a := by
  induction l with
  | nil => simp at h
  | cons b rest ih =>
    rw [List.find?_cons] at h
    cases hq : q b with
    | true =>
      rw [hq] at h
      cases h
      rw [List.filter_cons_of_pos hp, List.find?_cons, hq]
    | false =>
      rw [hq] at h
      cases hpb : p b with
      | true => rw [List.filter_cons_of_pos hpb, List.find?_cons, hq]; exact ih h
      | false => rw [List.filter_cons_of_neg (by simp [hpb])]; exact ih h

/-- C14: on a cache whose Map has every key once, evict leaves in the Map exactly the
entries whose refCount is not 0 at the sweep, in their order; every key whose entry has a
refCount above 0 still has that entry, and no entry changes; no entry of the Map has
refCount 0 afterwards; canEvict is false afterwards. -/
theorem C14_evict_removes_unreferenced {P : Type} (c : TextureCache P)
    (hkeys : (c.assets.map Prod.fst).Nodup) :
    (EvictingTextureCache.evict c).assets
      = c.assets.filter (fun kv => decide ((c.entries kv.2).refCount ≠ 0)) ∧
    (EvictingTextureCache.evict c).entries = c.entries ∧
    (∀ key asset, c.assetsGet key = some asset → 0 < (c.entries asset).refCount →
      (EvictingTextureCache.evict c).assetsGet key = some asset) ∧
    (∀ key asset, (EvictingTextureCache.evict c).assetsGet key = some asset →
      c.assetsGet key = some asset ∧
      0 < ((EvictingTextureCache.evict c).entries asset).refCount) ∧
    (EvictingTextureCache.evict c).canEvict = false := by
  have hassets : (EvictingTextureCache.evict c).assets
      = c.assets.filter (fun kv => decide ((c.entries kv.2).refCount ≠ 0)) := by
    show (c.assets.foldl _ c).assets = _
    rw [(evict_fold c.assets c).1]
    apply List.filter_congr
    intro kv hkv
    by_cases h0 : (c.entries kv.2).refCount = 0
    · have hany : (c.assets.any fun kv' =>
          decide ((c.entries kv'.2).refCount = 0) && decide (kv'.1 = kv.1)) = true :=
        List.any_eq_true.2 ⟨kv, hkv, by simp [h0]⟩
      rw [hany]
      simp [h0]
    · have hany : (c.assets.any fun kv' =>
          decide ((c.entries kv'.2).refCount = 0) && decide (kv'.1 = kv.1)) = false := by
        rw [List.any_eq_false]
        intro kv' hkv' hboth
        simp only [Bool.and_eq_true, decide_eq_true_eq] at hboth
        have : kv' = kv := List.inj_on_of_nodup_map hkeys hkv' hkv hboth.2
        rw [this] at hboth
        exact h0 hboth.1
      rw [hany]
      simp [h0]
  have hentries : (EvictingTextureCache.evict c).entries = c.entries := by
    show (c.assets.foldl _ c).entries = _
    exact (evict_fold c.assets c).2
  refine ⟨hassets, hentries, ?_, ?_, rfl⟩
  · intro key asset hget hpos
    simp only [TextureCache.assetsGet, Option.map_eq_some'] at hget ⊢
    obtain ⟨kv, hfind, rfl⟩ := hget
    refine ⟨kv, ?_, rfl⟩
    rw [hassets]
    exact find_filter_of_find _ _ _ _ hfind (by simp; omega)
  · intro key asset hget
    simp only [TextureCache.assetsGet, Option.map_eq_some'] at hget ⊢
    obtain ⟨kv, hfind, rfl⟩ := hget
    rw [hassets] at hfind
    have hmem := List.mem_of_find?_eq_some hfind
    have hkey := List.find?_some hfind
    obtain ⟨hin, hne⟩ := List.mem_filter.1 hmem
    have hfirst : ∃ kv0, c.assets.find? (fun kv => decide (kv.1 = key)) = some kv0 := by
      cases hf : c.assets.find? (fun kv => decide (kv.1 = key)) with
      | some kv0 => exact ⟨kv0, rfl⟩
      | none =>
        rw [List.find?_eq_none] at hf
        exact absurd hkey (hf kv hin)
    obtain ⟨kv0, hf0⟩ := hfirst
    have hk0 := List.find?_some hf0
    have hin0 := List.mem_of_find?_eq_some hf0
    have heq : kv0 = kv := List.inj_on_of_nodup_map hkeys hin0 hin
      (by simp only [decide_eq_true_eq] at hk0 hkey; rw [hk0, hkey])
    rw [hentries]
    refine ⟨⟨kv, by rw [hf0, heq], rfl⟩, ?_⟩
    simp only [ne_eq, decide_eq_true_eq] at hne
    omega

/-- C14 at work: of the three assets of the sample cache, the sweep removes the one
without reference and keeps the two in use. -/
theorem C14_evict_removes_unreferenced_witness :
    (sampleTextureCache.assets.map Prod.fst).Nodup ∧
    (EvictingTextureCache.evict sampleTextureCache).assets = [((3, 101), 0), ((3, 102), 1)] ∧
    (EvictingTextureCache.evict sampleTextureCache).canEvict = false :=
  ⟨by decide,
    (C14_evict_removes_unreferenced sampleTextureCache (by decide)).1.trans (by decide),
    (C14_evict_removes_unreferenced sampleTextureCache (by decide)).2.2.2.2⟩
/-- The Map keeps every key once under `set`. -/
theorem assetsSet_nodup (assets : List ((Nat × Nat) × Nat)) (key : Nat × Nat) (entry : Nat)
    (h : (assets.map Prod.fst).Nodup) :
    ((TextureCache.assetsSet assets key entry).map Prod.fst).Nodup := by
  unfold TextureCache.assetsSet
  split
  · have : (assets.map fun kv => if kv.1 = key then (key, entry) else kv).map Prod.fst
        = assets.map Prod.fst := by
      rw [List.map_map]
      apply List.map_congr_left
      intro kv _
      by_cases hk : kv.1 = key <;> simp [hk]
    rw [this]
    exact h
  · rename_i hany
    rw [List.map_append, List.nodup_append]
    refine ⟨h, by simp, ?_⟩
    intro a ha hb
    simp only [List.map_cons, List.map_nil, List.mem_singleton] at hb
    subst hb
    apply hany
    obtain ⟨kv, hkv, rfl⟩ := List.mem_map.1 ha
    exact List.any_eq_true.2 ⟨kv, hkv, by simp⟩

/-! ## The load scheduler -/

theorem loadCount_bounds (timeUp : Nat → Bool) :
    ∀ remaining loaded, loaded ≤ TextureCache.loadCount timeUp remaining loaded ∧
      TextureCache.loadCount timeUp remaining loaded ≤ loaded + remaining ∧
      (0 < remaining → loaded < TextureCache.loadCount timeUp remaining loaded) := by
  intro remaining
  induction remaining with
  | zero => intro loaded; simp [TextureCache.loadCount]
  | succ n ih =>
    intro loaded
    unfold TextureCache.loadCount
    split
    · omega
    · have := ih (loaded + 1)
      omega

/-- Every tick on a queue that is not empty makes the queue shorter. -/
theorem update_pending_length {P : Type} (c : TextureCache P) (timeUp : Nat → Bool) :
    (c.update timeUp).1.pending.length ≤ c.pending.length - 1 := by
  simp only [TextureCache.update, List.length_drop, List.length_insertionSort]
  have := loadCount_bounds timeUp c.pending.length 0
  omega

theorem updates_pending_length {P : Type} (clocks : List (Nat → Bool)) :
    ∀ c : TextureCache P, (c.updates clocks).pending.length ≤ c.pending.length - clocks.length := by
  induction clocks with
  | nil => intro c; simp [TextureCache.updates]
  | cons t rest ih =>
    intro c
    have h1 := ih (c.update t).1
    have h2 := update_pending_length c t
    simp only [TextureCache.updates, List.foldl_cons, List.length_cons] at h1 ⊢
    omega

/-- C16: update on an empty pending queue changes nothing and loads nothing. On any queue,
whatever the clock reads, the assets it loads followed by the queue it leaves are the old
queue sorted by descending refCount, with the entries of equal refCount in their previous
order; on a non-empty queue at least one asset is loaded; nothing else in the cache
changes. So one tick for each entry of the queue, with no allocation between, leaves the
queue empty. -/
theorem C16_update_scheduler {P : Type} (c : TextureCache P) (timeUp : Nat → Bool) :
    (c.pending = [] → c.update timeUp = (c, [])) ∧
    (c.pending ≠ [] → 1 ≤ (c.update timeUp).2.length) ∧
    ((c.update timeUp).2 ++ (c.update timeUp).1.pending).Perm c.pending ∧
    ((c.update timeUp).2 ++ (c.update timeUp).1.pending).Pairwise
      (fun a b => (c.entries b).refCount ≤ (c.entries a).refCount) ∧
    (∀ n, ((c.update timeUp).2 ++ (c.update timeUp).1.pending).filter
        (fun a => decide ((c.entries a).refCount = n))
      = c.pending.filter (fun a => decide ((c.entries a).refCount = n))) ∧
    { (c.update timeUp).1 with pending := c.pending } = c ∧
    (∀ clocks : List (Nat → Bool), c.pending.length ≤ clocks.length →
      (c.updates clocks).pending = []) := by
  have htotal : IsTotal Nat (fun a b =>
      ((c.entries b).refCount : Int) - ((c.entries a).refCount : Int) ≤ 0) :=
    ⟨fun a b => by omega⟩
  have htrans : IsTrans Nat (fun a b =>
      ((c.entries b).refCount : Int) - ((c.entries a).refCount : Int) ≤ 0) :=
    ⟨fun a b d h1 h2 => by omega⟩
  have hjoin : (c.update timeUp).2 ++ (c.update timeUp).1.pending
      = c.pending.insertionSort
          (fun a b => ((c.entries b).refCount : Int) - ((c.entries a).refCount : Int) ≤ 0) := by
    simp only [TextureCache.update, List.take_append_drop]
  have hperm := List.perm_insertionSort
    (fun a b => ((c.entries b).refCount : Int) - ((c.entries a).refCount : Int) ≤ 0) c.pending
  refine ⟨?_, ?_, ?_, ?_, ?_, rfl, ?_⟩
  · intro h
    cases c
    simp only at h
    subst h
    simp [TextureCache.update, TextureCache.loadCount]
  · intro h
    have hlen : 0 < c.pending.length := List.length_pos.2 h
    have := (loadCount_bounds timeUp c.pending.length 0).2.2 hlen
    have hle := (loadCount_bounds timeUp c.pending.length 0).2.1
    simp only [TextureCache.update, List.length_take, List.length_insertionSort]
    omega
  · rw [hjoin]
    exact hperm
  · rw [hjoin]
    have := List.sorted_insertionSort
      (fun a b => ((c.entries b).refCount : Int) - ((c.entries a).refCount : Int) ≤ 0) c.pending
    refine List.Pairwise.imp ?_ this
    intro a b h
    omega
  · intro n
    rw [hjoin]
    have hsub : List.Sublist (c.pending.filter (fun a => decide ((c.entries a).refCount = n)))
        (c.pending.insertionSort
          (fun a b => ((c.entries b).refCount : Int) - ((c.entries a).refCount : Int) ≤ 0)) := by
      apply List.sublist_insertionSort
      · rw [List.pairwise_iff_forall_sublist]
        intro a b hab
        have ha := List.mem_filter.1 (hab.subset (List.mem_cons_self _ _))
        have hb := List.mem_filter.1 (hab.subset (List.mem_cons_of_mem _ (List.mem_cons_self _ _)))
        simp only [decide_eq_true_eq] at ha hb
        omega
      · exact List.filter_sublist _
    have hsub2 := hsub.filter (fun a => decide ((c.entries a).refCount = n))
    rw [List.filter_filter] at hsub2
    simp only [Bool.and_self] at hsub2
    refine (hsub2.eq_of_length ?_).symm
    exact (hperm.filter _).length_eq.symm
  · intro clocks hlen
    have := updates_pending_length clocks c
    exact List.length_eq_zero.1 (by omega)
/-- C16 at work: the sample queue [0, 1, 2] with reference counts 1, 3, 3 and a clock that
stops every tick after one load: the first tick loads entry 1 and leaves [2, 0], and three
ticks empty the queue. -/
theorem C16_update_scheduler_witness :
    (sampleTextureCache.update fun _ => true).2 = [1] ∧
    (sampleTextureCache.update fun _ => true).1.pending = [2, 0] ∧
    (sampleTextureCache.update fun _ => false).2 = [1, 2, 0] ∧
    (sampleTextureCache.updates [fun _ => true, fun _ => true, fun _ => true]).pending = [] :=
  ⟨by decide, by decide, by decide,
    (C16_update_scheduler sampleTextureCache fun _ => true).2.2.2.2.2.2 _ (by decide)⟩

/-! ## First fit -/

theorem addToPage_fail {P : Type} (pk : Packer P) (c : TextureCache P)
    (i fileID resourceID w h : Nat) (page : P) (hpage : c.pages[i]? = some page)
    (hfail : (pk.packOne page w h).1 = none) :
    TextureCache.addToPage pk c i fileID resourceID w h
      = ({ c with pages := c.pages.set i (pk.packOne page w h).2 }, none) := by
  simp only [TextureCache.addToPage, hpage, hfail]

theorem addToPage_fit {P : Type} (pk : Packer P) (c : TextureCache P)
    (i fileID resourceID w h : Nat) (page : P) (bin : Bin) (hpage : c.pages[i]? = some page)
    (hfit : (pk.packOne page w h).1 = some bin) :
    TextureCache.addToPage pk c i fileID resourceID w h
      = ({ c with
            pages := c.pages.set i (pk.packOne page w h).2,
            frames := c.frames ++ [(fileID, resourceID)],
            entries := Function.update c.entries c.nextEntry
              ⟨⟨fileID, resourceID, w, h⟩, i, bin, 0⟩,
            nextEntry := c.nextEntry + 1,
            pending := c.pending ++ [c.nextEntry] }, some c.nextEntry) := by
  simp only [TextureCache.addToPage, hpage, hfit]

/-- The loop of add from page `k` on, when page `k + d` is the first one from there that
packs the rectangle and the pages before it hold a bin after their attempt. -/
theorem addLoop_first_fit {P : Type} (pk : Packer P) (fileID resourceID w h : Nat)
    (bin : Bin) (page : P) :
    ∀ (d k n : Nat) (c : TextureCache P), d < n →
    c.pages[k + d]? = some page → (pk.packOne page w h).1 = some bin →
    (∀ j q, k ≤ j → j < k + d → c.pages[j]? = some q →
      (pk.packOne q w h).1 = none ∧ pk.empty (pk.packOne q w h).2 = false) →
    ∃ pages : List P,
      TextureCache.addLoop pk fileID resourceID w h n k c
        = .ok ({ c with
            pages := pages,
            frames := c.frames ++ [(fileID, resourceID)],
            entries := Function.update c.entries c.nextEntry
              ⟨⟨fileID, resourceID, w, h⟩, k + d, bin, 0⟩,
            nextEntry := c.nextEntry + 1,
            pending := c.pending ++ [c.nextEntry],
            assets := TextureCache.assetsSet c.assets (fileID, resourceID) c.nextEntry },
          some c.nextEntry) ∧
      pages.length = c.pages.length ∧
      ∀ j, pages[j]? = if k ≤ j ∧ j ≤ k + d
        then c.pages[j]?.map fun q => (pk.packOne q w h).2 else c.pages[j]? := by
  intro d
  induction d with
  | zero =>
    intro k n c hn hpage hfit _
    obtain ⟨n, rfl⟩ : ∃ n', n = n' + 1 := ⟨n - 1, by omega⟩
    refine ⟨c.pages.set k (pk.packOne page w h).2, ?_, by simp, ?_⟩
    · simp only [TextureCache.addLoop, Nat.add_zero] at hpage ⊢
      rw [addToPage_fit pk c k fileID resourceID w h page bin hpage hfit]
      rfl
    · intro j
      simp only [Nat.add_zero] at hpage ⊢
      by_cases hj : j = k
      · subst hj
        have hlt : j < c.pages.length := by
          by_contra hge
          rw [List.getElem?_eq_none (by omega)] at hpage
          cases hpage
        simp [hpage, List.getElem?_set_self, hlt]
      · have : ¬ (k ≤ j ∧ j ≤ k) := by omega
        rw [if_neg this, List.getElem?_set_ne (fun h => hj h.symm)]
  | succ d ih =>
    intro k n c hn hpage hfit hbefore
    obtain ⟨n, rfl⟩ : ∃ n', n = n' + 1 := ⟨n - 1, by omega⟩
    have hk : k < c.pages.length := by
      by_contra hge
      rw [List.getElem?_eq_none (by omega)] at hpage
      cases hpage
    obtain ⟨hfail, hfull⟩ := hbefore k (c.pages[k]) (le_refl k) (by omega)
      (List.getElem?_eq_getElem hk)
    have hloop : TextureCache.addLoop pk fileID resourceID w h (n + 1) k c
        = TextureCache.addLoop pk fileID resourceID w h n (k + 1)
            { c with pages := c.pages.set k (pk.packOne (c.pages[k]) w h).2 } := by
      rw [TextureCache.addLoop,
        addToPage_fail pk c k fileID resourceID w h _ (List.getElem?_eq_getElem hk) hfail]
      simp [List.getElem?_set_self, hk, hfull]
    have hget : ∀ j, j ≠ k →
        (c.pages.set k (pk.packOne (c.pages[k]) w h).2)[j]? = c.pages[j]? :=
      fun j hj => List.getElem?_set_ne (fun h => hj h.symm)
    obtain ⟨pages, hrun, hlen, hpages⟩ :=
      ih (k + 1) n { c with pages := c.pages.set k (pk.packOne (c.pages[k]) w h).2 }
        (by omega)
        (by
          show (c.pages.set k _)[k + 1 + d]? = some page
          rw [hget _ (by omega), ← hpage]
          congr 1
          omega)
        hfit
        (by
          intro j q hj1 hj2 hq
          have hq' : c.pages[j]? = some q := by
            rw [← hget j (by omega)]
            exact hq
          exact hbefore j q (by omega) (by omega) hq')
    refine ⟨pages, ?_, by rw [hlen]; simp, ?_⟩
    · rw [hloop, hrun]
      have : k + 1 + d = k + (d + 1) := by omega
      rw [this]
    · intro j
      rw [hpages j]
      by_cases hj : j = k
      · subst hj
        have h1 : ¬ (j + 1 ≤ j ∧ j ≤ j + 1 + d) := by omega
        have h2 : j ≤ j ∧ j ≤ j + (d + 1) := by omega
        rw [if_neg h1, if_pos h2]
        show (c.pages.set j _)[j]? = _
        simp [List.getElem?_set_self, hk]
      · show (if k + 1 ≤ j ∧ j ≤ k + 1 + d
            then (c.pages.set k _)[j]?.map _ else (c.pages.set k _)[j]?) = _
        rw [hget j hj]
        by_cases hr : k + 1 ≤ j ∧ j ≤ k + 1 + d
        · rw [if_pos hr, if_pos (by omega)]
        · rw [if_neg hr, if_neg (by omega)]
/-! ## Every page but the last holds a bin -/

theorem new_settled {P : Type} (pk : Packer P) (gfxLoader : Nat → Nat → Option (Nat × Nat))
    (width height : Nat) : (TextureCache.new pk gfxLoader width height).Settled pk := by
  intro j page hj
  simp [TextureCache.new] at hj

/-- An attempt to pack on a page leaves the pages that hold a bin holding one. -/
theorem set_packOne_full {P : Type} (pk : Packer P) (hlaw : pk.KeepsBins) (pages : List P)
    (k w h : Nat) (hk : k < pages.length) (j : Nat) (q : P)
    (hq : (pages.set k (pk.packOne (pages[k]) w h).2)[j]? = some q) :
    ∃ q0, pages[j]? = some q0 ∧ (pk.empty q0 = false → pk.empty q = false) := by
  by_cases hj : j = k
  · subst hj
    rw [List.getElem?_set_self hk] at hq
    cases hq
    refine ⟨pages[j], List.getElem?_eq_getElem hk, ?_⟩
    intro hfull
    simp only [Packer.empty, Bool.not_eq_false'] at hfull ⊢
    exact hlaw _ w h 1 hfull
  · rw [List.getElem?_set_ne (fun h => hj h.symm)] at hq
    exact ⟨q, hq, id⟩

theorem settled_set {P : Type} (pk : Packer P) (hlaw : pk.KeepsBins) (c c' : TextureCache P)
    (k w h : Nat) (hk : k < c.pages.length)
    (hpages : c'.pages = c.pages.set k (pk.packOne (c.pages[k]) w h).2)
    (hs : c.Settled pk) : c'.Settled pk := by
  intro j q hj hq
  rw [hpages] at hj hq
  rw [List.length_set] at hj
  obtain ⟨q0, hq0, himp⟩ := set_packOne_full pk hlaw c.pages k w h hk j q hq
  exact himp (hs j q0 hj hq0)

/-- The loop of add keeps every page but the last holding a bin; when it ends without a
place for the rectangle, every page holds a bin. -/
theorem addLoop_settled {P : Type} (pk : Packer P) (hlaw : pk.KeepsBins)
    (fileID resourceID w h : Nat) :
    ∀ (n k : Nat) (c : TextureCache P), c.Settled pk →
    (∀ (j : Nat) (q : P), j < k → c.pages[j]? = some q → pk.empty q = false) →
    k + n = c.pages.length →
    (∀ c' asset, TextureCache.addLoop pk fileID resourceID w h n k c = .ok (c', some asset) →
      c'.Settled pk) ∧
    (∀ c', TextureCache.addLoop pk fileID resourceID w h n k c = .ok (c', none) →
      ∀ (j : Nat) (q : P), c'.pages[j]? = some q → pk.empty q = false) ∧
    (∀ message c', TextureCache.addLoop pk fileID resourceID w h n k c = .error (message, c') →
      c'.Settled pk) := by
  intro n
  induction n with
  | zero =>
    intro k c hs hfull hlen
    simp only [TextureCache.addLoop]
    refine ⟨?_, ?_, ?_⟩
    · intro c' asset hrun
      cases hrun
    · intro c' hrun
      cases hrun
      intro j q hq
      have hj : j < c.pages.length := by
        by_contra hge
        rw [List.getElem?_eq_none (by omega)] at hq
        cases hq
      exact hfull j q (by omega) hq
    · intro message c' hrun
      cases hrun
  | succ n ih =>
    intro k c hs hfull hlen
    have hk : k < c.pages.length := by omega
    cases hp : (pk.packOne (c.pages[k]) w h).1 with
    | some bin =>
      rw [TextureCache.addLoop,
        addToPage_fit pk c k fileID resourceID w h _ bin (List.getElem?_eq_getElem hk) hp]
      refine ⟨?_, ?_, ?_⟩
      · intro c' asset hrun
        cases hrun
        exact settled_set pk hlaw c _ k w h hk rfl hs
      · intro c' hrun
        cases hrun
      · intro message c' hrun
        cases hrun
    | none =>
      rw [TextureCache.addLoop,
        addToPage_fail pk c k fileID resourceID w h _ (List.getElem?_eq_getElem hk) hp]
      have hs1 : TextureCache.Settled pk
          { c with pages := c.pages.set k (pk.packOne (c.pages[k]) w h).2 } :=
        settled_set pk hlaw c _ k w h hk rfl hs
      cases hempty : pk.empty (pk.packOne (c.pages[k]) w h).2 with
      | true =>
        simp only [List.getElem?_set_self hk, Option.map_some', hempty, if_true]
        refine ⟨?_, ?_, ?_⟩
        · intro c' asset hrun
          cases hrun
        · intro c' hrun
          cases hrun
        · intro message c' hrun
          cases hrun
          exact hs1
      | false =>
        simp only [List.getElem?_set_self hk, Option.map_some', hempty, Option.some.injEq,
          Bool.false_eq_true, if_false]
        refine ih (k + 1) _ hs1 ?_ (by simp only [List.length_set]; omega)
        intro j q hj hq
        by_cases hjk : j = k
        · subst hjk
          simp only [List.getElem?_set_self hk, Option.some.injEq] at hq
          rw [← hq]
          exact hempty
        · simp only [List.getElem?_set_ne (fun h => hjk h.symm)] at hq
          exact hfull j q (by omega) hq

/-- Whether add returns or throws, every page but the last holds a bin afterwards when
it was so before. -/
theorem add_settled {P : Type} (pk : Packer P) (hlaw : pk.KeepsBins) (fileID resourceID : Nat) :
    ∀ (fuel : Nat) (c : TextureCache P), c.Settled pk →
    ∀ out, TextureCache.add pk fuel c fileID resourceID = some out →
      (TextureCache.outcome out).Settled pk := by
  intro fuel
  induction fuel with
  | zero =>
    intro c _ out hrun
    simp [TextureCache.add] at hrun
  | succ fuel ih =>
    intro c hs out hrun
    simp only [TextureCache.add, TextureCache.addBody] at hrun
    cases hinfo : c.gfxLoader fileID resourceID with
    | none =>
      simp only [hinfo, Option.some.injEq] at hrun
      subst hrun
      exact hs
    | some info =>
      simp only [hinfo] at hrun
      obtain ⟨h1, h2, h3⟩ := addLoop_settled pk hlaw fileID resourceID info.1 info.2
        c.pages.length 0 c hs (fun j q hj => absurd hj (Nat.not_lt_zero j)) (by omega)
      cases hloop : TextureCache.addLoop pk fileID resourceID info.1 info.2 c.pages.length 0 c with
      | error e =>
        obtain ⟨message, c'⟩ := e
        simp only [hloop, Option.some.injEq] at hrun
        subst hrun
        exact h3 message c' hloop
      | ok r =>
        obtain ⟨c', asset⟩ := r
        cases asset with
        | some asset =>
          simp only [hloop, Option.some.injEq] at hrun
          subst hrun
          exact h1 c' asset hloop
        | none =>
          simp only [hloop] at hrun
          refine ih (TextureCache.addPage pk c') ?_ out hrun
          intro j q hj hq
          simp only [TextureCache.addPage, List.length_append, List.length_singleton] at hj hq
          rw [List.getElem?_append_left (by omega)] at hq
          exact h2 c' hloop j q hq

theorem shelfPacker_keepsBins : shelfPacker.KeepsBins := by
  intro page w h id hin
  simp only [shelfPacker, ShelfPack.packOne, List.any_eq_true] at hin ⊢
  obtain ⟨bin, hbin, hid⟩ := hin
  split
  · exact ⟨bin, List.mem_append_left _ hbin, hid⟩
  · split
    · exact ⟨bin, List.mem_append_left _ hbin, hid⟩
    · exact ⟨bin, hbin, hid⟩
/-- The lookup in the Map after `set`. -/
theorem assetsGet_assetsSet (assets : List ((Nat × Nat) × Nat)) (key key' : Nat × Nat)
    (entry : Nat) :
    ((TextureCache.assetsSet assets key entry).find? fun kv => decide (kv.1 = key')).map
        (fun kv => kv.2)
      = if key' = key then some entry
        else (assets.find? fun kv => decide (kv.1 = key')).map fun kv => kv.2 := by
  unfold TextureCache.assetsSet
  split
  · rename_i hany
    induction assets with
    | nil => simp at hany
    | cons a rest ih =>
      by_cases ha : a.1 = key
      · by_cases hk : key' = key
        · simp [List.find?_cons, ha, hk]
        · have hk2 : ¬ key = key' := fun h => hk h.symm
          have hk3 : ¬ a.1 = key' := by rw [ha]; exact hk2
          simp only [List.map_cons, ha, if_true, List.find?_cons, hk2, decide_False, hk,
            if_false, hk3]
          by_cases hrest : rest.any (fun kv => decide (kv.1 = key)) = true
          · have := ih hrest
            rw [if_neg hk] at this
            exact this
          · have hsame : (rest.map fun kv => if kv.1 = key then (key, entry) else kv) = rest := by
              conv_rhs => rw [← List.map_id rest]
              apply List.map_congr_left
              intro kv hkv
              have : ¬ kv.1 = key := by
                intro h
                exact hrest (List.any_eq_true.2 ⟨kv, hkv, by simp [h]⟩)
              simp [this]
            rw [hsame]
      · have hrest : rest.any (fun kv => decide (kv.1 = key)) = true := by
          simpa [List.any_cons, ha] using hany
        have := ih hrest
        by_cases hk : key' = key
        · have hk3 : ¬ a.1 = key' := by rw [hk]; exact ha
          simp only [List.map_cons, ha, if_false, List.find?_cons, hk3, decide_False]
          rw [this]
        · by_cases hak : a.1 = key'
          · simp [List.find?_cons, ha, hak, hk]
          · simp only [List.map_cons, ha, if_false, List.find?_cons, hak, decide_False]
            rw [this]
  · rename_i hany
    have hnone : ∀ kv ∈ assets, ¬ kv.1 = key := by
      intro kv hkv h
      exact hany (List.any_eq_true.2 ⟨kv, hkv, by simp [h]⟩)
    rw [List.find?_append]
    by_cases hk : key' = key
    · subst hk
      have : assets.find? (fun kv => decide (kv.1 = key')) = none := by
        rw [List.find?_eq_none]
        intro kv hkv
        simpa using hnone kv hkv
      simp [this]
    · have hk2 : ¬ key = key' := fun h => hk h.symm
      simp only [hk, if_false, List.find?_cons, hk2, decide_False, List.find?_nil,
        Option.or_none]

/-- C15: the cache runs on a bin packer whose packOne takes no bin away, and every page
but the last holds a bin, as it is after the constructor and after every add. When the
metadata of a resource is unavailable, add returns no entry and the cache is unchanged.
When it is available and page `i` is the first page whose packOne takes the rectangle,
add returns a new entry with the data of the resource, page `i`, the bin of that page
and refCount 0; the number of pages is the same, page `i` is the page after its packOne
and the pages after it are untouched; the Map holds the entry under the key of the
resource, at its end when the resource was uncached, and every other key as before; the
entry is appended to the pending queue. -/
theorem C15_first_fit {P : Type} (pk : Packer P) (c : TextureCache P)
    (fileID resourceID fuel : Nat) (hlaw : pk.KeepsBins) (hsettled : c.Settled pk) :
    (c.gfxLoader fileID resourceID = none →
      TextureCache.add pk (fuel + 1) c fileID resourceID = some (.ok (c, none))) ∧
    (∀ (w h i : Nat) (page : P) (bin : Bin),
      c.gfxLoader fileID resourceID = some (w, h) →
      c.pages[i]? = some page → (pk.packOne page w h).1 = some bin →
      (∀ (j : Nat) (q : P), j < i → c.pages[j]? = some q → (pk.packOne q w h).1 = none) →
      ∃ c', TextureCache.add pk (fuel + 1) c fileID resourceID
          = some (.ok (c', some c.nextEntry)) ∧
        c'.entries c.nextEntry = ⟨⟨fileID, resourceID, w, h⟩, i, bin, 0⟩ ∧
        (∀ e, e ≠ c.nextEntry → c'.entries e = c.entries e) ∧
        c'.nextEntry = c.nextEntry + 1 ∧
        c'.pages.length = c.pages.length ∧
        c'.pages[i]? = some (pk.packOne page w h).2 ∧
        (∀ j : Nat, i < j → c'.pages[j]? = c.pages[j]?) ∧
        (∀ key, c'.assetsGet key
          = if key = (fileID, resourceID) then some c.nextEntry else c.assetsGet key) ∧
        (c.assetsGet (fileID, resourceID) = none →
          c'.assets = c.assets ++ [((fileID, resourceID), c.nextEntry)]) ∧
        c'.pending = c.pending ++ [c.nextEntry] ∧
        c'.Settled pk) := by
  refine ⟨?_, ?_⟩
  · intro hinfo
    simp only [TextureCache.add, TextureCache.addBody, hinfo]
  · intro w h i page bin hinfo hpage hfit hfirst
    have hi : i < c.pages.length := by
      by_contra hge
      rw [List.getElem?_eq_none (by omega)] at hpage
      cases hpage
    obtain ⟨pages, hrun, hlen, hpages⟩ := addLoop_first_fit pk fileID resourceID w h bin page
      i 0 c.pages.length c hi (by rw [Nat.zero_add]; exact hpage) hfit
      (by
        intro j q _ hj hq
        rw [Nat.zero_add] at hj
        refine ⟨hfirst j q hj hq, ?_⟩
        have hfull := hsettled j q (by omega) hq
        simp only [Packer.empty, Bool.not_eq_false'] at hfull ⊢
        exact hlaw q w h 1 hfull)
    rw [Nat.zero_add] at hrun
    have hbody : ∀ c', TextureCache.addLoop pk fileID resourceID w h c.pages.length 0 c
          = .ok (c', some c.nextEntry) →
        TextureCache.add pk (fuel + 1) c fileID resourceID = some (.ok (c', some c.nextEntry)) := by
      intro c' hloop
      simp only [TextureCache.add, TextureCache.addBody, hinfo, hloop]
    have hadd := hbody _ hrun
    have hsettled' := add_settled pk hlaw fileID resourceID (fuel + 1) c hsettled _ hadd
    refine ⟨_, hadd, ?_, ?_, rfl, hlen, ?_, ?_, ?_, ?_, rfl, hsettled'⟩
    · show Function.update c.entries c.nextEntry _ c.nextEntry = _
      rw [Function.update_same]
    · intro e he
      show Function.update c.entries c.nextEntry _ e = _
      rw [Function.update_noteq he]
    · show pages[i]? = _
      rw [hpages i, if_pos (by omega), hpage]
      rfl
    · intro j hj
      show pages[j]? = _
      rw [hpages j, if_neg (by omega)]
    · intro key
      exact assetsGet_assetsSet c.assets (fileID, resourceID) key c.nextEntry
    · intro hnew
      show TextureCache.assetsSet c.assets (fileID, resourceID) c.nextEntry = _
      have hany : ¬ (c.assets.any (fun kv => decide (kv.1 = (fileID, resourceID))) = true) := by
        intro hany
        obtain ⟨kv, hkv, hk⟩ := List.any_eq_true.1 hany
        simp only [TextureCache.assetsGet, Option.map_eq_none', TextureCache.makeAssetKey] at hnew
        rw [List.find?_eq_none] at hnew
        exact hnew kv hkv hk
      simp only [TextureCache.assetsSet, TextureCache.makeAssetKey, hany, if_false]
      rfl

/-- C15 at work: the first page of the sample cache with two pages is full and the second
one has room, so the resource (3, 104) gets the entry 3 on page 1 with bin 2 at (64, 0)
and refCount 0, the cache still has two pages, and the entry is pending and in the Map;
a resource of file 4 has no metadata and leaves the cache as it is. -/
theorem C15_first_fit_witness :
    TextureCache.add shelfPacker 1 twoPageCache 4 101 = some (.ok (twoPageCache, none)) ∧
    ∃ c', TextureCache.add shelfPacker 1 twoPageCache 3 104 = some (.ok (c', some 3)) ∧
      c'.entries 3 = ⟨⟨3, 104, 64, 64⟩, 1, ⟨2, 64, 0, 64, 64⟩, 0⟩ ∧
      c'.pages.length = 2 ∧
      c'.assetsGet (3, 104) = some 3 ∧
      c'.pending = [3] := by
  have hsettled : twoPageCache.Settled shelfPacker := by
    intro j page hj hq
    have hj0 : j = 0 := by
      simp only [twoPageCache, TextureCache.new, List.length_cons, List.length_nil] at hj
      omega
    subst hj0
    simp only [twoPageCache, TextureCache.new, List.getElem?_cons_zero, Option.some.injEq] at hq
    subst hq
    decide
  refine ⟨(C15_first_fit shelfPacker twoPageCache 4 101 0 shelfPacker_keepsBins hsettled).1
    (by decide), ?_⟩
  obtain ⟨c', hadd, hentry, _, _, hlen, _, _, hget, _, hpending, _⟩ :=
    (C15_first_fit shelfPacker twoPageCache 3 104 0 shelfPacker_keepsBins hsettled).2
      64 64 1 ⟨128, 64, [⟨0, 64, 64⟩], [⟨1, 0, 0, 64, 64⟩], 1⟩ ⟨2, 64, 0, 64, 64⟩
      (by decide) (by decide) (by decide)
      (by
        intro j q hj hq
        have hj0 : j = 0 := by omega
        subst hj0
        simp only [twoPageCache, TextureCache.new, List.getElem?_cons_zero,
          Option.some.injEq] at hq
        subst hq
        decide)
  exact ⟨c', hadd, hentry, hlen, by rw [hget]; rfl, hpending⟩

/-! ## The index of a slot -/

/-- C22: on a map of width W the index of a slot is (y W + x) 15 + layer, and for
columns below W and layers 0..14 equal indices mean the same column, row and layer; so
tileGraphics has one slot for each (x, y, layer), and in a consistent state setTileGraphic
on one slot fills or empties that slot and leaves the content of every other slot. -/
theorem C22_index_identifies_slot (m : EOMap) (x y layer x' y' layer' : Nat)
    (hx : x < m.emf.width) (hx' : x' < m.emf.width) (hl : layer ≤ 14) (hl' : layer' ≤ 14) :
    m.getTileGraphicIndex x y layer = (y * m.emf.width + x) * 15 + layer ∧
    (m.getTileGraphicIndex x y layer = m.getTileGraphicIndex x' y' layer' →
      x = x' ∧ y = y' ∧ layer = layer') ∧
    (m.Consistent → (x, y, layer) ≠ (x', y', layer') →
      ∀ cacheEntry modifyRenderList, ∃ m',
        m.setTileGraphic x y layer cacheEntry modifyRenderList = .ok m' ∧
        m'.tileGraphics (m'.getTileGraphicIndex x y layer)
          = cacheEntry.map (fun _ => m.nextGraphic) ∧
        m'.tileGraphics (m'.getTileGraphicIndex x' y' layer')
          = m.tileGraphics (m.getTileGraphicIndex x' y' layer')) := by
  have hinj : m.getTileGraphicIndex x y layer = m.getTileGraphicIndex x' y' layer' →
      x = x' ∧ y = y' ∧ layer = layer' :=
    getTileGraphicIndex_inj m hx hx' (by omega) (by omega)
  refine ⟨rfl, hinj, ?_⟩
  intro hc hne ce mod
  obtain ⟨m', hrun, _, hslots, hemf, _⟩ := setTileGraphic_consistent hc x y layer ce mod
  refine ⟨m', hrun, ?_, ?_⟩
  · simp only [EOMap.getTileGraphicIndex, hemf, hslots]
    exact Function.update_same _ _ _
  · have hidx : m.getTileGraphicIndex x' y' layer' ≠ m.getTileGraphicIndex x y layer := by
      intro h
      obtain ⟨rfl, rfl, rfl⟩ := hinj h.symm
      exact hne rfl
    simp only [EOMap.getTileGraphicIndex, hemf, hslots]
    exact Function.update_noteq hidx _ _

/-- C22 at work on the 4 by 4 map: the slots (3, 0, 14) and (0, 1, 0) have the
neighbouring indices 59 and 60, and a graphic set at the first one leaves the second
one empty. -/
theorem C22_index_identifies_slot_witness :
    (EOMap.init sampleCache (sampleEntries 32) (emptyEmf 4 4) (fun _ => true)).getTileGraphicIndex
      3 0 14 = 59 ∧
    (EOMap.init sampleCache (sampleEntries 32) (emptyEmf 4 4) (fun _ => true)).getTileGraphicIndex
      0 1 0 = 60 ∧
    ∃ m', (EOMap.init sampleCache (sampleEntries 32) (emptyEmf 4 4)
        (fun _ => true)).setTileGraphic 3 0 14 (some 7) none = .ok m' ∧
      m'.tileGraphics (m'.getTileGraphicIndex 3 0 14) = some 0 ∧
      m'.tileGraphics (m'.getTileGraphicIndex 0 1 0) = none := by
  have h := C22_index_identifies_slot
    (EOMap.init sampleCache (sampleEntries 32) (emptyEmf 4 4) (fun _ => true))
    3 0 14 0 1 0 (by decide) (by decide) (by decide) (by decide)
  obtain ⟨m', hrun, h1, h2⟩ := h.2.2 (init_consistent _ _ _ _) (by decide) (some 7) none
  exact ⟨h.1, rfl, m', hrun, h1, h2⟩
/-! ## The place of a new graphic -/

/-- The loop of updateEntityOffsets leaves the y of a graphic that no entity slot of the
tile holds. -/
theorem updateEntityOffsets_y (m : EOMap) (x y r : Nat)
    (h : ∀ l ∈ [11, 12, 13, 14], m.tileGraphics (m.getTileGraphicIndex x y l) ≠ some r) :
    ((m.updateEntityOffsets x y).graphics r).y = (m.graphics r).y := by
  have key : ∀ (ls : List Nat) (acc : (Nat → TileGraphic) × Int),
      (∀ l ∈ ls, m.tileGraphics (m.getTileGraphicIndex x y l) ≠ some r) →
      ((ls.foldl (m.entityOffsetStep x y) acc).1 r).y = (acc.1 r).y := by
    intro ls
    induction ls with
    | nil => intro acc _; rfl
    | cons l rest ih =>
      intro acc hls
      rw [List.foldl_cons, ih _ (fun l' hl' => hls l' (List.mem_cons_of_mem _ hl'))]
      have hl := hls l (List.mem_cons_self _ _)
      unfold EOMap.entityOffsetStep
      split
      · rename_i e he
        have hre : r ≠ e := by
          rintro rfl
          exact hl he
        simp [Function.update_noteq hre]
      · rfl
  exact key _ _ h

/-- The state createGraphic builds before it looks at the entity offsets: the new slot,
the new TileGraphic and the map data. -/
theorem createGraphic_eq (m : EOMap) (x y layer e : Nat) (mod : Bool) :
    ∃ pre : EOMap,
      m.createGraphic x y layer e mod
        = (if layer = 1 then pre.updateEntityOffsets x y else pre) ∧
      pre.tileGraphics
        = Function.update m.tileGraphics (m.getTileGraphicIndex x y layer) (some m.nextGraphic) ∧
      pre.emf = m.emf ∧
      pre.graphics m.nextGraphic
        = ⟨e,
          if (layerAt layer).centered
            then (layerAt layer).xoff + (x : Int) * 32 - (y : Int) * 32
              - ((((m.entries e).data.width / 2 : Nat) : Int) - 32)
            else (layerAt layer).xoff + (x : Int) * 32 - (y : Int) * 32,
          if (layerAt layer).bottomOrigin
            then (layerAt layer).yoff + (x : Int) * 16 + (y : Int) * 16
              - (((m.entries e).data.height : Int) - 32)
            else (layerAt layer).yoff + (x : Int) * 16 + (y : Int) * 16,
          layer, EOMap.calcDepth x y layer, m.calcAlpha layer⟩ := by
  have hdata : (Function.update m.entries e (m.entries e).incRef e).data = (m.entries e).data := by
    rw [Function.update_same]
    rfl
  unfold EOMap.createGraphic
  cases mod
  · simp only [Bool.false_eq_true, if_false]
    refine ⟨_, rfl, rfl, rfl, ?_⟩
    simp only [Function.update_same, hdata, EOMap.calcAlpha]
    rfl
  · simp only [if_true]
    refine ⟨_, rfl, rfl, rfl, ?_⟩
    simp only [Function.update_same, hdata, EOMap.calcAlpha]
    rfl

/-- The TileGraphic createGraphic makes: its slot, cache entry, layer and place. -/
theorem createGraphic_placed (m : EOMap) (hf : m.SlotsFresh) (x y layer e : Nat)
    (mod : Bool) :
    (m.createGraphic x y layer e mod).tileGraphics (m.getTileGraphicIndex x y layer)
      = some m.nextGraphic ∧
    ((m.createGraphic x y layer e mod).graphics m.nextGraphic).cacheEntry = e ∧
    ((m.createGraphic x y layer e mod).graphics m.nextGraphic).layer = layer ∧
    ((m.createGraphic x y layer e mod).graphics m.nextGraphic).x
      = (layerAt layer).xoff + 32 * (x : Int) - 32 * (y : Int)
        - (if (layerAt layer).centered
            then (((m.entries e).data.width / 2 : Nat) : Int) - 32 else 0) ∧
    ((m.createGraphic x y layer e mod).graphics m.nextGraphic).y
      = (layerAt layer).yoff + 16 * (x : Int) + 16 * (y : Int)
        - (if (layerAt layer).bottomOrigin
            then ((m.entries e).data.height : Int) - 32 else 0) := by
  obtain ⟨pre, hrun, hslots, hemf, hnew⟩ := createGraphic_eq m x y layer e mod
  have hx : (pre.graphics m.nextGraphic).x
      = (layerAt layer).xoff + 32 * (x : Int) - 32 * (y : Int)
        - (if (layerAt layer).centered
            then (((m.entries e).data.width / 2 : Nat) : Int) - 32 else 0) := by
    rw [hnew]
    dsimp only
    split_ifs <;> ring
  have hy : (pre.graphics m.nextGraphic).y
      = (layerAt layer).yoff + 16 * (x : Int) + 16 * (y : Int)
        - (if (layerAt layer).bottomOrigin
            then ((m.entries e).data.height : Int) - 32 else 0) := by
    rw [hnew]
    dsimp only
    split_ifs <;> ring
  have hce : (pre.graphics m.nextGraphic).cacheEntry = e := by rw [hnew]
  have hla : (pre.graphics m.nextGraphic).layer = layer := by rw [hnew]
  have hslot : pre.tileGraphics (m.getTileGraphicIndex x y layer) = some m.nextGraphic := by
    rw [hslots, Function.update_same]
  by_cases h1 : layer = 1
  · rw [hrun, if_pos h1]
    obtain ⟨f1, f2, _, _, f5⟩ := updateEntityOffsets_frame pre x y m.nextGraphic
    refine ⟨hslot, f1.trans hce, f2.trans hla, f5.trans hx, ?_⟩
    rw [updateEntityOffsets_y pre x y m.nextGraphic ?_]
    · exact hy
    · intro l hl' hheld
      have hidx : pre.getTileGraphicIndex x y l ≠ m.getTileGraphicIndex x y layer := by
        simp only [EOMap.getTileGraphicIndex, hemf, h1]
        simp only [List.mem_cons, List.mem_singleton, List.not_mem_nil, or_false] at hl'
        omega
      rw [hslots, Function.update_noteq hidx] at hheld
      have := hf _ _ hheld
      omega
  · rw [hrun, if_neg h1]
    exact ⟨hslot, hce, hla, hx, hy⟩

/-- C25: in a consistent state, setTileGraphic with a cache entry whose asset is w by h
pixels returns, and the TileGraphic the slot then holds has that cache entry and layer,
x = xoff + 32 x - 32 y, less floor(w / 2) - 32 on a centered layer,
y = yoff + 16 x + 16 y, less h - 32 on a bottom-origin layer, with xoff, yoff, centered
and bottomOrigin from the entry of the layer in layerInfo, and width w and height h. -/
theorem C25_tile_graphic_position (m : EOMap) (hc : m.Consistent) (x y layer e : Nat)
    (modifyRenderList : Option Bool) (hl : layer ≤ 10) :
    ∃ m' g, m.setTileGraphic x y layer (some e) modifyRenderList = .ok m' ∧
      m'.tileGraphics (m'.getTileGraphicIndex x y layer) = some g ∧
      (m'.graphics g).cacheEntry = e ∧
      (m'.graphics g).layer = layer ∧
      (m'.graphics g).x
        = (layerAt layer).xoff + 32 * (x : Int) - 32 * (y : Int)
          - (if (layerAt layer).centered
              then (((m.entries e).data.width / 2 : Nat) : Int) - 32 else 0) ∧
      (m'.graphics g).y
        = (layerAt layer).yoff + 16 * (x : Int) + 16 * (y : Int)
          - (if (layerAt layer).bottomOrigin
              then ((m.entries e).data.height : Int) - 32 else 0) ∧
      m'.width (m'.graphics g) = (m.entries e).data.width ∧
      m'.height (m'.graphics g) = (m.entries e).data.height ∧
      layerInfo[layer]? = some (layerAt layer) := by
  have hsize : ∀ (m0 : EOMap), (m0.entries e).data = (m.entries e).data →
      m0.SlotsFresh →
      (m0.createGraphic x y layer e (modifyRenderList.getD true)).width
          ((m0.createGraphic x y layer e (modifyRenderList.getD true)).graphics m0.nextGraphic)
        = (m.entries e).data.width ∧
      (m0.createGraphic x y layer e (modifyRenderList.getD true)).height
          ((m0.createGraphic x y layer e (modifyRenderList.getD true)).graphics m0.nextGraphic)
        = (m.entries e).data.height := by
    intro m0 hdata hf0
    have hce := (createGraphic_placed m0 hf0 x y layer e (modifyRenderList.getD true)).2.1
    have hent := (createGraphic_frame m0 x y layer e (modifyRenderList.getD true)).2.2.1
    simp only [EOMap.width, EOMap.height, hce, hent, Function.update_same]
    exact ⟨congrArg AssetData.width hdata, congrArg AssetData.height hdata⟩
  have hemf : ∀ (m0 : EOMap),
      (m0.createGraphic x y layer e (modifyRenderList.getD true)).getTileGraphicIndex x y layer
        = m0.getTileGraphicIndex x y layer := by
    intro m0
    simp only [EOMap.getTileGraphicIndex,
      (createGraphic_frame m0 x y layer e (modifyRenderList.getD true)).2.2.2.1]
  have hlen : layerInfo[layer]? = some (layerAt layer) := by
    interval_cases layer <;> rfl
  cases hslot : m.tileGraphics (m.getTileGraphicIndex x y layer) with
  | none =>
    rw [setTileGraphic_empty_slot m x y layer (some e) modifyRenderList hslot]
    obtain ⟨p1, p2, p3, p4, p5⟩ :=
      createGraphic_placed m hc.fresh x y layer e (modifyRenderList.getD true)
    obtain ⟨s1, s2⟩ := hsize m rfl hc.fresh
    exact ⟨_, m.nextGraphic, rfl, by rw [hemf]; exact p1, p2, p3, p4, p5, s1, s2, hlen⟩
  | some old =>
    rw [setTileGraphic_full_slot m x y layer (some e) modifyRenderList old hslot
      (hc.refCount_ne_zero hslot)]
    have hf := (dropGraphic_consistent hc hslot).fresh
    have hdata : ((m.dropGraphic (m.getTileGraphicIndex x y layer) old
        (released (m.entries (m.graphics old).cacheEntry))).entries e).data
        = (m.entries e).data := by
      show (Function.update m.entries (m.graphics old).cacheEntry _ e).data = _
      by_cases he : e = (m.graphics old).cacheEntry
      · subst he
        rw [Function.update_same]
        rfl
      · rw [Function.update_noteq he]
    obtain ⟨p1, p2, p3, p4, p5⟩ := createGraphic_placed _ hf x y layer e (modifyRenderList.getD true)
    obtain ⟨s1, s2⟩ := hsize _ hdata hf
    rw [hdata] at p4 p5
    exact ⟨_, m.nextGraphic, rfl, by rw [hemf]; exact p1, p2, p3, p4, p5, s1, s2, hlen⟩

/-- C25 at work on the empty 4 by 4 map: the object graphic of 64 by 96 pixels set at
tile (1, 2) on the centered, bottom-origin layer 1 is placed at (-34, -18). -/
theorem C25_tile_graphic_position_witness :
    ∃ m' g, (EOMap.init sampleCache (sampleEntries 32) (emptyEmf 4 4)
        (fun _ => true)).setTileGraphic 1 2 1 (some 2) none = .ok m' ∧
      m'.tileGraphics (m'.getTileGraphicIndex 1 2 1) = some g ∧
      (m'.graphics g).x = -34 ∧ (m'.graphics g).y = -18 ∧
      m'.width (m'.graphics g) = 64 ∧ m'.height (m'.graphics g) = 96 := by
  obtain ⟨m', g, hrun, hslot, _, _, hx, hy, hw, hh, _⟩ := C25_tile_graphic_position
    (EOMap.init sampleCache (sampleEntries 32) (emptyEmf 4 4) (fun _ => true))
    (init_consistent _ _ _ _) 1 2 1 2 none (by decide)
  exact ⟨m', g, hrun, hslot, hx.trans (by decide), hy.trans (by decide), hw.trans (by decide),
    hh.trans (by decide)⟩
/-! ## The section grid and the ground tiles -/

theorem mem_loopRange (lo hi v : Int) : v ∈ EOMap.loopRange lo hi ↔ lo ≤ v ∧ v ≤ hi := by
  unfold EOMap.loopRange
  rw [List.mem_map]
  constructor
  · rintro ⟨i, hi', rfl⟩
    simp at hi'
    obtain ⟨a, ha, rfl⟩ := hi'
    have h2 : (0 : Int) ≤ (a : Int) := Int.ofNat_nonneg a
    constructor <;> linarith
  · rintro ⟨h1, h2⟩
    refine ⟨v - lo, ?_, by ring⟩
    simp
    exact ⟨(v - lo).toNat, by rw [Int.toNat_of_nonneg (by linarith)]; linarith,
      (Int.toNat_of_nonneg (by linarith)).symm⟩

/-- The sections findSections gives are the cells of the clamped ranges of rows and
columns. -/
theorem mem_findSections (m : EOMap) (g : TileGraphic) (s : Nat) :
    s ∈ m.findSections g ↔ ∃ r c : Int,
      max 0 (Int.tdiv g.y 256) ≤ r ∧
      r ≤ max 0 (min ((m.sectionHeight : Int) - 1) (Int.tdiv (g.y + (m.height g : Int)) 256)) ∧
      max 0 (Int.tdiv (g.x + (m.emf.width : Int) * 32) 256) ≤ c ∧
      c ≤ max 0 (min ((m.sectionWidth : Int) - 1)
        (Int.tdiv (g.x + (m.emf.width : Int) * 32 + (m.width g : Int)) 256)) ∧
      s = m.getSection c.toNat r.toNat := by
  simp only [EOMap.findSections, SECTION_SIZE, List.mem_flatMap, List.mem_map, mem_loopRange,
    Nat.cast_ofNat]
  constructor
  · rintro ⟨r, ⟨hr1, hr2⟩, c, ⟨hc1, hc2⟩, rfl⟩
    exact ⟨r, c, hr1, hr2, hc1, hc2, rfl⟩
  · rintro ⟨r, c, hr1, hr2, hc1, hc2, rfl⟩
    exact ⟨r, ⟨hr1, hr2⟩, c, ⟨hc1, hc2⟩, rfl⟩

theorem tdiv_nonpos_of_nonpos (a : Int) (h : a ≤ 0) : Int.tdiv a 256 ≤ 0 := by
  have h1 : a = -(-a) := by omega
  rw [h1, Int.neg_tdiv]
  have := Int.tdiv_nonneg (a := -a) (b := 256) (by omega) (by omega)
  omega

/-- C21, as stated, fails. On the 4 by 4 map (one column of sections, 256 wide) the ground
tile (3, 0), offset by 128, spans [224, 288]: its right edge lies beyond the grid, and
findSections clamps its last column 1 to the column 0. On the 1 by 3 map the ground tile
(0, 2), offset by 32, starts at -32. -/
theorem C21_ground_tile_beyond_grid :
    (∃ m0 m g,
      EOMap.new sampleCache (sampleEntries 32) (emptyEmf 4 4) (fun _ => true) = .ok m0 ∧
      m0.draw 3 0 (some 1) 0 none = .ok m ∧
      m.tileGraphics (m.getTileGraphicIndex 3 0 0) = some g ∧
      ((m.graphics g).x + 32 * (m.emf.width : Int), (m.graphics g).y,
        m.width (m.graphics g), m.height (m.graphics g)) = (224, 48, 64, 32) ∧
      (m.sectionWidth, m.sectionHeight) = (1, 1) ∧
      256 * (m.sectionWidth : Int)
        < (m.graphics g).x + 32 * (m.emf.width : Int) + (m.width (m.graphics g) : Int) ∧
      Int.tdiv ((m.graphics g).x + 32 * (m.emf.width : Int) + (m.width (m.graphics g) : Int))
        256 = 1 ∧
      m.findSections (m.graphics g) = [0]) ∧
    (∃ m0 m g,
      EOMap.new sampleCache (sampleEntries 32) (emptyEmf 1 3) (fun _ => true) = .ok m0 ∧
      m0.draw 0 2 (some 1) 0 none = .ok m ∧
      m.tileGraphics (m.getTileGraphicIndex 0 2 0) = some g ∧
      (m.graphics g).x + 32 * (m.emf.width : Int) = -32) := by
  constructor
  · have h : checkOk (EOMap.new sampleCache (sampleEntries 32) (emptyEmf 4 4) (fun _ => true))
        (fun m0 => checkOk (m0.draw 3 0 (some 1) 0 none)
          (fun m => decide (m.tileGraphics (m.getTileGraphicIndex 3 0 0) = some 0 ∧
            ((m.graphics 0).x + 32 * (m.emf.width : Int), (m.graphics 0).y,
              m.width (m.graphics 0), m.height (m.graphics 0)) = (224, 48, 64, 32) ∧
            (m.sectionWidth, m.sectionHeight) = (1, 1) ∧
            256 * (m.sectionWidth : Int)
              < (m.graphics 0).x + 32 * (m.emf.width : Int) + (m.width (m.graphics 0) : Int) ∧
            Int.tdiv ((m.graphics 0).x + 32 * (m.emf.width : Int)
              + (m.width (m.graphics 0) : Int)) 256 = 1 ∧
            m.findSections (m.graphics 0) = [0]))) = true := by
      decide!
    obtain ⟨m0, h0, hm0⟩ := checkOk_elim h
    obtain ⟨m, h1, hm⟩ := checkOk_elim hm0
    obtain ⟨a, b, c, d, e, f⟩ := of_decide_eq_true hm
    exact ⟨m0, m, 0, h0, h1, a, b, c, d, e, f⟩
  · have h : checkOk (EOMap.new sampleCache (sampleEntries 32) (emptyEmf 1 3) (fun _ => true))
        (fun m0 => checkOk (m0.draw 0 2 (some 1) 0 none)
          (fun m => decide (m.tileGraphics (m.getTileGraphicIndex 0 2 0) = some 0 ∧
            (m.graphics 0).x + 32 * (m.emf.width : Int) = -32))) = true := by
      decide!
    obtain ⟨m0, h0, hm0⟩ := checkOk_elim h
    obtain ⟨m, h1, hm⟩ := checkOk_elim hm0
    obtain ⟨a, b⟩ := of_decide_eq_true hm
    exact ⟨m0, m, 0, h0, h1, a, b⟩

/-- C21, amended: on a map of width W and height H with the section grid of the
constructor, take the rectangle of the ground tile (x, y) of the map: 64 by 32 pixels at
(32 x - 32 y, 16 x + 16 y). Its top edge is at least 0; its left edge, offset by 32 W, is at
most 64 W - 32 and so inside the grid, which is at least 64 W wide and 32 H high; the left
edge is at least 0 when H <= W + 1, and the bottom edge is at most 32 H when W <= H. Every
section findSections returns for it is a cell of the grid, and when W <= H it returns at
least one. -/
theorem C21_ground_tile_in_grid (m : EOMap) (x y : Nat) (g : TileGraphic)
    (hx : x < m.emf.width) (hy : y < m.emf.height)
    (hsw : m.sectionWidth = (m.emf.width * 64 + 255) / 256)
    (hsh : m.sectionHeight = (m.emf.height * 32 + 255) / 256)
    (hgx : g.x = 32 * (x : Int) - 32 * (y : Int)) (hgy : g.y = 16 * (x : Int) + 16 * (y : Int))
    (hgw : m.width g = 64) (hgh : m.height g = 32) :
    0 ≤ g.y ∧
    g.x + 32 * (m.emf.width : Int) ≤ 64 * (m.emf.width : Int) - 32 ∧
    64 * m.emf.width ≤ 256 * m.sectionWidth ∧
    32 * m.emf.height ≤ 256 * m.sectionHeight ∧
    (m.emf.height ≤ m.emf.width + 1 → 0 ≤ g.x + 32 * (m.emf.width : Int)) ∧
    (m.emf.width ≤ m.emf.height → g.y + 32 ≤ 32 * (m.emf.height : Int)) ∧
    (∀ s ∈ m.findSections g, ∃ cx cy,
      cx < m.sectionWidth ∧ cy < m.sectionHeight ∧ s = m.getSection cx cy) ∧
    (m.emf.width ≤ m.emf.height → m.findSections g ≠ []) := by
  have hSW : 1 ≤ m.sectionWidth := by omega
  have hSH : 1 ≤ m.sectionHeight := by omega
  refine ⟨by omega, by omega, by omega, by omega, fun h => by omega, fun h => by omega, ?_, ?_⟩
  · intro s hs
    obtain ⟨r, c, hr1, hr2, hc1, hc2, rfl⟩ := (mem_findSections m g s).1 hs
    refine ⟨c.toNat, r.toNat, ?_, ?_, rfl⟩
    · have h0 : (0 : Int) ≤ c := le_trans (le_max_left _ _) hc1
      have h1 : c ≤ (m.sectionWidth : Int) - 1 :=
        le_trans hc2 (max_le (by omega) (min_le_left _ _))
      omega
    · have h0 : (0 : Int) ≤ r := le_trans (le_max_left _ _) hr1
      have h1 : r ≤ (m.sectionHeight : Int) - 1 :=
        le_trans hr2 (max_le (by omega) (min_le_left _ _))
      omega
  · intro hWH hnil
    have hy0 : (0 : Int) ≤ g.y := by omega
    have htop : Int.tdiv g.y 256 = g.y / 256 := Int.tdiv_eq_ediv hy0 (by omega)
    have hbot : Int.tdiv (g.y + (m.height g : Int)) 256 = (g.y + (m.height g : Int)) / 256 :=
      Int.tdiv_eq_ediv (by omega) (by omega)
    have hrows : max 0 (Int.tdiv g.y 256)
        ≤ max 0 (min ((m.sectionHeight : Int) - 1)
          (Int.tdiv (g.y + (m.height g : Int)) 256)) := by
      rw [htop, hbot, hgh]
      refine max_le (le_max_left _ _) (le_trans (le_min ?_ ?_) (le_max_right _ _))
      · omega
      · push_cast
        omega
    have hcols : max 0 (Int.tdiv (g.x + (m.emf.width : Int) * 32) 256)
        ≤ max 0 (min ((m.sectionWidth : Int) - 1)
          (Int.tdiv (g.x + (m.emf.width : Int) * 32 + (m.width g : Int)) 256)) := by
      refine max_le (le_max_left _ _) ?_
      by_cases hneg : g.x + (m.emf.width : Int) * 32 ≤ 0
      · exact le_trans (tdiv_nonpos_of_nonpos _ hneg) (le_max_left _ _)
      · rw [Int.tdiv_eq_ediv (by omega) (by omega),
          Int.tdiv_eq_ediv (a := g.x + (m.emf.width : Int) * 32 + (m.width g : Int))
            (by omega) (by omega), hgw]
        refine le_trans (le_min ?_ ?_) (le_max_right _ _)
        · omega
        · push_cast
          omega
    have hmem : m.getSection
        (max 0 (Int.tdiv (g.x + (m.emf.width : Int) * 32) 256)).toNat
        (max 0 (Int.tdiv g.y 256)).toNat ∈ m.findSections g :=
      (mem_findSections m g _).2 ⟨_, _, le_refl _, hrows, le_refl _, hcols, rfl⟩
    rw [hnil] at hmem
    cases hmem

/-- C21 at work on the 4 by 4 map: the rectangle of the ground tile (3, 0), whose right
edge lies beyond the grid, gets the one section of the grid. -/
theorem C21_ground_tile_in_grid_witness :
    (EOMap.init sampleCache (sampleEntries 32) (emptyEmf 4 4) (fun _ => true)).findSections
      ⟨0, 96, 48, 0, 0, 1⟩ ≠ [] ∧
    ∀ s ∈ (EOMap.init sampleCache (sampleEntries 32) (emptyEmf 4 4)
        (fun _ => true)).findSections ⟨0, 96, 48, 0, 0, 1⟩,
      ∃ cx cy, cx < 1 ∧ cy < 1 ∧ s = cy * 1 + cx := by
  have h := C21_ground_tile_in_grid
    (EOMap.init sampleCache (sampleEntries 32) (emptyEmf 4 4) (fun _ => true))
    3 0 ⟨0, 96, 48, 0, 0, 1⟩ (by decide) (by decide) (by decide) (by decide) (by decide)
    (by decide) (by decide) (by decide)
  exact ⟨h.2.2.2.2.2.2.2 (by decide), h.2.2.2.2.2.2.1⟩

/-! ## Out of space -/

/-- The loop of add from page `k` on, when page `k + d` is the first one from there that
cannot pack the rectangle and reports itself empty, the pages before it holding a bin
after their failed attempt: the fatal error. -/
theorem addLoop_fatal {P : Type} (pk : Packer P) (fileID resourceID w h : Nat) (page : P) :
    ∀ (d k n : Nat) (c : TextureCache P), d < n →
    c.pages[k + d]? = some page → (pk.packOne page w h).1 = none →
    pk.empty (pk.packOne page w h).2 = true →
    (∀ (j : Nat) (q : P), k ≤ j → j < k + d → c.pages[j]? = some q →
      (pk.packOne q w h).1 = none ∧ pk.empty (pk.packOne q w h).2 = false) →
    ∃ pages : List P,
      TextureCache.addLoop pk fileID resourceID w h n k c
        = .error ("Failed to cache resource " ++ toString resourceID ++ " from file "
            ++ toString fileID, { c with pages := pages }) ∧
      pages.length = c.pages.length := by
  intro d
  induction d with
  | zero =>
    intro k n c hn hpage hfail hempty _
    obtain ⟨n, rfl⟩ : ∃ n', n = n' + 1 := ⟨n - 1, by omega⟩
    rw [Nat.add_zero] at hpage
    have hk : k < c.pages.length := by
      by_contra hge
      rw [List.getElem?_eq_none (by omega)] at hpage
      cases hpage
    refine ⟨c.pages.set k (pk.packOne page w h).2, ?_, by simp⟩
    rw [TextureCache.addLoop, addToPage_fail pk c k fileID resourceID w h page hpage hfail]
    simp [List.getElem?_set_self hk, hempty]
  | succ d ih =>
    intro k n c hn hpage hfail hempty hbefore
    obtain ⟨n, rfl⟩ : ∃ n', n = n' + 1 := ⟨n - 1, by omega⟩
    have hk : k < c.pages.length := by
      by_contra hge
      rw [List.getElem?_eq_none (by omega)] at hpage
      cases hpage
    obtain ⟨hfailk, hfull⟩ := hbefore k (c.pages[k]) (le_refl k) (by omega)
      (List.getElem?_eq_getElem hk)
    have hloop : TextureCache.addLoop pk fileID resourceID w h (n + 1) k c
        = TextureCache.addLoop pk fileID resourceID w h n (k + 1)
            { c with pages := c.pages.set k (pk.packOne (c.pages[k]) w h).2 } := by
      rw [TextureCache.addLoop,
        addToPage_fail pk c k fileID resourceID w h _ (List.getElem?_eq_getElem hk) hfailk]
      simp [List.getElem?_set_self hk, hfull]
    have hget : ∀ j, j ≠ k →
        (c.pages.set k (pk.packOne (c.pages[k]) w h).2)[j]? = c.pages[j]? :=
      fun j hj => List.getElem?_set_ne (fun h => hj h.symm)
    obtain ⟨pages, hrun, hlen⟩ :=
      ih (k + 1) n { c with pages := c.pages.set k (pk.packOne (c.pages[k]) w h).2 }
        (by omega)
        (by
          show (c.pages.set k _)[k + 1 + d]? = some page
          rw [hget _ (by omega), ← hpage]
          congr 1
          omega)
        hfail hempty
        (by
          intro j q hj1 hj2 hq
          have hq' : c.pages[j]? = some q := by
            rw [← hget j (by omega)]
            exact hq
          exact hbefore j q (by omega) (by omega) hq')
    exact ⟨pages, by rw [hloop, hrun], by rw [hlen]; simp⟩

/-- The loop of add when it ends without a place for the rectangle: every page from `k` on
has failed to pack it and holds a bin, and nothing but the pages has changed. -/
theorem addLoop_none {P : Type} (pk : Packer P) (fileID resourceID w h : Nat) :
    ∀ (n k : Nat) (c c' : TextureCache P), k + n = c.pages.length →
    TextureCache.addLoop pk fileID resourceID w h n k c = .ok (c', none) →
    c' = { c with pages := c'.pages } ∧ c'.pages.length = c.pages.length ∧
    (∀ (j : Nat), j < k → c'.pages[j]? = c.pages[j]?) ∧
    (∀ (j : Nat) (q : P), k ≤ j → c.pages[j]? = some q →
      (pk.packOne q w h).1 = none ∧ pk.empty (pk.packOne q w h).2 = false ∧
      c'.pages[j]? = some (pk.packOne q w h).2) := by
  intro n
  induction n with
  | zero =>
    intro k c c' hlen hrun
    simp only [TextureCache.addLoop, Except.ok.injEq, Prod.mk.injEq, and_true] at hrun
    subst hrun
    refine ⟨rfl, rfl, fun _ _ => rfl, ?_⟩
    intro j q hj hq
    have : j < c.pages.length := by
      by_contra hge
      rw [List.getElem?_eq_none (by omega)] at hq
      cases hq
    omega
  | succ n ih =>
    intro k c c' hlen hrun
    have hk : k < c.pages.length := by omega
    cases hp : (pk.packOne (c.pages[k]) w h).1 with
    | some bin =>
      rw [TextureCache.addLoop,
        addToPage_fit pk c k fileID resourceID w h _ bin (List.getElem?_eq_getElem hk) hp]
        at hrun
      cases hrun
    | none =>
      rw [TextureCache.addLoop,
        addToPage_fail pk c k fileID resourceID w h _ (List.getElem?_eq_getElem hk) hp] at hrun
      cases hempty : pk.empty (pk.packOne (c.pages[k]) w h).2 with
      | true =>
        simp [List.getElem?_set_self hk, hempty] at hrun
      | false =>
        simp only [List.getElem?_set_self hk, Option.map_some', hempty, Option.some.injEq,
          Bool.false_eq_true, if_false] at hrun
        obtain ⟨h1, h2, h3, h4⟩ := ih (k + 1) _ c' (by simp only [List.length_set]; omega) hrun
        have hget : ∀ j, j ≠ k →
            (c.pages.set k (pk.packOne (c.pages[k]) w h).2)[j]? = c.pages[j]? :=
          fun j hj => List.getElem?_set_ne (fun h => hj h.symm)
        refine ⟨?_, by rw [h2]; simp, ?_, ?_⟩
        · rw [h1]
        · intro j hj
          rw [h3 j (by omega)]
          exact hget j (by omega)
        · intro j q hj hq
          by_cases hjk : j = k
          · subst hjk
            rw [List.getElem?_eq_getElem hk] at hq
            cases hq
            refine ⟨hp, hempty, ?_⟩
            rw [h3 j (by omega)]
            exact List.getElem?_set_self hk
          · exact h4 j q (by omega) (by rw [← hq]; exact hget j hjk)
/-- The loop of add when every page from `k` on fails to pack the rectangle and holds a
bin afterwards: it ends without a place. -/
theorem addLoop_all_fail {P : Type} (pk : Packer P) (fileID resourceID w h : Nat) :
    ∀ (n k : Nat) (c : TextureCache P), k + n = c.pages.length →
    (∀ (j : Nat) (q : P), k ≤ j → c.pages[j]? = some q →
      (pk.packOne q w h).1 = none ∧ pk.empty (pk.packOne q w h).2 = false) →
    ∃ c', TextureCache.addLoop pk fileID resourceID w h n k c = .ok (c', none) := by
  intro n
  induction n with
  | zero =>
    intro k c _ _
    exact ⟨c, rfl⟩
  | succ n ih =>
    intro k c hlen hall
    have hk : k < c.pages.length := by omega
    obtain ⟨hfail, hfull⟩ := hall k (c.pages[k]) (le_refl k) (List.getElem?_eq_getElem hk)
    have hloop : TextureCache.addLoop pk fileID resourceID w h (n + 1) k c
        = TextureCache.addLoop pk fileID resourceID w h n (k + 1)
            { c with pages := c.pages.set k (pk.packOne (c.pages[k]) w h).2 } := by
      rw [TextureCache.addLoop,
        addToPage_fail pk c k fileID resourceID w h _ (List.getElem?_eq_getElem hk) hfail]
      simp [List.getElem?_set_self hk, hfull]
    rw [hloop]
    refine ih (k + 1) _ (by simp only [List.length_set]; omega) ?_
    intro j q hj hq
    have hq' : c.pages[j]? = some q := by
      rw [← hq]
      exact (List.getElem?_set_ne (by omega)).symm
    exact hall j q (by omega) hq'

/-- After a new page has been added to pages that all fail to pack the rectangle while
holding a bin, add places the rectangle on the new page when a new page can pack it, and
throws the fatal error on the new page when not; it does not retry. -/
theorem add_on_new_page {P : Type} (pk : Packer P) (hfresh : pk.FreshStaysEmpty)
    (c : TextureCache P) (fileID resourceID w h : Nat)
    (hinfo : c.gfxLoader fileID resourceID = some (w, h))
    (hstuck : ∀ (j : Nat) (q : P), c.pages[j]? = some q →
      (pk.packOne q w h).1 = none ∧ pk.empty (pk.packOne q w h).2 = false) :
    (∀ bin, (pk.packOne (pk.create c.width c.height) w h).1 = some bin →
      ∃ c', (∀ fuel, TextureCache.add pk (fuel + 1) (TextureCache.addPage pk c) fileID
          resourceID = some (.ok (c', some c.nextEntry))) ∧
        c'.pages.length = c.pages.length + 1 ∧
        c'.entries c.nextEntry = ⟨⟨fileID, resourceID, w, h⟩, c.pages.length, bin, 0⟩ ∧
        (∀ e, e ≠ c.nextEntry → c'.entries e = c.entries e) ∧
        c'.assets = TextureCache.assetsSet c.assets (fileID, resourceID) c.nextEntry ∧
        c'.pending = c.pending ++ [c.nextEntry] ∧
        c'.canEvict = c.canEvict) ∧
    ((pk.packOne (pk.create c.width c.height) w h).1 = none →
      ∃ c', (∀ fuel, TextureCache.add pk (fuel + 1) (TextureCache.addPage pk c) fileID
          resourceID = some (.error ("Failed to cache resource " ++ toString resourceID
            ++ " from file " ++ toString fileID, c'))) ∧
        c'.pages.length = c.pages.length + 1 ∧
        c' = { c with pages := c'.pages }) := by
  have hlast : (TextureCache.addPage pk c).pages[0 + c.pages.length]?
      = some (pk.create c.width c.height) := by
    simp [TextureCache.addPage]
  have hbefore : ∀ (j : Nat) (q : P), 0 ≤ j → j < 0 + c.pages.length →
      (TextureCache.addPage pk c).pages[j]? = some q →
      (pk.packOne q w h).1 = none ∧ pk.empty (pk.packOne q w h).2 = false := by
    intro j q _ hj hq
    simp only [TextureCache.addPage] at hq
    rw [List.getElem?_append_left (by omega)] at hq
    exact hstuck j q hq
  have hn : c.pages.length < (TextureCache.addPage pk c).pages.length := by
    simp [TextureCache.addPage]
  have hinfo' : (TextureCache.addPage pk c).gfxLoader fileID resourceID = some (w, h) := hinfo
  constructor
  · intro bin hfit
    obtain ⟨pages, hrun, hlen, _⟩ := addLoop_first_fit pk fileID resourceID w h bin
      (pk.create c.width c.height) c.pages.length 0 _ (TextureCache.addPage pk c) hn hlast hfit
      hbefore
    rw [Nat.zero_add] at hrun
    have hbody : ∀ c', TextureCache.addLoop pk fileID resourceID w h
          (TextureCache.addPage pk c).pages.length 0 (TextureCache.addPage pk c)
          = .ok (c', some c.nextEntry) →
        ∀ fuel, TextureCache.add pk (fuel + 1) (TextureCache.addPage pk c) fileID resourceID
          = some (.ok (c', some c.nextEntry)) := by
      intro c' hloop fuel
      simp only [TextureCache.add, TextureCache.addBody, hinfo', hloop]
    have hadd := hbody _ hrun
    refine ⟨_, hadd, ?_, ?_, ?_, rfl, rfl, rfl⟩
    · show pages.length = _
      rw [hlen]
      simp [TextureCache.addPage]
    · show Function.update c.entries c.nextEntry _ c.nextEntry = _
      rw [Function.update_same]
    · intro e he
      show Function.update c.entries c.nextEntry _ e = _
      rw [Function.update_noteq he]
  · intro hfail
    obtain ⟨pages, hrun, hlen⟩ := addLoop_fatal pk fileID resourceID w h
      (pk.create c.width c.height) c.pages.length 0 _ (TextureCache.addPage pk c) hn hlast hfail
      (hfresh _ _ _ _ hfail) hbefore
    have hbody : ∀ e, TextureCache.addLoop pk fileID resourceID w h
          (TextureCache.addPage pk c).pages.length 0 (TextureCache.addPage pk c) = .error e →
        ∀ fuel, TextureCache.add pk (fuel + 1) (TextureCache.addPage pk c) fileID resourceID
          = some (.error e) := by
      intro e hloop fuel
      simp only [TextureCache.add, TextureCache.addBody, hinfo', hloop]
    have hadd := hbody _ hrun
    refine ⟨_, hadd, ?_, rfl⟩
    · show pages.length = _
      rw [hlen]
      simp [TextureCache.addPage]

/-- After a loop of add that found no place, every page fails to pack the rectangle
again and holds a bin. -/
theorem stuck_after_loop {P : Type} (pk : Packer P) (hkeep : pk.KeepsBins)
    (hagain : pk.FailsAgain) (fileID resourceID w h : Nat) (c c' : TextureCache P)
    (hrun : TextureCache.addLoop pk fileID resourceID w h c.pages.length 0 c = .ok (c', none)) :
    ∀ (j : Nat) (q : P), c'.pages[j]? = some q →
      (pk.packOne q w h).1 = none ∧ pk.empty (pk.packOne q w h).2 = false := by
  obtain ⟨_, hlen, _, hall⟩ := addLoop_none pk fileID resourceID w h c.pages.length 0 c c'
    (by omega) hrun
  intro j q hq
  have hj : j < c.pages.length := by
    by_contra hge
    rw [List.getElem?_eq_none (by omega)] at hq
    cases hq
  obtain ⟨hfail, hfull, hq'⟩ := hall j (c.pages[j]) (Nat.zero_le j) (List.getElem?_eq_getElem hj)
  rw [hq] at hq'
  cases hq'
  refine ⟨hagain _ w h hfail, ?_⟩
  simp only [Packer.empty, Bool.not_eq_false'] at hfull ⊢
  exact hkeep _ w h 1 hfull
theorem shelfPacker_failsAgain : shelfPacker.FailsAgain := by
  intro page w h hfail
  simp only [shelfPacker, ShelfPack.packOne] at hfail ⊢
  cases hfill : ShelfPack.fill page.w w h page.shelves with
  | some placed =>
    obtain ⟨shelves, x, y⟩ := placed
    simp [hfill] at hfail
  | none =>
    simp only [hfill] at hfail ⊢
    by_cases hroom : (page.shelves.map fun shelf => shelf.h).sum + h ≤ page.h ∧ w ≤ page.w
    · simp [hroom] at hfail
    · simp [hroom, hfill]

theorem shelfPacker_freshStaysEmpty : shelfPacker.FreshStaysEmpty := by
  intro width height w h hfail
  simp only [shelfPacker, ShelfPack.packOne, ShelfPack.fill, List.map_nil, List.sum_nil,
    Nat.zero_add] at hfail ⊢
  by_cases hroom : h ≤ height ∧ w ≤ width
  · simp [hroom] at hfail
  · simp [hroom, Packer.empty]

/-- In the base cache add comes back after one retry at most, whatever the cache and the
resource. -/
theorem add_one_retry {P : Type} (pk : Packer P) (hkeep : pk.KeepsBins)
    (hagain : pk.FailsAgain) (hfresh : pk.FreshStaysEmpty) (c : TextureCache P)
    (fileID resourceID : Nat) :
    ∃ out, ∀ fuel, TextureCache.add pk (fuel + 2) c fileID resourceID = some out := by
  cases hinfo : c.gfxLoader fileID resourceID with
  | none =>
    exact ⟨.ok (c, none), fun fuel => by simp only [TextureCache.add, TextureCache.addBody, hinfo]⟩
  | some info =>
    obtain ⟨w, h⟩ := info
    cases hloop : TextureCache.addLoop pk fileID resourceID w h c.pages.length 0 c with
    | error e =>
      exact ⟨.error e, fun fuel => by
        simp only [TextureCache.add, TextureCache.addBody, hinfo, hloop]⟩
    | ok r =>
      obtain ⟨c1, asset⟩ := r
      cases asset with
      | some asset =>
        exact ⟨.ok (c1, some asset), fun fuel => by
          simp only [TextureCache.add, TextureCache.addBody, hinfo, hloop]⟩
      | none =>
        have hstuck := stuck_after_loop pk hkeep hagain fileID resourceID w h c c1 hloop
        have hsame := (addLoop_none pk fileID resourceID w h c.pages.length 0 c c1
          (by omega) hloop).1
        have hinfo1 : c1.gfxLoader fileID resourceID = some (w, h) := by
          rw [hsame]
          exact hinfo
        obtain ⟨hfit, hfail⟩ := add_on_new_page pk hfresh c1 fileID resourceID w h hinfo1 hstuck
        have hstep : ∀ fuel, TextureCache.add pk (fuel + 2) c fileID resourceID
            = TextureCache.add pk (fuel + 1) (TextureCache.addPage pk c1) fileID resourceID := by
          intro fuel
          simp only [TextureCache.add, TextureCache.addBody, hinfo, hloop]
        cases hnew : (pk.packOne (pk.create c1.width c1.height) w h).1 with
        | some bin =>
          obtain ⟨c', hadd, _⟩ := hfit bin hnew
          exact ⟨_, fun fuel => by rw [hstep, hadd fuel]⟩
        | none =>
          obtain ⟨c', hadd, _⟩ := hfail hnew
          exact ⟨_, fun fuel => by rw [hstep, hadd fuel]⟩

/-- C23: the base cache runs on a bin packer whose packOne takes no bin away, fails again
on a page where it failed, and leaves a new page empty when it fails on it. Then add comes
back after one retry at most. When a page reports itself empty after it failed to pack the
rectangle, the pages before it having failed while holding a bin, add throws the fatal
error and adds no page. When every existing page fails to pack the rectangle and holds a
bin, add does not come back without a retry; it appends exactly one page and retries
once: the retry places the entry on the new page when a new page can pack the rectangle,
and throws the fatal error on the new page when not. -/
theorem C23_out_of_space_one_retry {P : Type} (pk : Packer P) (c : TextureCache P)
    (fileID resourceID : Nat) (hkeep : pk.KeepsBins) (hagain : pk.FailsAgain)
    (hfresh : pk.FreshStaysEmpty) :
    (∃ out, ∀ fuel, TextureCache.add pk (fuel + 2) c fileID resourceID = some out) ∧
    (∀ (w h i : Nat) (page : P), c.gfxLoader fileID resourceID = some (w, h) →
      c.pages[i]? = some page →
      (∀ (j : Nat) (q : P), j < i → c.pages[j]? = some q →
        (pk.packOne q w h).1 = none ∧ pk.empty (pk.packOne q w h).2 = false) →
      (pk.packOne page w h).1 = none → pk.empty (pk.packOne page w h).2 = true →
      ∃ c', (∀ fuel, TextureCache.add pk (fuel + 1) c fileID resourceID
          = some (.error ("Failed to cache resource " ++ toString resourceID ++ " from file "
              ++ toString fileID, c'))) ∧
        c'.pages.length = c.pages.length ∧ c'.assets = c.assets ∧ c'.entries = c.entries) ∧
    (∀ (w h : Nat), c.gfxLoader fileID resourceID = some (w, h) →
      (∀ (j : Nat) (q : P), c.pages[j]? = some q →
        (pk.packOne q w h).1 = none ∧ pk.empty (pk.packOne q w h).2 = false) →
      TextureCache.add pk 1 c fileID resourceID = none ∧
      (∀ bin, (pk.packOne (pk.create c.width c.height) w h).1 = some bin →
        ∃ c', (∀ fuel, TextureCache.add pk (fuel + 2) c fileID resourceID
            = some (.ok (c', some c.nextEntry))) ∧
          c'.pages.length = c.pages.length + 1 ∧
          c'.entries c.nextEntry = ⟨⟨fileID, resourceID, w, h⟩, c.pages.length, bin, 0⟩ ∧
          (∀ e, e ≠ c.nextEntry → c'.entries e = c.entries e) ∧
          c'.assetsGet (fileID, resourceID) = some c.nextEntry ∧
          c'.pending = c.pending ++ [c.nextEntry]) ∧
      ((pk.packOne (pk.create c.width c.height) w h).1 = none →
        ∃ c', (∀ fuel, TextureCache.add pk (fuel + 2) c fileID resourceID
            = some (.error ("Failed to cache resource " ++ toString resourceID
                ++ " from file " ++ toString fileID, c'))) ∧
          c'.pages.length = c.pages.length + 1 ∧ c'.assets = c.assets ∧
          c'.entries = c.entries)) := by
  refine ⟨add_one_retry pk hkeep hagain hfresh c fileID resourceID, ?_, ?_⟩
  · intro w h i page hinfo hpage hbefore hfail hempty
    have hi : i < c.pages.length := by
      by_contra hge
      rw [List.getElem?_eq_none (by omega)] at hpage
      cases hpage
    obtain ⟨pages, hrun, hlen⟩ := addLoop_fatal pk fileID resourceID w h page i 0
      c.pages.length c hi (by rw [Nat.zero_add]; exact hpage) hfail hempty
      (fun j q _ hj hq => hbefore j q (by omega) hq)
    refine ⟨{ c with pages := pages }, ?_, hlen, rfl, rfl⟩
    intro fuel
    simp only [TextureCache.add, TextureCache.addBody, hinfo, hrun]
  · intro w h hinfo hall
    obtain ⟨c1, hloop⟩ := addLoop_all_fail pk fileID resourceID w h c.pages.length 0 c
      (by omega) (fun j q _ hq => hall j q hq)
    obtain ⟨hsame, hlen, _, _⟩ := addLoop_none pk fileID resourceID w h c.pages.length 0 c c1
      (by omega) hloop
    have hstuck := stuck_after_loop pk hkeep hagain fileID resourceID w h c c1 hloop
    have hinfo1 : c1.gfxLoader fileID resourceID = some (w, h) := by
      rw [hsame]
      exact hinfo
    have hstep : ∀ fuel, TextureCache.add pk (fuel + 2) c fileID resourceID
        = TextureCache.add pk (fuel + 1) (TextureCache.addPage pk c1) fileID resourceID := by
      intro fuel
      simp only [TextureCache.add, TextureCache.addBody, hinfo, hloop]
    have hw : c1.width = c.width := by rw [hsame]
    have hh : c1.height = c.height := by rw [hsame]
    have hn : c1.nextEntry = c.nextEntry := by rw [hsame]
    have he : c1.entries = c.entries := by rw [hsame]
    have ha : c1.assets = c.assets := by rw [hsame]
    have hp : c1.pending = c.pending := by rw [hsame]
    obtain ⟨hfit, hfails⟩ := add_on_new_page pk hfresh c1 fileID resourceID w h hinfo1 hstuck
    rw [hw, hh] at hfit hfails
    refine ⟨by simp only [TextureCache.add, TextureCache.addBody, hinfo, hloop], ?_, ?_⟩
    · intro bin hnew
      obtain ⟨c', hadd, h1, h2, h3, h4, h5, _⟩ := hfit bin hnew
      rw [hn] at hadd h2 h3 h4 h5
      refine ⟨c', fun fuel => by rw [hstep, hadd fuel], by rw [h1, hlen], ?_, ?_, ?_, ?_⟩
      · rw [h2, hlen]
      · intro e hne
        rw [h3 e hne, he]
      · simp only [TextureCache.assetsGet, h4]
        have := assetsGet_assetsSet c1.assets (fileID, resourceID) (fileID, resourceID)
          c.nextEntry
        rw [if_pos rfl] at this
        exact this
      · rw [h5, hp]
    · intro hnew
      obtain ⟨c', hadd, h1, h2⟩ := hfails hnew
      refine ⟨c', fun fuel => by rw [hstep, hadd fuel], by rw [h1, hlen], ?_, ?_⟩
      · rw [h2]
        exact ha
      · rw [h2]
        exact he
/-- C23 at work: the one page of the sample cache is full, so add for the resource (3, 102)
needs a retry, adds a second page and places the entry there. -/
theorem C23_out_of_space_one_retry_witness :
    TextureCache.add shelfPacker 1 fullCache 3 102 = none ∧
    ∃ c', TextureCache.add shelfPacker 2 fullCache 3 102 = some (.ok (c', some 1)) ∧
      c'.pages.length = 2 ∧
      c'.entries 1 = ⟨⟨3, 102, 64, 64⟩, 1, ⟨1, 0, 0, 64, 64⟩, 0⟩ := by
  have h := (C23_out_of_space_one_retry shelfPacker fullCache 3 102 shelfPacker_keepsBins
    shelfPacker_failsAgain shelfPacker_freshStaysEmpty).2.2 64 64 (by decide)
    (by
      intro j q hq
      have hj : j = 0 := by
        by_contra hne
        rw [List.getElem?_eq_none (by
          simp only [fullCache, TextureCache.new, List.length_cons, List.length_nil]
          omega)] at hq
        cases hq
      subst hj
      simp only [fullCache, TextureCache.new, List.getElem?_cons_zero, Option.some.injEq] at hq
      subst hq
      decide)
  obtain ⟨c', hadd, hlen, hentry, _⟩ := h.2.1 ⟨1, 0, 0, 64, 64⟩ (by decide)
  exact ⟨h.1, c', hadd 0, hlen, hentry⟩

/-! ## One sweep for each request -/

/-- The loop of add leaves canEvict as it is, and the Map as it is or with the new entry
under the key of the resource. -/
theorem addLoop_frame {P : Type} (pk : Packer P) (fileID resourceID w h : Nat) :
    ∀ (n k : Nat) (c : TextureCache P),
    (TextureCache.outcome (TextureCache.addLoop pk fileID resourceID w h n k c)).canEvict
      = c.canEvict ∧
    ((TextureCache.outcome (TextureCache.addLoop pk fileID resourceID w h n k c)).assets
        = c.assets ∨
      ∃ ref, (TextureCache.outcome (TextureCache.addLoop pk fileID resourceID w h n k c)).assets
        = TextureCache.assetsSet c.assets (fileID, resourceID) ref) := by
  intro n
  induction n with
  | zero =>
    intro k c
    exact ⟨rfl, Or.inl rfl⟩
  | succ n ih =>
    intro k c
    have hpage : (TextureCache.addToPage pk c k fileID resourceID w h).1.canEvict = c.canEvict ∧
        (TextureCache.addToPage pk c k fileID resourceID w h).1.assets = c.assets := by
      unfold TextureCache.addToPage
      split
      · exact ⟨rfl, rfl⟩
      · dsimp only
        split <;> exact ⟨rfl, rfl⟩
    rw [TextureCache.addLoop]
    rcases hres : TextureCache.addToPage pk c k fileID resourceID w h with ⟨c1, asset⟩
    rw [hres] at hpage
    cases asset with
    | some ref =>
      exact ⟨hpage.1, Or.inr ⟨ref, by
        show TextureCache.assetsSet c1.assets _ ref = _
        rw [hpage.2]
        rfl⟩⟩
    | none =>
      dsimp only
      split
      · exact ⟨hpage.1, Or.inl hpage.2⟩
      · obtain ⟨h1, h2⟩ := ih (k + 1) c1
        rw [hpage.1] at h1
        rw [hpage.2] at h2
        exact ⟨h1, h2⟩

/-- The lookup of another key does not see the entry of a resource. -/
theorem assetsGet_other {P : Type} (c c' : TextureCache P) (key other : Nat × Nat)
    (hne : other ≠ key)
    (h : c'.assets = c.assets ∨ ∃ ref, c'.assets = TextureCache.assetsSet c.assets key ref) :
    c'.assetsGet other = c.assetsGet other := by
  rcases h with h | ⟨ref, h⟩
  · simp only [TextureCache.assetsGet, h]
  · simp only [TextureCache.assetsGet, h]
    have := assetsGet_assetsSet c.assets key other ref
    rw [if_neg hne] at this
    exact this

/-- The add of the base cache takes no asset out of the Map: every key but the one of the
resource has the entry it had. -/
theorem add_keeps_assets {P : Type} (pk : Packer P) (fileID resourceID : Nat) :
    ∀ (fuel : Nat) (c : TextureCache P) out,
    TextureCache.add pk fuel c fileID resourceID = some out →
    ∀ other, other ≠ (fileID, resourceID) →
      (TextureCache.outcome out).assetsGet other = c.assetsGet other := by
  intro fuel
  induction fuel with
  | zero =>
    intro c out hrun
    simp [TextureCache.add] at hrun
  | succ fuel ih =>
    intro c out hrun other hne
    simp only [TextureCache.add, TextureCache.addBody] at hrun
    cases hinfo : c.gfxLoader fileID resourceID with
    | none =>
      simp only [hinfo, Option.some.injEq] at hrun
      subst hrun
      rfl
    | some info =>
      simp only [hinfo] at hrun
      have hframe := (addLoop_frame pk fileID resourceID info.1 info.2 c.pages.length 0 c).2
      cases hloop : TextureCache.addLoop pk fileID resourceID info.1 info.2 c.pages.length 0 c with
      | error e =>
        obtain ⟨message, c'⟩ := e
        simp only [hloop, Option.some.injEq] at hrun
        subst hrun
        rw [hloop] at hframe
        exact assetsGet_other c c' _ other hne hframe
      | ok r =>
        obtain ⟨c', asset⟩ := r
        rw [hloop] at hframe
        have hget : c'.assetsGet other = c.assetsGet other :=
          assetsGet_other c c' _ other hne hframe
        cases asset with
        | some asset =>
          simp only [hloop, Option.some.injEq] at hrun
          subst hrun
          exact hget
        | none =>
          simp only [hloop] at hrun
          rw [ih (TextureCache.addPage pk c') out hrun other hne, ← hget]
          rfl

theorem armed_armed {P : Type} (x : Option (Throws (TextureCache P) (TextureCache P × Option Nat))) :
    (x.map EvictingTextureCache.armed).map EvictingTextureCache.armed
      = x.map EvictingTextureCache.armed := by
  cases x with
  | none => rfl
  | some out =>
    cases out with
    | error e => rfl
    | ok r => rfl

/-- The add of the evicting cache is the body of the base class with the outcome armed. -/
theorem evicting_add_eq {P : Type} (pk : Packer P) (fuel : Nat) (c : TextureCache P)
    (fileID resourceID : Nat) :
    EvictingTextureCache.add pk (fuel + 1) c fileID resourceID
      = (TextureCache.addBody pk (EvictingTextureCache.handleOutOfSpace pk)
          (fun c f r => EvictingTextureCache.add pk fuel c f r) c fileID resourceID).map
          EvictingTextureCache.armed := by
  rw [EvictingTextureCache.add]
  generalize TextureCache.addBody pk (EvictingTextureCache.handleOutOfSpace pk)
    (fun c f r => EvictingTextureCache.add pk fuel c f r) c fileID resourceID = x
  cases x with
  | none => rfl
  | some out =>
    cases out with
    | error e => rfl
    | ok r => rfl

/-- A disarmed evicting cache handles a request as the base cache does, without a sweep. -/
theorem evicting_add_disarmed {P : Type} (pk : Packer P) (fileID resourceID : Nat) :
    ∀ (fuel : Nat) (c : TextureCache P), c.canEvict = false →
    EvictingTextureCache.add pk fuel c fileID resourceID
      = (TextureCache.add pk fuel c fileID resourceID).map EvictingTextureCache.armed := by
  intro fuel
  induction fuel with
  | zero =>
    intro c _
    rfl
  | succ fuel ih =>
    intro c hc
    rw [evicting_add_eq, TextureCache.add]
    unfold TextureCache.addBody
    cases hinfo : c.gfxLoader fileID resourceID with
    | none => rfl
    | some info =>
      dsimp only
      have hkeep := (addLoop_frame pk fileID resourceID info.1 info.2 c.pages.length 0 c).1
      cases hloop : TextureCache.addLoop pk fileID resourceID info.1 info.2 c.pages.length 0 c with
      | error e => rfl
      | ok r =>
        obtain ⟨c1, asset⟩ := r
        cases asset with
        | some asset => rfl
        | none =>
          rw [hloop] at hkeep
          have hc1 : c1.canEvict = false := hkeep.trans hc
          have hout : EvictingTextureCache.handleOutOfSpace pk c1 = TextureCache.addPage pk c1 := by
            simp [EvictingTextureCache.handleOutOfSpace, hc1]
          dsimp only
          rw [hout, ih (TextureCache.addPage pk c1) hc1, armed_armed]

/-- An armed evicting cache whose loop finds no place sweeps once and then handles the
request as the base cache does. -/
theorem evicting_add_armed {P : Type} (pk : Packer P) (fileID resourceID w h : Nat)
    (c c1 : TextureCache P) (hc : c.canEvict = true)
    (hinfo : c.gfxLoader fileID resourceID = some (w, h))
    (hloop : TextureCache.addLoop pk fileID resourceID w h c.pages.length 0 c = .ok (c1, none))
    (fuel : Nat) :
    EvictingTextureCache.handleOutOfSpace pk c1 = EvictingTextureCache.evict c1 ∧
    EvictingTextureCache.add pk (fuel + 1) c fileID resourceID
      = (TextureCache.add pk fuel (EvictingTextureCache.evict c1) fileID resourceID).map
          EvictingTextureCache.armed := by
  have hkeep := (addLoop_frame pk fileID resourceID w h c.pages.length 0 c).1
  rw [hloop] at hkeep
  have hc1 : c1.canEvict = true := hkeep.trans hc
  have hout : EvictingTextureCache.handleOutOfSpace pk c1 = EvictingTextureCache.evict c1 := by
    simp [EvictingTextureCache.handleOutOfSpace, hc1]
  refine ⟨hout, ?_⟩
  rw [evicting_add_eq]
  simp only [TextureCache.addBody, hinfo, hloop, hout]
  rw [evicting_add_disarmed pk fileID resourceID fuel (EvictingTextureCache.evict c1) rfl,
    armed_armed]

/-- An add of the evicting cache that returns leaves canEvict armed. -/
theorem evicting_add_returns_armed {P : Type} (pk : Packer P) (fuel : Nat)
    (c c' : TextureCache P) (fileID resourceID : Nat) (asset : Option Nat)
    (hrun : EvictingTextureCache.add pk fuel c fileID resourceID = some (.ok (c', asset))) :
    c'.canEvict = true := by
  cases fuel with
  | zero => simp [EvictingTextureCache.add] at hrun
  | succ fuel =>
    rw [evicting_add_eq] at hrun
    generalize TextureCache.addBody pk (EvictingTextureCache.handleOutOfSpace pk)
      (fun c f r => EvictingTextureCache.add pk fuel c f r) c fileID resourceID = x at hrun
    cases x with
    | none => cases hrun
    | some out =>
      cases out with
      | error e => cases hrun
      | ok r =>
        obtain ⟨c0, a⟩ := r
        simp only [Option.map_some', EvictingTextureCache.armed, Option.some.injEq,
          Except.ok.injEq, Prod.mk.injEq] at hrun
        rw [← hrun.1]

/-- C24: the evicting cache runs on a bin packer whose packOne takes no bin away, fails
again on a page where it failed, and leaves a new page empty when it fails on it. A
request comes back after two retries at most. A request that returns leaves canEvict
armed, be it add or a get on an armed cache. On a disarmed cache handleOutOfSpace adds a
page and leaves the Map as it is, and the whole request runs as in the base cache, which
never sweeps and takes no asset out of the Map. On an armed cache a request whose loop
finds no place sweeps once, which disarms the cache, and then runs as in the base cache:
one sweep at most for each request. -/
theorem C24_one_shot_eviction {P : Type} (pk : Packer P) (c : TextureCache P)
    (fileID resourceID : Nat) (hkeep : pk.KeepsBins) (hagain : pk.FailsAgain)
    (hfresh : pk.FreshStaysEmpty) :
    (∃ out, ∀ fuel, EvictingTextureCache.add pk (fuel + 3) c fileID resourceID = some out) ∧
    (∀ fuel c' asset,
      EvictingTextureCache.add pk fuel c fileID resourceID = some (.ok (c', asset)) →
      c'.canEvict = true) ∧
    (c.canEvict = true → ∀ fuel c' asset,
      EvictingTextureCache.get pk fuel c fileID resourceID = some (.ok (c', asset)) →
      c'.canEvict = true) ∧
    (c.canEvict = false →
      EvictingTextureCache.handleOutOfSpace pk c = TextureCache.addPage pk c ∧
      (EvictingTextureCache.handleOutOfSpace pk c).pages = c.pages ++ [pk.create c.width c.height] ∧
      (EvictingTextureCache.handleOutOfSpace pk c).assets = c.assets ∧
      ∀ fuel, EvictingTextureCache.add pk fuel c fileID resourceID
        = (TextureCache.add pk fuel c fileID resourceID).map EvictingTextureCache.armed) ∧
    (c.canEvict = true → ∀ w h c1, c.gfxLoader fileID resourceID = some (w, h) →
      TextureCache.addLoop pk fileID resourceID w h c.pages.length 0 c = .ok (c1, none) →
      EvictingTextureCache.handleOutOfSpace pk c1 = EvictingTextureCache.evict c1 ∧
      (EvictingTextureCache.evict c1).canEvict = false ∧
      ∀ fuel, EvictingTextureCache.add pk (fuel + 1) c fileID resourceID
        = (TextureCache.add pk fuel (EvictingTextureCache.evict c1) fileID resourceID).map
            EvictingTextureCache.armed) ∧
    (∀ fuel (c0 : TextureCache P) out, TextureCache.add pk fuel c0 fileID resourceID = some out →
      ∀ other, other ≠ (fileID, resourceID) →
        (TextureCache.outcome out).assetsGet other = c0.assetsGet other) := by
  have hdisarmed : c.canEvict = false →
      ∃ out, ∀ fuel, EvictingTextureCache.add pk (fuel + 3) c fileID resourceID = some out := by
    intro hc
    obtain ⟨out, hout⟩ := add_one_retry pk hkeep hagain hfresh c fileID resourceID
    exact ⟨EvictingTextureCache.armed out, fun fuel => by
      rw [evicting_add_disarmed pk fileID resourceID (fuel + 3) c hc, hout (fuel + 1)]
      rfl⟩
  have harmed : c.canEvict = true →
      ∃ out, ∀ fuel, EvictingTextureCache.add pk (fuel + 3) c fileID resourceID = some out := by
    intro hc
    cases hinfo : c.gfxLoader fileID resourceID with
    | none =>
      exact ⟨.ok ({ c with canEvict := true }, none), fun fuel => by
        rw [evicting_add_eq]
        simp only [TextureCache.addBody, hinfo]
        rfl⟩
    | some info =>
      obtain ⟨w, h⟩ := info
      cases hloop : TextureCache.addLoop pk fileID resourceID w h c.pages.length 0 c with
      | error e =>
        exact ⟨.error e, fun fuel => by
          rw [evicting_add_eq]
          simp only [TextureCache.addBody, hinfo, hloop]
          rfl⟩
      | ok r =>
        obtain ⟨c1, asset⟩ := r
        cases asset with
        | some asset =>
          exact ⟨.ok ({ c1 with canEvict := true }, some asset), fun fuel => by
            rw [evicting_add_eq]
            simp only [TextureCache.addBody, hinfo, hloop]
            rfl⟩
        | none =>
          obtain ⟨out, hout⟩ := add_one_retry pk hkeep hagain hfresh
            (EvictingTextureCache.evict c1) fileID resourceID
          exact ⟨EvictingTextureCache.armed out, fun fuel => by
            rw [(evicting_add_armed pk fileID resourceID w h c c1 hc hinfo hloop (fuel + 2)).2,
              hout fuel]
            rfl⟩
  refine ⟨?_, ?_, ?_, ?_, ?_, ?_⟩
  · cases hc : c.canEvict with
    | false => exact hdisarmed hc
    | true => exact harmed hc
  · intro fuel c' asset hrun
    exact evicting_add_returns_armed pk fuel c c' fileID resourceID asset hrun
  · intro hc fuel c' asset hrun
    unfold EvictingTextureCache.get at hrun
    split at hrun
    · simp only [Option.some.injEq, Except.ok.injEq, Prod.mk.injEq] at hrun
      rw [← hrun.1]
      exact hc
    · exact evicting_add_returns_armed pk fuel c c' fileID resourceID asset hrun
  · intro hc
    have hout : EvictingTextureCache.handleOutOfSpace pk c = TextureCache.addPage pk c := by
      simp [EvictingTextureCache.handleOutOfSpace, hc]
    refine ⟨hout, by rw [hout]; rfl, by rw [hout]; rfl, ?_⟩
    intro fuel
    exact evicting_add_disarmed pk fileID resourceID fuel c hc
  · intro hc w h c1 hinfo hloop
    refine ⟨(evicting_add_armed pk fileID resourceID w h c c1 hc hinfo hloop 0).1, rfl, ?_⟩
    intro fuel
    exact (evicting_add_armed pk fileID resourceID w h c c1 hc hinfo hloop fuel).2
  · intro fuel c0 out hrun other hne
    exact add_keeps_assets pk fileID resourceID fuel c0 out hrun other hne

/-- C24 at work: the one page of the sample cache is full, so the request for (3, 102)
sweeps, fails again, adds a second page and places the entry there; it comes back with
canEvict armed. -/
theorem C24_one_shot_eviction_witness :
    ∃ c', EvictingTextureCache.add shelfPacker 3 fullCache 3 102 = some (.ok (c', some 1)) ∧
      c'.pages.length = 2 ∧ c'.canEvict = true := by
  have h : checkAdded (EvictingTextureCache.add shelfPacker 3 fullCache 3 102)
      (fun c' asset => decide (asset = 1 ∧ c'.pages.length = 2)) = true := by
    decide
  obtain ⟨c', asset, hrun, hcheck⟩ := checkAdded_elim h
  obtain ⟨rfl, hlen⟩ := of_decide_eq_true hcheck
  exact ⟨c', hrun, hlen,
    (C24_one_shot_eviction shelfPacker fullCache 3 102 shelfPacker_keepsBins
      shelfPacker_failsAgain shelfPacker_freshStaysEmpty).2.1 3 c' (some 1) hrun⟩

end Eomap
